import Mathlib

/-! PT68K5 EmuTOS booter: installer, stage-2 loader and disk driver.

A shallow embedding of `installboot/installboot.c` (the REX boot-object encoder and the
sector-chain writer for floppy and MBR disk images), of `boot1/boot1.c` (header
validation, loaders and the drive orchestrator) and of `lib/diskio.c` (the polled sector
read), with the properties proved about them.

Bytes are natural numbers; files and images are lists of bytes.  The installer's loops
are embedded with an explicit iteration budget, and every result about them shows that
the budget handed over by the caller is enough; the polling loop of the disk driver is
bounded by its own counter.  The disk routine of the installer stores four bytes past
the end of its sector buffer; what they hit is a parameter of the embedding (`Spill`).
-/

namespace Installboot

/-! ## Constants of `installboot.c` -/

def floppy_tracks : Nat := 80
def floppy_sectors : Nat := 17 * 2 * 2
def floppy_sector_size : Nat := 256
def floppy_size : Nat := floppy_tracks * floppy_sectors * floppy_sector_size
def sector_header_size : Nat := 4
def sector_data_size : Nat := floppy_sector_size - sector_header_size
def load_cmd_tag : Nat := 0x01
def entry_cmd_tag : Nat := 0x16
def load_address : Nat := 0x00200000
def SECTOR_SIZE : Nat := 512

/-- The fatal diagnostics of the installer (`error` / `errorx`, both of which exit). -/
inductive InstallError where
  | booterTooLarge
  | booterTooLargeForFloppy
  | readingMBR
  | badMagic (m0 m1 : Nat)
  | overlap (required_sectors i start : Nat)
  deriving DecidableEq, Repr

/-! ## The target file descriptor -/

/-- An open regular file: its bytes, the descriptor's offset, and the number of
`write` calls issued on it so far. -/
structure Fd where
  bytes : List Nat
  pos : Nat
  nwrites : Nat
  deriving DecidableEq, Repr

/-- `fd_size`: the size `fstat` reports. -/
def fd_size (fd : Fd) : Nat := fd.bytes.length

/-- `read(fd, buf, n)`: the bytes transferred (fewer than `n` at end of file) and the
descriptor advanced past them. -/
def read (fd : Fd) (n : Nat) : List Nat × Fd :=
  let got := (fd.bytes.drop fd.pos).take n
  (got, { fd with pos := fd.pos + got.length })

/-- The file contents after storing `buf` at offset `pos` (a regular file grows when
the store runs past its end; a gap is zero-filled). -/
def pwrite (bytes : List Nat) (pos : Nat) (buf : List Nat) : List Nat :=
  bytes.take pos ++ List.replicate (pos - bytes.length) 0 ++ buf ++
    bytes.drop (pos + buf.length)

/-- `write(fd, buf, n)` on a regular file, `buf` being the `n` bytes handed over. -/
def write (fd : Fd) (buf : List Nat) : Fd :=
  { bytes := pwrite fd.bytes fd.pos buf, pos := fd.pos + buf.length,
    nwrites := fd.nwrites + 1 }

/-! ## Stores into the sector buffer `disk_buf.raw` -/

/-- `memcpy(&buf[dst], src, src.length)`, as far as it falls inside the object `buf`:
the buffer afterwards.  The bytes of a store that runs past the end of `buf` are
`spilled`. -/
def memcpy (buf : List Nat) (dst : Nat) (src : List Nat) : List Nat :=
  (buf.take dst ++ src ++ buf.drop (dst + src.length)).take buf.length

/-- The bytes that `memcpy(&buf[dst], src, src.length)` stores past the end of the
object `buf`, in order from index `buf.length` on; none when the store fits. -/
def spilled (buf : List Nat) (dst : Nat) (src : List Nat) : List Nat :=
  src.drop (buf.length - dst)

/-- What the bytes that `update_hd_image` stores past the end of `disk_buf` land on.
The C source does not fix it, it is a matter of how the program is built: `spare` is
storage the program does not use afterwards, so the run goes on as if nothing had been
stored; `booter_exec` is the head of `booter`, the object defined right after
`disk_buf`, whose first member is the pointer `exec`: the pointer is overwritten and the
next read through it is a memory fault that kills the process. -/
inductive Spill where
  | spare
  | booter_exec
  deriving DecidableEq, Repr

/-- `memset(&buf[dst], v, n)`. -/
def memset (buf : List Nat) (dst v n : Nat) : List Nat :=
  memcpy buf dst (List.replicate n v)

/-! ## `make_rex_exec` -/

/-- `make_rex_exec`: the entry command, the load command and the booter file's bytes. -/
def make_rex_exec (file : List Nat) : Except InstallError (List Nat) :=
  let file_size := file.length
  if file_size > 0xffff then
    .error .booterTooLarge
  else
    .ok ([ entry_cmd_tag,
           (load_address >>> 24) &&& 0xff,
           (load_address >>> 16) &&& 0xff,
           (load_address >>> 8) &&& 0xff,
           load_address &&& 0xff,
           load_cmd_tag,
           (load_address >>> 24) &&& 0xff,
           (load_address >>> 16) &&& 0xff,
           (load_address >>> 8) &&& 0xff,
           load_address &&& 0xff,
           (file_size >>> 8) &&& 0xff,
           file_size &&& 0xff ] ++ file)

/-! ## `update_floppy_image` -/

/-- What an `update_*` routine leaves behind: the diagnostic it died with (if any),
the target file, the sector buffer, whether the "no active partition" warning was
printed, the last block named in the summary line, and whether the process was killed
by a memory fault (it prints neither a diagnostic nor the summary line then). -/
structure Outcome where
  err : Option InstallError
  fd : Fd
  disk_buf : List Nat
  warned : Bool
  summary : Option Nat
  killed : Bool
  deriving DecidableEq, Repr

/-- Local variables of the copy loop of `update_floppy_image`. -/
structure FloppyState where
  track : Nat
  sector : Nat
  file_block : Nat
  offset : Nat
  disk_buf : List Nat
  fd : Fd
  deriving DecidableEq, Repr

/-- One pass through the body of the `while (offset < booter.size)` loop of
`update_floppy_image`. -/
def floppy_body (booter : List Nat) (s : FloppyState) : FloppyState :=
  let copy_size := booter.length - s.offset
  let last := decide (copy_size ≤ sector_data_size)
  let wrap := decide (s.sector = floppy_sectors)
  -- `if (sector++ == floppy_sectors) { track++; sector = 1; }`
  let track := if last then s.track else if wrap then s.track + 1 else s.track
  let sector := if last then s.sector else if wrap then 1 else s.sector + 1
  let buf := s.disk_buf.set 0 (if last then 0 else track &&& 0xff)
  let buf := buf.set 1 (if last then 0 else sector &&& 0xff)
  let buf := buf.set 2 ((s.file_block >>> 8) &&& 0xff)
  let buf := buf.set 3 (s.file_block &&& 0xff)
  let copy_size := if copy_size > sector_data_size then sector_data_size else copy_size
  let buf := memcpy buf sector_header_size ((booter.drop s.offset).take copy_size)
  let buf := if copy_size < sector_data_size then
      memset buf (sector_header_size + copy_size) 0 (sector_data_size - copy_size)
    else buf
  { track := track, sector := sector, file_block := s.file_block + 1,
    offset := s.offset + copy_size, disk_buf := buf,
    fd := write s.fd (buf.take floppy_sector_size) }

/-- The copy loop of `update_floppy_image`, run for at most `fuel` passes; `none`
when the budget ends before the loop condition turns false. -/
def floppy_loop (booter : List Nat) : Nat → FloppyState → Option FloppyState
  | 0, s => if s.offset < booter.length then none else some s
  | fuel + 1, s =>
    if s.offset < booter.length then floppy_loop booter fuel (floppy_body booter s)
    else some s

/-- `update_floppy_image`, on the encoded booter, the current sector buffer and the
open image. -/
def update_floppy_image (booter : List Nat) (disk_buf : List Nat) (fd : Fd) :
    Option Outcome :=
  let required_size := booter.length +
    ((booter.length + sector_data_size - 1) / sector_data_size) * sector_header_size
  if required_size > floppy_size then
    some { err := some .booterTooLargeForFloppy, fd := fd, disk_buf := disk_buf,
           warned := false, summary := none, killed := false }
  else
    (floppy_loop booter booter.length
        { track := 0, sector := 1, file_block := 0, offset := 0,
          disk_buf := disk_buf, fd := fd }).map
      fun s => { err := none, fd := s.fd, disk_buf := s.disk_buf,
                 warned := false, summary := none, killed := false }

/-! ## `update_hd_image` -/

/-- A little-endian 32-bit field of the packed `mbr` view of the sector buffer (the
installer runs on a little-endian host, the byte order of the MBR itself). -/
def le32 (buf : List Nat) (i : Nat) : Nat :=
  buf.getD i 0 + 256 * buf.getD (i + 1) 0 + 65536 * buf.getD (i + 2) 0 +
    16777216 * buf.getD (i + 3) 0

/-- `disk_buf.mbr.partition[i].active` (offset 446 + 16 i). -/
def part_active (buf : List Nat) (i : Nat) : Nat := buf.getD (446 + 16 * i) 0

/-- `disk_buf.mbr.partition[i].start` (offset 446 + 16 i + 8). -/
def part_start (buf : List Nat) (i : Nat) : Nat := le32 buf (446 + 16 * i + 8)

/-- `disk_buf.mbr.partition[i].size` (offset 446 + 16 i + 12). -/
def part_size (buf : List Nat) (i : Nat) : Nat := le32 buf (446 + 16 * i + 12)

/-- `disk_buf.mbr.magic[i]` (offset 510 + i). -/
def mbr_magic (buf : List Nat) (i : Nat) : Nat := buf.getD (510 + i) 0

/-- The `for (i = 0; i < 4; i++)` overlap check of `update_hd_image`, from entry `i`
on with `n` entries left: the first entry that trips it. -/
def overlap_check (buf : List Nat) (required_sectors : Nat) : Nat → Nat → Option InstallError
  | 0, _ => none
  | n + 1, i =>
    if part_size buf i ≠ 0 ∧ part_start buf i < required_sectors then
      some (.overlap required_sectors i (part_start buf i))
    else overlap_check buf required_sectors n (i + 1)

/-- Local variables of the copy loop of `update_hd_image`, together with what has
become of the process: `exec_valid` says that the pointer `booter.exec` still points at
the encoded booter, `killed` that a memory fault has ended the run. -/
structure HdState where
  offset : Nat
  lba : Nat
  file_block : Nat
  disk_buf : List Nat
  fd : Fd
  exec_valid : Bool
  killed : Bool
  deriving DecidableEq, Repr

/-- One pass through the body of the `while (offset < booter.size)` loop of
`update_hd_image`.  The header stores come first; the `memcpy` reads through
`booter.exec`, which kills the process when the pointer has been overwritten; the
`memset` of `SECTOR_SIZE - copy_size` bytes from index `sector_header_size + copy_size`
runs four bytes past the end of `disk_buf`, and where those bytes land is `spill`. -/
def hd_body (spill : Spill) (booter : List Nat) (s : HdState) : HdState :=
  let copy_size := booter.length - s.offset
  let last := decide (copy_size ≤ sector_data_size)
  let buf := s.disk_buf.set 0 (if last then 0 else ((s.lba + 1) >>> 8) &&& 0xff)
  let buf := buf.set 1 (if last then 0 else (s.lba + 1) &&& 0xff)
  let buf := buf.set 2 ((s.file_block >>> 8) &&& 0xff)
  let buf := buf.set 3 (s.file_block &&& 0xff)
  let copy_size := if copy_size > sector_data_size then sector_data_size else copy_size
  if s.exec_valid = false then
    { s with file_block := s.file_block + 1, disk_buf := buf, killed := true }
  else
    let buf := memcpy buf 4 ((booter.drop s.offset).take copy_size)
    let over := if s.lba = 1 ∨ copy_size < sector_data_size then
        spilled buf (sector_header_size + copy_size) (List.replicate (SECTOR_SIZE - copy_size) 0)
      else []
    let buf := if s.lba = 1 ∨ copy_size < sector_data_size then
        memset buf (sector_header_size + copy_size) 0 (SECTOR_SIZE - copy_size)
      else buf
    { offset := s.offset + copy_size, lba := s.lba + 1, file_block := s.file_block + 1,
      disk_buf := buf, fd := write s.fd (buf.take SECTOR_SIZE),
      exec_valid := decide (over = [] ∨ spill = .spare), killed := false }

/-- The copy loop of `update_hd_image`, run for at most `fuel` passes: it ends when the
loop condition turns false, and when the process is killed; `none` when the budget ends
before either. -/
def hd_loop (spill : Spill) (booter : List Nat) : Nat → HdState → Option HdState
  | 0, s => if s.killed = false ∧ s.offset < booter.length then none else some s
  | fuel + 1, s =>
    if s.killed = false ∧ s.offset < booter.length then
      hd_loop spill booter fuel (hd_body spill booter s)
    else some s

/-- `update_hd_image`, on the encoded booter, the current sector buffer and the open
image, in a build where the bytes stored past `disk_buf` land on `spill`. -/
def update_hd_image (spill : Spill) (booter : List Nat) (disk_buf : List Nat) (fd : Fd) :
    Option Outcome :=
  let required_sectors := booter.length / floppy_sector_size
  let r := read fd SECTOR_SIZE
  let disk_buf := memcpy disk_buf 0 r.1
  let fd := r.2
  if r.1.length ≠ SECTOR_SIZE then
    some { err := some .readingMBR, fd := fd, disk_buf := disk_buf,
           warned := false, summary := none, killed := false }
  else if mbr_magic disk_buf 0 ≠ 0x55 ∨ mbr_magic disk_buf 1 ≠ 0xaa then
    some { err := some (.badMagic (mbr_magic disk_buf 0) (mbr_magic disk_buf 1)),
           fd := fd, disk_buf := disk_buf, warned := false, summary := none,
           killed := false }
  else
    let warned := decide (((part_active disk_buf 0 &&& 0x80) |||
                           (part_active disk_buf 1 &&& 0x80) |||
                           (part_active disk_buf 2 &&& 0x80) |||
                           (part_active disk_buf 3 &&& 0x80)) = 0)
    match overlap_check disk_buf required_sectors 4 0 with
    | some e =>
      some { err := some e, fd := fd, disk_buf := disk_buf, warned := warned,
             summary := none, killed := false }
    | none =>
      (hd_loop spill booter booter.length
          { offset := 0, lba := 1, file_block := 0, disk_buf := disk_buf, fd := fd,
            exec_valid := true, killed := false }).map
        fun s => { err := none, fd := s.fd, disk_buf := s.disk_buf, warned := warned,
                   summary := if s.killed then none else some (s.lba - 1),
                   killed := s.killed }

/-! ## `main` -/

/-- `main`, on the booter file's bytes and the target image's bytes (both files exist
and open), in a build where the bytes stored past `disk_buf` land on `spill`:
`read_booter`, then the floppy or the disk routine according to the image's size. -/
def main (spill : Spill) (booter_file : List Nat) (image : List Nat) : Option Outcome :=
  let fd : Fd := { bytes := image, pos := 0, nwrites := 0 }
  let disk_buf := List.replicate SECTOR_SIZE 0
  match make_rex_exec booter_file with
  | .error e =>
    some { err := some e, fd := fd, disk_buf := disk_buf, warned := false,
           summary := none, killed := false }
  | .ok booter =>
    if fd_size fd = floppy_size then update_floppy_image booter disk_buf fd
    else update_hd_image spill booter disk_buf fd

/-! ## Reading a chain back (the reader the round-trip property speaks of) -/

/-- The image of one record as the format describes it: the two link bytes, the block
index (high byte first), the payload slice and zero padding up to 256 bytes. -/
def sector_image (l0 l1 fb : Nat) (chunk : List Nat) : List Nat :=
  [l0, l1, (fb >>> 8) &&& 0xff, fb &&& 0xff] ++ chunk ++
    List.replicate (sector_data_size - chunk.length) 0

/-- The byte offset of (track, sector) in a floppy image: tracks of `floppy_sectors`
sectors, sectors numbered from 1. -/
def floppy_offset (track sector : Nat) : Nat :=
  (track * floppy_sectors + (sector - 1)) * floppy_sector_size

/-- Reading a chain from a floppy image as the round-trip property describes it: take
the record at (track, sector), keep its payload area, and follow the link in header
bytes 0 and 1 (track, sector) until the record whose link is null; `none` when more
than `fuel` records would have to be read. -/
def floppy_read_chain (img : List Nat) : Nat → Nat → Nat → Option (List Nat)
  | 0, _, _ => none
  | fuel + 1, track, sector =>
    let record := (img.drop (floppy_offset track sector)).take floppy_sector_size
    let payload := (record.drop sector_header_size).take sector_data_size
    if record.getD 0 0 = 0 ∧ record.getD 1 0 = 0 then some payload
    else (floppy_read_chain img fuel (record.getD 0 0) (record.getD 1 0)).map
      fun rest => payload ++ rest

/-- Reading a chain from a disk image as the round-trip property describes it: take
the 512-byte block `lba`, keep its payload area, and follow the link in header bytes 0
and 1 (a block number, high byte first) until the record whose link is null; `none`
when more than `fuel` records would have to be read. -/
def hd_read_chain (img : List Nat) : Nat → Nat → Option (List Nat)
  | 0, _ => none
  | fuel + 1, lba =>
    let record := (img.drop (lba * SECTOR_SIZE)).take SECTOR_SIZE
    let payload := (record.drop sector_header_size).take sector_data_size
    if record.getD 0 0 = 0 ∧ record.getD 1 0 = 0 then some payload
    else (hd_read_chain img fuel (record.getD 0 0 * 256 + record.getD 1 0)).map
      fun rest => payload ++ rest

/-! ## Sample inputs -/

/-- A sample block 0 of a disk image: one active partition entry (type 6) with the given
start block and size (both below 65536), three empty entries and the signature. -/
def sample_mbr (start size : Nat) : List Nat :=
  List.replicate 446 0 ++
    [0x80, 0, 0, 0, 6, 0, 0, 0, start % 256, start / 256, 0, 0, size % 256, size / 256, 0, 0] ++
    List.replicate 48 0 ++ [0x55, 0xaa]

/-- The number of records a chain of `n` encoded bytes needs (252 payload bytes each). -/
def records_needed (n : Nat) : Nat := (n + sector_data_size - 1) / sector_data_size

/-! ## The records of a chain, as the format describes them -/

/-- The payload slice of record `k`: 252 bytes of the encoded booter from offset 252 k
(fewer in the last record). -/
def chain_slice (booter : List Nat) (k : Nat) : List Nat :=
  (booter.drop (sector_data_size * k)).take sector_data_size

/-- Record `k` of a chain on a floppy image: the null link in the last record, otherwise
the track and sector of record `k + 1`; then the block index and the slice. -/
def floppy_record (booter : List Nat) (k : Nat) : List Nat :=
  if booter.length ≤ sector_data_size * (k + 1) then
    sector_image 0 0 k (chain_slice booter k)
  else
    sector_image ((k + 1) / floppy_sectors) ((k + 1) % floppy_sectors + 1) k
      (chain_slice booter k)

/-- Record `k` of a chain on a disk image, which sits in block `k + 1`: the null link in
the last record, otherwise the number of block `k + 2`, high byte first; then the block
index and the slice; the second half of the 512-byte block is zero. -/
def hd_record (booter : List Nat) (k : Nat) : List Nat :=
  (if booter.length ≤ sector_data_size * (k + 1) then
    sector_image 0 0 k (chain_slice booter k)
  else
    sector_image ((k + 2) / 256) ((k + 2) % 256) k (chain_slice booter k)) ++
  List.replicate (SECTOR_SIZE - floppy_sector_size) 0

/-- The `k`-th sector the installer writes (`k` from 0), read back from the image: the
writes are sequential, from offset 0 in 256-byte sectors on a floppy-sized image, from
block 1 in 512-byte blocks on a disk image. -/
def record_at (image_size : Nat) (bytes : List Nat) (k : Nat) : List Nat :=
  if image_size = floppy_size then
    (bytes.drop (floppy_sector_size * k)).take floppy_sector_size
  else
    (bytes.drop (SECTOR_SIZE * (k + 1))).take SECTOR_SIZE

/-! ## The stores into `disk_buf.raw` -/

/-- The indices of `disk_buf.raw` stored to in one pass through the body of the copy
loop of `update_hd_image`, in program order: the four header stores, the `memcpy` of
`copy_size` bytes to `&disk_buf.raw[4]` (none when its read kills the process), and,
when it runs, the `memset` of `SECTOR_SIZE - copy_size` bytes to
`&disk_buf.raw[sector_header_size + copy_size]`. -/
def hd_body_stores (booter : List Nat) (s : HdState) : List Nat :=
  let copy_size := booter.length - s.offset
  let copy_size := if copy_size > sector_data_size then sector_data_size else copy_size
  if s.exec_valid = false then [0, 1, 2, 3]
  else
    [0, 1, 2, 3] ++ (List.range copy_size).map (fun i => 4 + i) ++
      (if s.lba = 1 ∨ copy_size < sector_data_size then
        (List.range (SECTOR_SIZE - copy_size)).map
          (fun i => sector_header_size + copy_size + i)
       else [])

/-- The indices of `disk_buf.raw` stored to by the copy loop of `update_hd_image`, run
for at most `fuel` passes. -/
def hd_loop_stores (spill : Spill) (booter : List Nat) : Nat → HdState → List Nat
  | 0, _ => []
  | fuel + 1, s =>
    if s.killed = false ∧ s.offset < booter.length then
      hd_body_stores booter s ++ hd_loop_stores spill booter fuel (hd_body spill booter s)
    else []

end Installboot

namespace Boot1

/-! ## Collaborators of `boot1.c` -/

/-- Modelled from the spec: the filesystem collaborator's file handle (FatFs `FIL`,
whose implementation is not among the sources).  `data` are the file's bytes (`f_size`
is their number), `fptr` the read pointer, `lseek_res` and `read_res` the result codes
that `f_lseek` and `f_read` report on this handle (0 is `FR_OK`), and `read_cap` the
file offset from which the medium stops delivering bytes (a short read). -/
structure FIL where
  data : List Nat
  fptr : Nat
  lseek_res : Nat
  read_res : Nat
  read_cap : Nat
  deriving DecidableEq, Repr

/-- Modelled from the spec: `size(handle)`. -/
def f_size (fil : FIL) : Nat := fil.data.length

/-- Modelled from the spec: `seek(handle, offset)`, the result code and the handle. -/
def f_lseek (fil : FIL) (ofs : Nat) : Nat × FIL :=
  if fil.lseek_res = 0 then (0, { fil with fptr := ofs }) else (fil.lseek_res, fil)

/-- Modelled from the spec: `read(handle, buffer, length)`, the result code, the bytes
transferred (their number is the count stored through the last argument) and the
handle. -/
def f_read (fil : FIL) (btr : Nat) : Nat × List Nat × FIL :=
  let got := ((fil.data.take fil.read_cap).drop fil.fptr).take btr
  (fil.read_res, got, { fil with fptr := fil.fptr + got.length })

/-- Modelled from the spec: what the filesystem collaborator answers for one logical
drive: the result codes of `f_mount` and `f_chdrive`, and the handle `f_open` yields
for each of the two fixed file names (`none` when the open fails). -/
structure Volume where
  mount_res : Nat
  chdrive_res : Nat
  bootk5 : Option FIL
  emutosk5 : Option FIL
  deriving DecidableEq, Repr

/-- The environment of the loader: the volumes by drive name and the assembly
primitive `probe` (misc.S), taken as a parameter. -/
structure World where
  vol : String → Volume
  probe : Nat → Bool

/-- The format strings handed to `fmt`, with their arguments. -/
inductive Msg where
  | banner
  | bad_image
  | boot2_small
  | loading_at (addr : Nat)
  | no_partition (drive : String)
  | chdrive_failed (drive : String)
  | err_bootk5
  | err_emutosk5
  | ram_size (mib : Nat)
  | booting_at (entry : Nat)
  | xtide_master
  | xtide_slave
  | ide_master
  | ide_slave
  | nothing_bootable
  deriving DecidableEq, Repr

/-- The format string of each message. -/
def Msg.text : Msg → String
  | .banner => "\nPT68K5 EmuTOS boot1\n"
  | .bad_image => "Bad EmuTOS image\n"
  | .boot2_small => "Second-stage bootloader suspiciously small.\n"
  | .loading_at _ => "loading @ %p\n"
  | .no_partition _ => "Failed to find a partition on %s\n"
  | .chdrive_failed _ => "Failed to set default drive to %s\n"
  | .err_bootk5 => "Error loading %s/BOOTK5.SYS"
  | .err_emutosk5 => "Error loading %s/EMUTOSK5.SYS\n"
  | .ram_size _ => "\rRAM size %uMiB"
  | .booting_at _ => "Booting @ 0x%lx\n\n"
  | .xtide_master => "XTIDE master:\n"
  | .xtide_slave => "XTIDE slave:\n"
  | .ide_master => "IDE master:\n"
  | .ide_slave => "IDE slave:\n"
  | .nothing_bootable => "nothing bootable\n"

/-- The externally visible actions of the loader, in program order. -/
inductive Event where
  | fmt (m : Msg)
  | puts (s : String)
  | f_mount (drive : String)
  | f_chdrive (drive : String)
  | f_open (path : String)
  | f_unmount (drive : String)
  | probe (address : Nat)
  | trap12 (op arg1 arg2 : Nat)
  | jump_to_loaded_os (entrypoint : Nat)
  deriving DecidableEq, Repr

/-- The machine: RAM by byte address, the actions so far (oldest first) and the entry
point control was transferred to, if it was (`jump_to_loaded_os` does not return). -/
structure Machine where
  mem : Nat → Nat
  out : List Event
  jumped : Option Nat

/-- Append an action to the trace. -/
def Machine.emit (m : Machine) (e : Event) : Machine := { m with out := m.out ++ [e] }

/-- `jump_to_loaded_os(entry)`. -/
def Machine.jump (m : Machine) (entry : Nat) : Machine :=
  { m with out := m.out ++ [.jump_to_loaded_os entry], jumped := some entry }

/-- A block of bytes stored at address `a`. -/
def store_bytes (mem : Nat → Nat) (a : Nat) (data : List Nat) : Nat → Nat :=
  fun x => if a ≤ x ∧ x < a + data.length then data.getD (x - a) 0 else mem x

/-- A 32-bit store (the 68000 is big-endian). -/
def store32 (mem : Nat → Nat) (a v : Nat) : Nat → Nat :=
  store_bytes mem a [(v >>> 24) &&& 0xff, (v >>> 16) &&& 0xff, (v >>> 8) &&& 0xff, v &&& 0xff]

/-- A 32-bit load. -/
def load32 (mem : Nat → Nat) (a : Nat) : Nat :=
  mem a * 16777216 + mem (a + 1) * 65536 + mem (a + 2) * 256 + mem (a + 3)

/-- A big-endian 32-bit field of a byte buffer. -/
def be32 (buf : List Nat) (i : Nat) : Nat :=
  buf.getD i 0 * 16777216 + buf.getD (i + 1) 0 * 65536 + buf.getD (i + 2) 0 * 256 +
    buf.getD (i + 3) 0

/-! ## `emutos_hdr` -/

/-- The struct `emutos_hdr` (48 bytes): `bra`, `tos_version`, `main`, `os_beg`,
`os_end`, seven reserved words and `etos_id`. -/
structure emutos_hdr where
  bra : Nat
  tos_version : Nat
  main : Nat
  os_beg : Nat
  os_end : Nat
  etos_id : List Nat
  deriving DecidableEq, Repr

/-- `sizeof(emutos_hdr)`. -/
def sizeof_hdr : Nat := 48

/-- The header as the 68000 sees the bytes `f_read` stored into `hdr`. -/
def parse_hdr (b : List Nat) : emutos_hdr :=
  { bra := b.getD 0 0 * 256 + b.getD 1 0,
    tos_version := b.getD 2 0 * 256 + b.getD 3 0,
    main := be32 b 4,
    os_beg := be32 b 8,
    os_end := be32 b 12,
    etos_id := [b.getD 44 0, b.getD 45 0, b.getD 46 0, b.getD 47 0] }

/-! ## The loaders -/

/-- `emutos_header_check`: the load address (0 on rejection), the handle and the
machine after it. -/
def emutos_header_check (fil : FIL) (m : Machine) : Nat × FIL × Machine :=
  let bad (fil : FIL) : Nat × FIL × Machine := (0, fil, m.emit (.fmt .bad_image))
  if f_size fil < 64 * 1024 ∨ f_size fil > 1024 * 1024 then bad fil
  else
    let s := f_lseek fil 0
    if s.1 ≠ 0 then bad s.2
    else
      let r := f_read s.2 sizeof_hdr
      let hdr := parse_hdr r.2.1
      if r.1 ≠ 0 ∨ r.2.1.length ≠ sizeof_hdr ∨
          hdr.etos_id.getD 0 0 ≠ 'E'.toNat ∨
          hdr.etos_id.getD 1 0 ≠ 'T'.toNat ∨
          hdr.etos_id.getD 2 0 ≠ 'O'.toNat ∨
          hdr.etos_id.getD 3 0 ≠ 'S'.toNat ∨
          hdr.os_beg < 0x800 ∨
          hdr.os_beg > hdr.os_end ∨
          hdr.main < hdr.os_beg ∨
          hdr.main ≥ hdr.os_end ∨
          hdr.os_end ≥ 0x00100000 then bad r.2.2
      else (hdr.os_beg, r.2.2, m)

/-- `boot2_load`: the entry point (0 on failure) and the machine after it. -/
def boot2_load (fil : FIL) (m : Machine) : Nat × Machine :=
  let load_buffer := 0x2000
  let len := f_size fil
  if len < 1024 then (0, m.emit (.fmt .boot2_small))
  else
    let r := f_read fil len
    let m := { m with mem := store_bytes m.mem load_buffer r.2.1 }
    if r.1 ≠ 0 ∨ r.2.1.length ≠ f_size fil then (0, m)
    else (load_buffer, m)

/-- `emutos_load`: the entry point (0 on failure) and the machine after it. -/
def emutos_load (fil : FIL) (m : Machine) : Nat × Machine :=
  let c := emutos_header_check fil m
  let load_buffer := c.1
  let fil := c.2.1
  let m := c.2.2
  let len := f_size fil
  if load_buffer = 0 then (0, m)
  else
    let m := m.emit (.fmt (.loading_at load_buffer))
    let fil := (f_lseek fil 0).2
    let r := f_read fil len
    let m := { m with mem := store_bytes m.mem load_buffer r.2.1 }
    if r.1 ≠ 0 ∨ r.2.1.length ≠ f_size fil then (0, m)
    else (load32 m.mem (load_buffer + 4), m)

/-! ## `try_boot` and `boot_main` -/

/-- `video_init`: the seven monitor calls. -/
def video_init (m : Machine) : Machine :=
  ((((((m.emit (.trap12 0x80 0 0)).emit (.trap12 0x12 0 0)).emit (.trap12 0x85 0 0)).emit
    (.trap12 0x89 0 0)).emit (.trap12 0x81 0 0)).emit (.trap12 0x90 5 5)).emit
    (.trap12 0x91 15 0)

/-- The RAM probing loop of `try_boot`, from candidate `ram_size` on and for at most
`fuel` passes: the value of `ram_size` on leaving the loop; `none` when the budget
ends before the loop does. -/
def probe_loop (probe : Nat → Bool) : Nat → Nat → Machine → Option (Nat × Machine)
  | 0, ram_size, m => if ram_size ≤ 0x08000000 then none else some (ram_size, m)
  | fuel + 1, ram_size, m =>
    if ram_size ≤ 0x08000000 then
      let m := (m.emit (.fmt (.ram_size (ram_size >>> 20)))).emit (.probe ram_size)
      if !probe ram_size then some (ram_size, m)
      else probe_loop probe fuel (ram_size + 0x00100000) m
    else some (ram_size, m)

/-- The memory-configuration stores and the transfer at the end of the full-image
path of `try_boot`. -/
def handoff (ram_size entry : Nat) (m : Machine) : Machine :=
  let m := (m.emit (.puts "")).emit (.fmt (.booting_at entry))
  let mem := store32 m.mem 0x424 0
  let mem := store32 mem 0x426 0
  let mem := store32 mem 0x42e ram_size
  let mem := store32 mem 0x5a4 0
  let mem := store32 mem 0x420 0x752019f3
  let mem := store32 mem 0x43a 0x237698aa
  let mem := store32 mem 0x51a 0x5555aaaa
  let mem := store32 mem 0x5a8 0x1357bd13
  let mem := store32 mem 0x6fc 0
  (video_init { m with mem := mem }).jump entry

/-- `try_boot(drive)`; `none` only when the probing loop is cut short by its budget. -/
def try_boot (w : World) (drive : String) (m : Machine) : Option Machine :=
  let v := w.vol drive
  let m := m.emit (.f_mount drive)
  if v.mount_res ≠ 0 then
    some (m.emit (.fmt (.no_partition drive)))
  else
    let m := m.emit (.f_chdrive drive)
    let r : Option Machine :=
      if v.chdrive_res ≠ 0 then
        some (m.emit (.fmt (.chdrive_failed drive)))
      else
        let m := m.emit (.f_open "/BOOTK5.SYS")
        match v.bootk5 with
        | some fil =>
          let l := boot2_load { fil with fptr := 0 } m
          if l.1 = 0 then some (l.2.emit (.fmt .err_bootk5))
          else some (l.2.jump l.1)
        | none =>
          let m := m.emit (.f_open "/EMUTOSK5.SYS")
          match v.emutosk5 with
          | some fil =>
            let l := emutos_load { fil with fptr := 0 } m
            if l.1 = 0 then some (l.2.emit (.fmt .err_emutosk5))
            else
              (probe_loop w.probe 125 0x00400000 l.2).map
                fun p => handoff p.1 l.1 p.2
          | none => some m
    r.map fun m => if m.jumped.isSome then m else m.emit (.f_unmount drive)

/-- Sequencing in `boot_main`: the next statement runs only if control has not been
transferred. -/
def next (r : Option Machine) (f : Machine → Option Machine) : Option Machine :=
  r.bind fun m => if m.jumped.isSome then some m else f m

/-- `boot_main(base_addr, slave)`. -/
def boot_main (w : World) (base_addr slave : Nat) (m : Machine) : Option Machine :=
  let m := m.emit (.fmt .banner)
  if base_addr = 0x10000300 then
    if slave ≠ 0 then try_boot w "2:" m else try_boot w "1:" m
  else if base_addr = 0x20004180 then
    if slave ≠ 0 then try_boot w "4:" m else try_boot w "3:" m
  else
    let r := try_boot w "1:" (m.emit (.fmt .xtide_master))
    let r := next r fun m => try_boot w "2:" (m.emit (.fmt .xtide_slave))
    let r := next r fun m => try_boot w "3:" (m.emit (.fmt .ide_master))
    let r := next r fun m => try_boot w "4:" (m.emit (.fmt .ide_slave))
    next r fun m => some (m.emit (.fmt .nothing_bootable))

/-! ## Sample inputs and the candidate map -/

/-- The machine at entry to `boot_main`: RAM cleared, nothing done yet. -/
def Machine.init : Machine := { mem := fun _ => 0, out := [], jumped := none }

/-- A handle on a freshly opened, fully readable file with the given bytes. -/
def FIL.ofData (data : List Nat) : FIL :=
  { data := data, fptr := 0, lseek_res := 0, read_res := 0, read_cap := data.length }

/-- A sample header: `main`, `os_beg`, `os_end` as given (each below 2^24), `ETOS` at
offset 44. -/
def sample_hdr (main os_beg os_end : Nat) : List Nat :=
  [0x60, 0x2e, 0x01, 0x00,
   0, main / 65536, main / 256 % 256, main % 256,
   0, os_beg / 65536, os_beg / 256 % 256, os_beg % 256,
   0, os_end / 65536, os_end / 256 % 256, os_end % 256] ++
  List.replicate 28 0 ++ [0x45, 0x54, 0x4f, 0x53]

/-- A volume that mounts and holds the given files. -/
def sample_volume (bootk5 emutosk5 : Option FIL) : Volume :=
  { mount_res := 0, chdrive_res := 0, bootk5 := bootk5, emutosk5 := emutosk5 }

/-- The drives `boot_main` goes through, as the candidate map describes them. -/
def candidates (base_addr slave : Nat) : List String :=
  if base_addr = 0x10000300 then (if slave ≠ 0 then ["2:"] else ["1:"])
  else if base_addr = 0x20004180 then (if slave ≠ 0 then ["4:"] else ["3:"])
  else ["1:", "2:", "3:", "4:"]

/-- What `try_boot` does on a drive whose two files do not open: the actions it adds. -/
def quiet_attempt (v : Volume) (drive : String) : List Event :=
  if v.mount_res ≠ 0 then [.f_mount drive, .fmt (.no_partition drive)]
  else if v.chdrive_res ≠ 0 then
    [.f_mount drive, .f_chdrive drive, .fmt (.chdrive_failed drive), .f_unmount drive]
  else
    [.f_mount drive, .f_chdrive drive, .f_open "/BOOTK5.SYS", .f_open "/EMUTOSK5.SYS",
     .f_unmount drive]

/-- The acceptance condition of the structured loader as it is listed for the header
check: size within [64 KiB, 1 MiB], the 48 header bytes read in full (seek and read
succeed and deliver them), the magic at offset 44, and the bounds on `os_beg`, `os_end`
and `main`. -/
def header_ok (fil : FIL) : Prop :=
  65536 ≤ f_size fil ∧ f_size fil ≤ 1048576 ∧
  (fil.lseek_res = 0 ∧ fil.read_res = 0 ∧ sizeof_hdr ≤ fil.read_cap) ∧
  (fil.data.getD 44 0 = 'E'.toNat ∧ fil.data.getD 45 0 = 'T'.toNat ∧
    fil.data.getD 46 0 = 'O'.toNat ∧ fil.data.getD 47 0 = 'S'.toNat) ∧
  0x800 ≤ (parse_hdr (fil.data.take sizeof_hdr)).os_beg ∧
  (parse_hdr (fil.data.take sizeof_hdr)).os_beg ≤ (parse_hdr (fil.data.take sizeof_hdr)).os_end ∧
  (parse_hdr (fil.data.take sizeof_hdr)).os_beg ≤ (parse_hdr (fil.data.take sizeof_hdr)).main ∧
  (parse_hdr (fil.data.take sizeof_hdr)).main < (parse_hdr (fil.data.take sizeof_hdr)).os_end ∧
  (parse_hdr (fil.data.take sizeof_hdr)).os_end < 0x00100000

instance (fil : FIL) : Decidable (header_ok fil) := by
  unfold header_ok; exact inferInstance

/-- A sample environment: drive "1:" is the given volume, no other drive mounts, and
`probe` answers for 8 MiB of RAM. -/
def sample_world (v1 : Volume) : World :=
  { vol := fun d => if d = "1:" then v1
      else { mount_res := 1, chdrive_res := 0, bootk5 := none, emutosk5 := none },
    probe := fun a => decide (a < 0x00800000) }

/-! ## Reading a trace -/

/-- The drives mounted in a trace, in order. -/
def mounts (evs : List Event) : List String :=
  evs.filterMap fun e => match e with
    | .f_mount d => some d
    | _ => none

/-- The entry points control was transferred to in a trace. -/
def transfers (evs : List Event) : List Nat :=
  evs.filterMap fun e => match e with
    | .jump_to_loaded_os entry => some entry
    | _ => none

/-- The actions of `n` passes of the RAM probing loop from candidate `a` on. -/
def probe_trace : Nat → Nat → List Event
  | 0, _ => []
  | n + 1, a => .fmt (.ram_size (a >>> 20)) :: .probe a :: probe_trace n (a + 0x00100000)

end Boot1

namespace Diskio

/-! ## Constants of `diskio.c` -/

def XTIDE_PRIMARY : Nat := 0
def XTIDE_SECONDARY : Nat := 1
def IDE_PRIMARY : Nat := 2
def IDE_SECONDARY : Nat := 3
def xtide_base : Nat := 0x10000300
def ide_base : Nat := 0x20004180
def IDE_DATA16 (iobase : Nat) : Nat := iobase + 0x00
def IDE_ERROR (iobase : Nat) : Nat := iobase + 0x03
def IDE_SECTOR_COUNT (iobase : Nat) : Nat := iobase + 0x05
def IDE_LBA_0 (iobase : Nat) : Nat := iobase + 0x07
def IDE_LBA_1 (iobase : Nat) : Nat := iobase + 0x09
def IDE_LBA_2 (iobase : Nat) : Nat := iobase + 0x0b
def IDE_LBA_3 (iobase : Nat) : Nat := iobase + 0x0d
def IDE_LBA_3_DEV1 : Nat := 0x10
def IDE_LBA_3_LBA : Nat := 0xe0
def IDE_STATUS (iobase : Nat) : Nat := iobase + 0x0f
def IDE_STATUS_ERR : Nat := 0x01
def IDE_STATUS_DRQ : Nat := 0x08
def IDE_STATUS_BSY : Nat := 0x80
def IDE_COMMAND (iobase : Nat) : Nat := iobase + 0x0f
def IDE_CMD_READ_SECTORS : Nat := 0x20
def DISK_BLOCK_SIZE : Nat := 512

/-- Modelled from the spec: the result codes of the storage collaborator (the header
`fatfs/diskio.h` that declares `DRESULT` is not among the sources).  `minus_one` is the
value of `return -1`, which is none of the declared codes. -/
inductive DRESULT where
  | RES_OK
  | RES_ERROR
  | RES_WRPRT
  | RES_NOTRDY
  | RES_PARERR
  | minus_one
  deriving DecidableEq, Repr

/-! ## The drive registers -/

/-- The drive behind the memory-mapped registers: the value the `n`-th read of the
status register yields, the value the `n`-th read of the data register yields (both
counted from 0 over the whole run), and the content of the error register. -/
structure Drive where
  status : Nat → Nat
  data : Nat → Nat
  error : Nat

/-- What the driver has done on the bus: the register stores (address, byte), oldest
first, the number of reads of the status register and of the data register, and the
diagnostics (error register, sector) handed to `fmt`. -/
structure Bus where
  writes : List (Nat × Nat)
  nstatus : Nat
  ndata : Nat
  out : List (Nat × Nat)
  deriving DecidableEq, Repr

/-- A store to an 8-bit register. -/
def Bus.write8 (b : Bus) (addr val : Nat) : Bus :=
  { b with writes := b.writes ++ [(addr, val % 256)] }

/-- `__builtin_bswap16`. -/
def bswap16 (w : Nat) : Nat := (w % 256) * 256 + (w / 256) % 256

/-- The data burst of `disk_read_sector`: `DISK_BLOCK_SIZE / 2` reads of the data
register, each stored through `bp` (swapped when `diskio_swap` is set). -/
def read_burst (d : Drive) (diskio_swap : Bool) (b : Bus) : List Nat × Bus :=
  ((List.range (DISK_BLOCK_SIZE / 2)).map fun i =>
      if diskio_swap then bswap16 (d.data (b.ndata + i) % 65536)
      else d.data (b.ndata + i) % 65536,
   { b with ndata := b.ndata + DISK_BLOCK_SIZE / 2 })

/-- The polling loop `while (--timeout)` of `disk_read_sector`, entered with the
counter at `timeout` (at least 1; the counter never reaches the loop at 0): the result,
the words stored to `buff` and the bus afterwards. -/
def poll_loop (d : Drive) (diskio_swap : Bool) (sector iobase : Nat) :
    Nat → Bus → DRESULT × List Nat × Bus
  | 0, b => (.RES_ERROR, [], b)
  | timeout + 1, b =>
    if timeout = 0 then (.RES_ERROR, [], b)
    else
      let status := d.status b.nstatus % 256
      let b := { b with nstatus := b.nstatus + 1 }
      if status &&& IDE_STATUS_BSY ≠ 0 then poll_loop d diskio_swap sector iobase timeout b
      else if status &&& IDE_STATUS_ERR ≠ 0 then
        (.minus_one, [], { b with out := b.out ++ [(d.error % 256, sector)] })
      else if status &&& IDE_STATUS_DRQ ≠ 0 then
        let r := read_burst d diskio_swap b
        (.RES_OK, r.1, r.2)
      else poll_loop d diskio_swap sector iobase timeout b

/-- `disk_read_sector`: the result, the words stored to `buff` and the bus afterwards. -/
def disk_read_sector (d : Drive) (diskio_swap : Bool) (sector iobase ssel : Nat)
    (b : Bus) : DRESULT × List Nat × Bus :=
  let timeout := 0x200000
  let b := b.write8 (IDE_LBA_3 iobase) (((sector >>> 24) &&& 0x3f) ||| IDE_LBA_3_LBA ||| ssel)
  let b := b.write8 (IDE_LBA_2 iobase) ((sector >>> 16) &&& 0xff)
  let b := b.write8 (IDE_LBA_1 iobase) ((sector >>> 8) &&& 0xff)
  let b := b.write8 (IDE_LBA_0 iobase) (sector &&& 0xff)
  let b := b.write8 (IDE_SECTOR_COUNT iobase) 1
  let b := b.write8 (IDE_COMMAND iobase) IDE_CMD_READ_SECTORS
  poll_loop d diskio_swap sector iobase timeout b

/-- The loop `while (count)` of `disk_read`: the result, the words stored to `buff`
so far and the bus afterwards. -/
def disk_read_loop (d : Drive) (diskio_swap : Bool) (iobase ssel : Nat) :
    Nat → Nat → List Nat → Bus → DRESULT × List Nat × Bus
  | 0, _, buff, b => (.RES_OK, buff, b)
  | count + 1, sector, buff, b =>
    let res := disk_read_sector d diskio_swap sector iobase ssel b
    if res.1 ≠ .RES_OK then (res.1, buff ++ res.2.1, res.2.2)
    else disk_read_loop d diskio_swap iobase ssel count ((sector + 1) % 4294967296)
      (buff ++ res.2.1) res.2.2

/-- `disk_read(pdrv, buff, sector, count)`. -/
def disk_read (d : Drive) (diskio_swap : Bool) (pdrv sector count : Nat) (b : Bus) :
    DRESULT × List Nat × Bus :=
  if pdrv = XTIDE_PRIMARY then disk_read_loop d diskio_swap xtide_base 0 count sector [] b
  else if pdrv = XTIDE_SECONDARY then
    disk_read_loop d diskio_swap xtide_base IDE_LBA_3_DEV1 count sector [] b
  else if pdrv = IDE_PRIMARY then disk_read_loop d diskio_swap ide_base 0 count sector [] b
  else if pdrv = IDE_SECONDARY then
    disk_read_loop d diskio_swap ide_base IDE_LBA_3_DEV1 count sector [] b
  else (.RES_PARERR, [], b)

/-! ## Sample drives and reading the bus -/

/-- The bus before the driver has done anything. -/
def Bus.init : Bus := { writes := [], nstatus := 0, ndata := 0, out := [] }

/-- A drive that answers `busy` polls with BSY, then always the status `ready`, and
delivers the word `n` at the `n`-th data read. -/
def sample_drive (busy ready : Nat) : Drive :=
  { status := fun n => if n < busy then 0x80 else ready, data := fun n => n, error := 0x10 }

/-- A status on which the polling loop polls again: BSY set, or none of ERR and DRQ. -/
def polls_again (status : Nat) : Prop :=
  status % 256 &&& IDE_STATUS_BSY ≠ 0 ∨
    (status % 256 &&& IDE_STATUS_ERR = 0 ∧ status % 256 &&& IDE_STATUS_DRQ = 0)

/-- The READ SECTORS commands among the register stores. -/
def commands (iobase : Nat) (writes : List (Nat × Nat)) : Nat :=
  writes.count (IDE_COMMAND iobase, IDE_CMD_READ_SECTORS)

end Diskio

/-! # Lemmas about the installer -/

namespace Installboot

theorem and_ff (x : Nat) : x &&& 0xff = x % 256 := by
  have := Nat.and_pow_two_sub_one_eq_mod x 8
  simpa using this

theorem shr8 (x : Nat) : x >>> 8 = x / 256 := by
  simp [Nat.shiftRight_eq_div_pow]

theorem memcpy_mid (pre mid post src : List Nat) (dst : Nat) (hd : dst = pre.length)
    (hm : mid.length = src.length) :
    memcpy (pre ++ mid ++ post) dst src = pre ++ src ++ post := by
  subst hd
  unfold memcpy
  have h1 : List.take pre.length (pre ++ mid ++ post) = pre := by
    rw [List.append_assoc, List.take_left]
  have h2 : List.drop (pre.length + src.length) (pre ++ mid ++ post) = post := by
    have : pre.length + src.length = (pre ++ mid).length := by simp [hm]
    rw [this, List.drop_left]
  rw [h1, h2]
  apply List.take_of_length_le
  simp [hm]

theorem memcpy_tail (pre post src : List Nat) (dst : Nat) (hd : dst = pre.length)
    (hm : post.length ≤ src.length) :
    memcpy (pre ++ post) dst src = pre ++ src.take post.length := by
  subst hd
  unfold memcpy
  have h1 : List.take pre.length (pre ++ post) = pre := List.take_left _ _
  have h2 : List.drop (pre.length + src.length) (pre ++ post) = [] := by
    apply List.drop_eq_nil_of_le
    simp; omega
  rw [h1, h2, List.append_nil, List.take_append_eq_append_take]
  simp

theorem exists_hdr (buf : List Nat) (h : 4 ≤ buf.length) :
    ∃ a b c d rest, buf = a :: b :: c :: d :: rest := by
  match buf, h with
  | a :: b :: c :: d :: rest, _ => exact ⟨a, b, c, d, rest, rfl⟩


theorem buf_fill (buf : List Nat) (hlen : buf.length = 512) (l0 l1 b2 b3 : Nat)
    (chunk : List Nat) (hc : chunk.length ≤ 252) :
    memcpy ((((buf.set 0 l0).set 1 l1).set 2 b2).set 3 b3) 4 chunk =
      [l0, l1, b2, b3] ++ chunk ++ buf.drop (4 + chunk.length) := by
  obtain ⟨a, b, c, d, rest, rfl⟩ := exists_hdr buf (by omega)
  have hr : rest.length = 508 := by simpa using hlen
  have h := memcpy_mid [l0, l1, b2, b3] (rest.take chunk.length) (rest.drop chunk.length)
    chunk 4 rfl (by simp; omega)
  have e : [l0, l1, b2, b3] ++ rest.take chunk.length ++ rest.drop chunk.length
      = l0 :: l1 :: b2 :: b3 :: rest := by
    rw [List.append_assoc, List.take_append_drop]; rfl
  rw [e] at h
  have e2 : List.drop (4 + chunk.length) (a :: b :: c :: d :: rest)
      = List.drop chunk.length rest := by
    rw [Nat.add_comm]; rfl
  rw [e2]
  simpa using h

theorem buf_zero (hdr chunk tail : List Nat) (n : Nat) (dst : Nat)
    (hd : dst = hdr.length + chunk.length) (hn : n ≤ tail.length) :
    memset (hdr ++ chunk ++ tail) dst 0 n =
      hdr ++ chunk ++ List.replicate n 0 ++ tail.drop n := by
  have h := memcpy_mid (hdr ++ chunk) (tail.take n) (tail.drop n) (List.replicate n 0) dst
    (by simp [hd]) (by simp; omega)
  rw [List.append_assoc (hdr ++ chunk), List.take_append_drop] at h
  exact h

theorem buf_zero_tail (hdr chunk tail : List Nat) (n : Nat) (dst : Nat)
    (hd : dst = hdr.length + chunk.length) (hn : tail.length ≤ n) :
    memset (hdr ++ chunk ++ tail) dst 0 n =
      hdr ++ chunk ++ List.replicate tail.length 0 := by
  have h := memcpy_tail (hdr ++ chunk) tail (List.replicate n 0) dst
    (by simp [hd]) (by simp; omega)
  unfold memset
  rw [h]
  simp [List.take_replicate, hn]


theorem sector_image_length (l0 l1 fb : Nat) (chunk : List Nat) (hc : chunk.length ≤ 252) :
    (sector_image l0 l1 fb chunk).length = 256 := by
  simp [sector_image, sector_data_size, floppy_sector_size, sector_header_size]
  omega

theorem fill_floppy (buf : List Nat) (hlen : buf.length = 512) (l0 l1 fb : Nat)
    (chunk : List Nat) (hc : chunk.length ≤ 252) :
    (if chunk.length < 252 then
        memset (memcpy ((((buf.set 0 l0).set 1 l1).set 2 ((fb >>> 8) &&& 0xff)).set 3
          (fb &&& 0xff)) 4 chunk) (4 + chunk.length) 0 (252 - chunk.length)
      else memcpy ((((buf.set 0 l0).set 1 l1).set 2 ((fb >>> 8) &&& 0xff)).set 3
          (fb &&& 0xff)) 4 chunk) = sector_image l0 l1 fb chunk ++ buf.drop 256 := by
  rw [buf_fill buf hlen _ _ _ _ chunk hc]
  split
  · rw [buf_zero _ _ _ _ _ (by simp) (by simp; omega)]
    simp only [sector_image, sector_data_size, floppy_sector_size, sector_header_size,
      List.drop_drop]
    congr 2
    omega
  · have : chunk.length = 252 := by omega
    simp [sector_image, sector_data_size, floppy_sector_size, sector_header_size, this]

theorem fill_hd (buf : List Nat) (hlen : buf.length = 512) (l0 l1 fb : Nat)
    (chunk : List Nat) (hc : chunk.length ≤ 252) (z : Prop) [Decidable z] :
    (if z ∨ chunk.length < 252 then
        memset (memcpy ((((buf.set 0 l0).set 1 l1).set 2 ((fb >>> 8) &&& 0xff)).set 3
          (fb &&& 0xff)) 4 chunk) (4 + chunk.length) 0 (512 - chunk.length)
      else memcpy ((((buf.set 0 l0).set 1 l1).set 2 ((fb >>> 8) &&& 0xff)).set 3
          (fb &&& 0xff)) 4 chunk) =
      sector_image l0 l1 fb chunk ++
        (if z ∨ chunk.length < 252 then List.replicate 256 0 else buf.drop 256) := by
  rw [buf_fill buf hlen _ _ _ _ chunk hc]
  split
  · rw [buf_zero_tail _ _ _ _ _ (by simp) (by simp; omega)]
    simp only [sector_image, sector_data_size, floppy_sector_size, sector_header_size,
      List.length_drop, hlen, List.append_assoc, List.append_replicate_replicate]
    congr 3
    omega
  · have : chunk.length = 252 := by omega
    simp [sector_image, sector_data_size, floppy_sector_size, sector_header_size, this]


theorem chunk_length (booter : List Nat) (off : Nat) :
    ((booter.drop off).take 252).length = min 252 (booter.length - off) := by
  simp

theorem floppy_body_last (booter : List Nat) (s : FloppyState)
    (hlen : s.disk_buf.length = 512) (hoff : s.offset < booter.length)
    (h : booter.length - s.offset ≤ 252) :
    floppy_body booter s =
      { track := s.track, sector := s.sector, file_block := s.file_block + 1,
        offset := booter.length,
        disk_buf := sector_image 0 0 s.file_block (booter.drop s.offset) ++
          s.disk_buf.drop 256,
        fd := write s.fd (sector_image 0 0 s.file_block (booter.drop s.offset)) } := by
  have hc : (booter.drop s.offset).length ≤ 252 := by simp; omega
  have hcl : (booter.drop s.offset).length = booter.length - s.offset := by simp
  have hf := fill_floppy s.disk_buf hlen 0 0 s.file_block (booter.drop s.offset) hc
  have ht : List.take (booter.length - s.offset) (booter.drop s.offset)
      = booter.drop s.offset := List.take_of_length_le (by simp)
  have hng : ¬ (booter.length - s.offset > 252) := by omega
  simp only [floppy_body, sector_data_size, floppy_sector_size, sector_header_size,
    Nat.reduceSub, h, decide_True, if_true, hng, if_false, ht]
  rw [hcl] at hf
  rw [hf]
  have hl := sector_image_length 0 0 s.file_block (booter.drop s.offset) hc
  have e : s.offset + (booter.length - s.offset) = booter.length := by omega
  rw [List.take_left' hl, e]

theorem floppy_body_more (booter : List Nat) (s : FloppyState)
    (hlen : s.disk_buf.length = 512)
    (h : 252 < booter.length - s.offset) :
    floppy_body booter s =
      { track := if s.sector = 68 then s.track + 1 else s.track,
        sector := if s.sector = 68 then 1 else s.sector + 1,
        file_block := s.file_block + 1,
        offset := s.offset + 252,
        disk_buf := sector_image ((if s.sector = 68 then s.track + 1 else s.track) &&& 0xff)
            ((if s.sector = 68 then 1 else s.sector + 1) &&& 0xff) s.file_block
            ((booter.drop s.offset).take 252) ++ s.disk_buf.drop 256,
        fd := write s.fd
          (sector_image ((if s.sector = 68 then s.track + 1 else s.track) &&& 0xff)
            ((if s.sector = 68 then 1 else s.sector + 1) &&& 0xff) s.file_block
            ((booter.drop s.offset).take 252)) } := by
  have hcl : ((booter.drop s.offset).take 252).length = 252 := by simp; omega
  have hf := fill_floppy s.disk_buf hlen
    ((if s.sector = 68 then s.track + 1 else s.track) &&& 0xff)
    ((if s.sector = 68 then 1 else s.sector + 1) &&& 0xff) s.file_block
    ((booter.drop s.offset).take 252) (by omega)
  have hng : ¬ (booter.length - s.offset ≤ 252) := by omega
  rw [hcl] at hf
  simp only [lt_irrefl, if_false] at hf
  simp only [floppy_body, sector_data_size, floppy_sector_size, sector_header_size,
    floppy_sectors, Nat.reduceSub, Nat.reduceMul, hng, decide_False, h, if_true, if_false,
    gt_iff_lt, lt_irrefl, Bool.false_eq_true, decide_eq_true_eq]
  rw [hf]
  have hl := sector_image_length
    ((if s.sector = 68 then s.track + 1 else s.track) &&& 0xff)
    ((if s.sector = 68 then 1 else s.sector + 1) &&& 0xff) s.file_block
    ((booter.drop s.offset).take 252) (by omega)
  rw [List.take_left' hl]


theorem memcpy_length (buf src : List Nat) (dst : Nat) :
    (memcpy buf dst src).length = buf.length := by
  simp only [memcpy, List.length_take, List.length_append, List.length_drop]
  omega

theorem spilled_fill (buf : List Nat) (hlen : buf.length = 512) (n : Nat) (hn : n ≤ 252) :
    spilled buf (4 + n) (List.replicate (512 - n) 0) = List.replicate 4 0 := by
  simp only [spilled, hlen, List.drop_replicate]
  congr 1
  omega

/-- Whether the pointer `booter.exec` survives a pass: it does unless the zero-fill runs
and its four spilled bytes land on the pointer. -/
theorem exec_valid_after (spill : Spill) (buf : List Nat) (hlen : buf.length = 512) (n : Nat)
    (hn : n ≤ 252) (z : Prop) [Decidable z] :
    decide ((if z then spilled buf (4 + n) (List.replicate (512 - n) 0)
      else []) = [] ∨ spill = .spare) = decide (¬ z ∨ spill = .spare) := by
  rw [spilled_fill buf hlen n hn]
  by_cases hz : z
  · simp [hz]
  · simp [hz]

theorem hd_body_killed (spill : Spill) (booter : List Nat) (s : HdState)
    (hv : s.exec_valid = false) :
    (hd_body spill booter s).killed = true ∧ (hd_body spill booter s).fd = s.fd ∧
    (hd_body spill booter s).offset = s.offset := by
  simp only [hd_body, hv, if_true, and_self]

theorem hd_body_alive (spill : Spill) (booter : List Nat) (s : HdState)
    (hv : s.exec_valid = true) : (hd_body spill booter s).killed = false := by
  simp only [hd_body, hv, Bool.true_eq_false, if_false]

theorem hd_body_last (spill : Spill) (booter : List Nat) (s : HdState)
    (hlen : s.disk_buf.length = 512) (hoff : s.offset < booter.length)
    (h : booter.length - s.offset ≤ 252) (hv : s.exec_valid = true) :
    hd_body spill booter s =
      { offset := booter.length, lba := s.lba + 1, file_block := s.file_block + 1,
        disk_buf := sector_image 0 0 s.file_block (booter.drop s.offset) ++
          (if s.lba = 1 ∨ (booter.drop s.offset).length < 252 then List.replicate 256 0
            else s.disk_buf.drop 256),
        fd := write s.fd (sector_image 0 0 s.file_block (booter.drop s.offset) ++
          (if s.lba = 1 ∨ (booter.drop s.offset).length < 252 then List.replicate 256 0
            else s.disk_buf.drop 256)),
        exec_valid := decide (¬ (s.lba = 1 ∨ (booter.drop s.offset).length < 252) ∨
          spill = .spare),
        killed := false } := by
  have hc : (booter.drop s.offset).length ≤ 252 := by simp; omega
  have hcl : (booter.drop s.offset).length = booter.length - s.offset := by simp
  have hf := fill_hd s.disk_buf hlen 0 0 s.file_block (booter.drop s.offset) hc (s.lba = 1)
  have ht : List.take (booter.length - s.offset) (booter.drop s.offset)
      = booter.drop s.offset := List.take_of_length_le (by simp)
  have hng : ¬ (booter.length - s.offset > 252) := by omega
  have hml : (memcpy ((((s.disk_buf.set 0 0).set 1 0).set 2 ((s.file_block >>> 8) &&& 0xff)).set
      3 (s.file_block &&& 0xff)) 4 (booter.drop s.offset)).length = 512 := by
    rw [memcpy_length]; simp only [List.length_set, hlen]
  have hev := exec_valid_after spill _ hml (booter.length - s.offset) h
    (s.lba = 1 ∨ booter.length - s.offset < 252)
  simp only [hd_body, sector_data_size, floppy_sector_size, sector_header_size, SECTOR_SIZE,
    Nat.reduceSub, h, decide_True, if_true, hng, if_false, ht, hv, Bool.true_eq_false, hev]
  rw [hcl] at hf
  rw [hf]
  have hl := sector_image_length 0 0 s.file_block (booter.drop s.offset) hc
  have e : s.offset + (booter.length - s.offset) = booter.length := by omega
  have hlen2 : (sector_image 0 0 s.file_block (booter.drop s.offset) ++
      (if s.lba = 1 ∨ booter.length - s.offset < 252 then List.replicate 256 0
        else s.disk_buf.drop 256)).length ≤ 512 := by
    rw [List.length_append, hl]
    split <;> simp only [List.length_replicate, List.length_drop, hlen] <;> omega
  rw [List.take_of_length_le hlen2, e, hcl]

theorem hd_body_more (spill : Spill) (booter : List Nat) (s : HdState)
    (hlen : s.disk_buf.length = 512)
    (h : 252 < booter.length - s.offset) (hv : s.exec_valid = true) :
    hd_body spill booter s =
      { offset := s.offset + 252, lba := s.lba + 1, file_block := s.file_block + 1,
        disk_buf := sector_image (((s.lba + 1) >>> 8) &&& 0xff) ((s.lba + 1) &&& 0xff)
            s.file_block ((booter.drop s.offset).take 252) ++
          (if s.lba = 1 then List.replicate 256 0 else s.disk_buf.drop 256),
        fd := write s.fd (sector_image (((s.lba + 1) >>> 8) &&& 0xff) ((s.lba + 1) &&& 0xff)
            s.file_block ((booter.drop s.offset).take 252) ++
          (if s.lba = 1 then List.replicate 256 0 else s.disk_buf.drop 256)),
        exec_valid := decide (¬ s.lba = 1 ∨ spill = .spare),
        killed := false } := by
  have hcl : ((booter.drop s.offset).take 252).length = 252 := by simp; omega
  have hml : (memcpy ((((s.disk_buf.set 0 (((s.lba + 1) >>> 8) &&& 0xff)).set 1
      ((s.lba + 1) &&& 0xff)).set 2 ((s.file_block >>> 8) &&& 0xff)).set
      3 (s.file_block &&& 0xff)) 4 ((booter.drop s.offset).take 252)).length = 512 := by
    rw [memcpy_length]; simp only [List.length_set, hlen]
  have hev := exec_valid_after spill _ hml 252 (le_refl _) (s.lba = 1)
  have hf := fill_hd s.disk_buf hlen (((s.lba + 1) >>> 8) &&& 0xff) ((s.lba + 1) &&& 0xff)
    s.file_block ((booter.drop s.offset).take 252) (by omega) (s.lba = 1)
  have hng : ¬ (booter.length - s.offset ≤ 252) := by omega
  rw [hcl] at hf
  simp only [lt_irrefl, or_false] at hf
  simp only [Nat.reduceAdd, Nat.reduceSub] at hev
  simp only [hd_body, sector_data_size, floppy_sector_size, sector_header_size, SECTOR_SIZE,
    Nat.reduceSub, Nat.reduceMul, hng, decide_False, h, if_true, if_false,
    gt_iff_lt, lt_irrefl, Bool.false_eq_true, decide_eq_true_eq, or_false, hv,
    Bool.true_eq_false, Nat.reduceAdd, hev]
  rw [hf]
  have hl := sector_image_length (((s.lba + 1) >>> 8) &&& 0xff) ((s.lba + 1) &&& 0xff)
    s.file_block ((booter.drop s.offset).take 252) (by omega)
  have hlen2 : (sector_image (((s.lba + 1) >>> 8) &&& 0xff) ((s.lba + 1) &&& 0xff)
      s.file_block ((booter.drop s.offset).take 252) ++
      (if s.lba = 1 then List.replicate 256 0 else s.disk_buf.drop 256)).length ≤ 512 := by
    rw [List.length_append, hl]
    split <;> simp only [List.length_replicate, List.length_drop, hlen] <;> omega
  rw [List.take_of_length_le hlen2]


theorem pwrite_eq (b x : List Nat) (p : Nat) (hp : p ≤ b.length) :
    pwrite b p x = b.take p ++ x ++ b.drop (p + x.length) := by
  simp [pwrite, Nat.sub_eq_zero_of_le hp]

theorem pwrite_take (b x : List Nat) (p q : Nat) (hp : p ≤ b.length) (hq : q ≤ p) :
    (pwrite b p x).take q = b.take q := by
  rw [pwrite_eq b x p hp, List.append_assoc, List.take_append_of_le_length (by simp; omega),
    List.take_take, Nat.min_eq_left hq]

theorem pwrite_read (b x : List Nat) (p : Nat) (hp : p ≤ b.length) :
    ((pwrite b p x).drop p).take x.length = x := by
  rw [pwrite_eq b x p hp, List.append_assoc]
  have h : (b.take p).length = p := by simp; omega
  rw [List.drop_append_of_le_length (by omega)]
  have : List.drop p (List.take p b) = [] := List.drop_eq_nil_of_le (by omega)
  rw [this, List.nil_append, List.take_left]

theorem pwrite_length (b x : List Nat) (p : Nat) (hp : p ≤ b.length) :
    p + x.length ≤ (pwrite b p x).length := by
  rw [pwrite_eq b x p hp]
  simp
  omega

/-- The record stored at `p` by a write is still there in any later image that agrees
with the written one below `p + n`. -/
theorem read_of_frame (b x : List Nat) (p : Nat) (hp : p ≤ b.length) (r : List Nat)
    (hf : r.take (p + x.length) = (pwrite b p x).take (p + x.length)) :
    (r.drop p).take x.length = x := by
  rw [List.take_drop, hf, ← List.take_drop, pwrite_read b x p hp]


theorem floppy_loop_done (booter : List Nat) (fuel : Nat) (s : FloppyState)
    (h : ¬ s.offset < booter.length) : floppy_loop booter fuel s = some s := by
  cases fuel <;> simp [floppy_loop, h]

theorem floppy_loop_step (booter : List Nat) (fuel : Nat) (s : FloppyState)
    (h : s.offset < booter.length) :
    floppy_loop booter (fuel + 1) s = floppy_loop booter fuel (floppy_body booter s) := by
  simp [floppy_loop, h]

theorem floppy_body_offset (booter : List Nat) (s : FloppyState) :
    (floppy_body booter s).offset = s.offset + min 252 (booter.length - s.offset) := by
  simp only [floppy_body, sector_data_size, floppy_sector_size, sector_header_size]
  split <;> omega

theorem floppy_body_fd (booter : List Nat) (s : FloppyState) :
    ∃ x, (floppy_body booter s).fd = write s.fd x := ⟨_, rfl⟩

theorem floppy_body_buf_length (booter : List Nat) (s : FloppyState)
    (hlen : s.disk_buf.length = 512) (hoff : s.offset < booter.length) :
    (floppy_body booter s).disk_buf.length = 512 := by
  by_cases h : booter.length - s.offset ≤ 252
  · rw [floppy_body_last booter s hlen hoff h]
    simp only [List.length_append, List.length_drop, hlen]
    rw [sector_image_length _ _ _ _ (by simp; omega)]
  · rw [floppy_body_more booter s hlen (by omega)]
    simp only [List.length_append, List.length_drop, hlen]
    rw [sector_image_length _ _ _ _ (by simp)]

theorem floppy_loop_total (booter : List Nat) :
    ∀ (fuel : Nat) (s : FloppyState), booter.length - s.offset ≤ fuel →
      ∃ s', floppy_loop booter fuel s = some s' := by
  intro fuel
  induction fuel with
  | zero =>
    intro s h
    exact ⟨s, floppy_loop_done booter 0 s (by omega)⟩
  | succ n ih =>
    intro s h
    by_cases hlt : s.offset < booter.length
    · rw [floppy_loop_step booter n s hlt]
      apply ih
      rw [floppy_body_offset]
      omega
    · exact ⟨s, floppy_loop_done booter _ s hlt⟩

theorem write_frame (fd : Fd) (x : List Nat) (hp : fd.pos ≤ fd.bytes.length) :
    (write fd x).bytes.take fd.pos = fd.bytes.take fd.pos ∧
      (write fd x).pos = fd.pos + x.length ∧
      (write fd x).pos ≤ (write fd x).bytes.length ∧
      (write fd x).nwrites = fd.nwrites + 1 := by
  refine ⟨pwrite_take _ _ _ _ hp (le_refl _), rfl, pwrite_length _ _ _ hp, rfl⟩

theorem floppy_loop_frame (booter : List Nat) :
    ∀ (fuel : Nat) (s s' : FloppyState), floppy_loop booter fuel s = some s' →
      s.fd.pos ≤ s.fd.bytes.length →
      s'.fd.bytes.take s.fd.pos = s.fd.bytes.take s.fd.pos ∧ s.fd.pos ≤ s'.fd.pos ∧
        s'.fd.pos ≤ s'.fd.bytes.length := by
  intro fuel
  induction fuel with
  | zero =>
    intro s s' h hp
    by_cases hlt : s.offset < booter.length
    · simp [floppy_loop, hlt] at h
    · rw [floppy_loop_done booter 0 s hlt] at h
      cases h
      exact ⟨rfl, le_refl _, hp⟩
  | succ n ih =>
    intro s s' h hp
    by_cases hlt : s.offset < booter.length
    · rw [floppy_loop_step booter n s hlt] at h
      obtain ⟨x, hx⟩ := floppy_body_fd booter s
      obtain ⟨w1, w2, w3, _⟩ := write_frame s.fd x hp
      rw [← hx] at w1 w2 w3
      obtain ⟨i1, i2, i3⟩ := ih _ _ h w3
      refine ⟨?_, by omega, i3⟩
      have := congrArg (List.take s.fd.pos) i1
      rw [List.take_take, List.take_take, Nat.min_eq_left (by omega)] at this
      rw [this, w1]
    · rw [floppy_loop_done booter _ s hlt] at h
      cases h
      exact ⟨rfl, le_refl _, hp⟩


theorem sector_image_link0 (l0 l1 fb : Nat) (c tail : List Nat) :
    (sector_image l0 l1 fb c ++ tail).getD 0 0 = l0 := by
  simp [sector_image]

theorem sector_image_link1 (l0 l1 fb : Nat) (c tail : List Nat) :
    (sector_image l0 l1 fb c ++ tail).getD 1 0 = l1 := by
  simp [sector_image]

theorem sector_image_payload (l0 l1 fb : Nat) (c tail : List Nat) (hc : c.length ≤ 252) :
    ((sector_image l0 l1 fb c ++ tail).drop sector_header_size).take sector_data_size =
      c ++ List.replicate (252 - c.length) 0 := by
  have e : (sector_image l0 l1 fb c ++ tail).drop sector_header_size
      = (c ++ List.replicate (252 - c.length) 0) ++ tail := by
    simp [sector_image, sector_header_size, sector_data_size, floppy_sector_size]
  rw [e]
  apply List.take_left'
  simp [sector_data_size, floppy_sector_size, sector_header_size]
  omega

theorem floppy_loop_read (booter : List Nat) :
    ∀ (fuel : Nat) (s s' : FloppyState), floppy_loop booter fuel s = some s' →
      s.disk_buf.length = 512 → s.fd.pos ≤ s.fd.bytes.length →
      s.fd.pos = 256 * (68 * s.track + (s.sector - 1)) → 1 ≤ s.sector → s.sector ≤ 68 →
      252 * (68 * s.track + (s.sector - 1)) + (booter.length - s.offset) ≤ 1370880 →
      s.offset < booter.length →
      ∀ dfuel, (booter.length - s.offset + 251) / 252 ≤ dfuel →
        ∃ pad, floppy_read_chain s'.fd.bytes dfuel s.track s.sector =
          some (booter.drop s.offset ++ List.replicate pad 0) := by
  intro fuel
  induction fuel with
  | zero =>
    intro s s' h _ _ _ _ _ _ hoff
    simp [floppy_loop, hoff] at h
  | succ n ih =>
    intro s s' h hlen hp hpos hs1 hs2 hq hoff dfuel hd
    rw [floppy_loop_step booter n s hoff] at h
    have hoffs : floppy_offset s.track s.sector = s.fd.pos := by
      simp only [floppy_offset, floppy_sectors, floppy_sector_size]; omega
    obtain ⟨d, rfl⟩ : ∃ d, dfuel = d + 1 := ⟨dfuel - 1, by omega⟩
    by_cases hl : booter.length - s.offset ≤ 252
    · -- the last record
      have hc : (booter.drop s.offset).length ≤ 252 := by simp; omega
      rw [floppy_body_last booter s hlen hoff hl] at h
      rw [floppy_loop_done booter n _ (by simp)] at h
      cases h
      have hrec : (List.drop s.fd.pos (write s.fd (sector_image 0 0 s.file_block
          (booter.drop s.offset))).bytes).take floppy_sector_size
          = sector_image 0 0 s.file_block (booter.drop s.offset) := by
        have := pwrite_read s.fd.bytes (sector_image 0 0 s.file_block (booter.drop s.offset))
          s.fd.pos hp
        rw [sector_image_length _ _ _ _ hc] at this
        exact this
      refine ⟨252 - (booter.drop s.offset).length, ?_⟩
      simp only [floppy_read_chain, hoffs, hrec]
      have g0 := sector_image_link0 0 0 s.file_block (booter.drop s.offset) []
      have g1 := sector_image_link1 0 0 s.file_block (booter.drop s.offset) []
      have gp := sector_image_payload 0 0 s.file_block (booter.drop s.offset) [] hc
      rw [List.append_nil] at g0 g1 gp
      simp only [g0, g1, gp, and_self, if_true]
    · -- a record with a successor
      have hm : 252 < booter.length - s.offset := by omega
      have hcl : ((booter.drop s.offset).take 252).length = 252 := by simp; omega
      rw [floppy_body_more booter s hlen hm] at h
      generalize ht : (if s.sector = 68 then s.track + 1 else s.track) = t' at h
      generalize hs : (if s.sector = 68 then 1 else s.sector + 1) = s1 at h
      have hs1' : 1 ≤ s1 ∧ s1 ≤ 68 := by
        rw [← hs]; split <;> omega
      have hidx : 68 * t' + (s1 - 1) = 68 * s.track + (s.sector - 1) + 1 := by
        rw [← hs, ← ht]; split <;> omega
      have ht' : t' < 256 := by omega
      have el0 : t' &&& 0xff = t' := by rw [and_ff]; omega
      have el1 : s1 &&& 0xff = s1 := by rw [and_ff]; omega
      rw [el0, el1] at h
      generalize himg : sector_image t' s1 s.file_block ((booter.drop s.offset).take 252)
        = img at h
      have hil : img.length = 256 := by
        rw [← himg]; exact sector_image_length _ _ _ _ (by omega)
      obtain ⟨w1, w2, w3, _⟩ := write_frame s.fd img hp
      obtain ⟨f1, f2, f3⟩ := floppy_loop_frame booter n _ _ h w3
      simp only [] at f1 f2 f3
      have hrec : (List.drop s.fd.pos s'.fd.bytes).take floppy_sector_size = img := by
        have := read_of_frame s.fd.bytes img s.fd.pos hp s'.fd.bytes
          (by rw [w2] at f1; exact f1)
        rw [hil] at this
        exact this
      have hbl : (img ++ List.drop 256 s.disk_buf).length = 512 := by
        simp only [List.length_append, List.length_drop, hlen, hil]
      obtain ⟨pad, hrest⟩ := ih _ _ h hbl w3 (by simp only [w2, hil]; omega) hs1'.1 hs1'.2
        (by simp only []; omega) (by simp only []; omega) d (by simp only []; omega)
      simp only [] at hrest
      refine ⟨pad, ?_⟩
      simp only [floppy_read_chain, hoffs, hrec]
      have g0 := sector_image_link0 t' s1 s.file_block ((booter.drop s.offset).take 252) []
      have g1 := sector_image_link1 t' s1 s.file_block ((booter.drop s.offset).take 252) []
      have gp := sector_image_payload t' s1 s.file_block ((booter.drop s.offset).take 252) []
        (by omega)
      rw [List.append_nil, himg] at g0 g1 gp
      have hnz : ¬ (t' = 0 ∧ s1 = 0) := by omega
      simp only [g0, g1, gp, hnz, if_false, hrest, Option.map_some', hcl, Nat.sub_self,
        List.replicate_zero, List.append_nil]
      congr 1
      rw [← List.append_assoc]
      congr 1
      have := List.take_append_drop 252 (booter.drop s.offset)
      rw [List.drop_drop] at this
      exact this


theorem hd_loop_done (spill : Spill) (booter : List Nat) (fuel : Nat) (s : HdState)
    (h : ¬ (s.killed = false ∧ s.offset < booter.length)) :
    hd_loop spill booter fuel s = some s := by
  cases fuel <;> simp only [hd_loop, h, if_false]

theorem hd_loop_step (spill : Spill) (booter : List Nat) (fuel : Nat) (s : HdState)
    (hk : s.killed = false) (h : s.offset < booter.length) :
    hd_loop spill booter (fuel + 1) s = hd_loop spill booter fuel (hd_body spill booter s) := by
  simp only [hd_loop, hk, h, and_self, if_true]

/-- A pass whose read through `booter.exec` faults ends the loop at once, whatever the
budget. -/
theorem hd_loop_kill (spill : Spill) (booter : List Nat) (fuel : Nat) (s : HdState)
    (hk : s.killed = false) (h : s.offset < booter.length) (hv : s.exec_valid = false) :
    hd_loop spill booter (fuel + 1) s = some (hd_body spill booter s) := by
  rw [hd_loop_step spill booter fuel s hk h]
  apply hd_loop_done
  rw [(hd_body_killed spill booter s hv).1]
  simp

theorem hd_body_offset (spill : Spill) (booter : List Nat) (s : HdState)
    (hv : s.exec_valid = true) :
    (hd_body spill booter s).offset = s.offset + min 252 (booter.length - s.offset) := by
  simp only [hd_body, sector_data_size, floppy_sector_size, sector_header_size, hv,
    Bool.true_eq_false, if_false]
  split <;> omega

theorem hd_body_fd (spill : Spill) (booter : List Nat) (s : HdState)
    (hv : s.exec_valid = true) :
    ∃ x, (hd_body spill booter s).fd = write s.fd x := by
  simp only [hd_body, hv, Bool.true_eq_false, if_false]
  exact ⟨_, rfl⟩

theorem hd_loop_total (spill : Spill) (booter : List Nat) :
    ∀ (fuel : Nat) (s : HdState), booter.length - s.offset ≤ fuel →
      ∃ s', hd_loop spill booter fuel s = some s' := by
  intro fuel
  induction fuel with
  | zero =>
    intro s h
    exact ⟨s, hd_loop_done spill booter 0 s (by omega)⟩
  | succ n ih =>
    intro s h
    by_cases hlt : s.killed = false ∧ s.offset < booter.length
    · by_cases hv : s.exec_valid = true
      · rw [hd_loop_step spill booter n s hlt.1 hlt.2]
        apply ih
        rw [hd_body_offset spill booter s hv]
        omega
      · exact ⟨_, hd_loop_kill spill booter n s hlt.1 hlt.2 (by simpa using hv)⟩
    · exact ⟨s, hd_loop_done spill booter _ s hlt⟩

theorem hd_loop_frame (spill : Spill) (booter : List Nat) :
    ∀ (fuel : Nat) (s s' : HdState), hd_loop spill booter fuel s = some s' →
      s.fd.pos ≤ s.fd.bytes.length →
      s'.fd.bytes.take s.fd.pos = s.fd.bytes.take s.fd.pos ∧ s.fd.pos ≤ s'.fd.pos ∧
        s'.fd.pos ≤ s'.fd.bytes.length := by
  intro fuel
  induction fuel with
  | zero =>
    intro s s' h hp
    by_cases hlt : s.killed = false ∧ s.offset < booter.length
    · simp [hd_loop, hlt] at h
    · rw [hd_loop_done spill booter 0 s hlt] at h
      cases h
      exact ⟨rfl, le_refl _, hp⟩
  | succ n ih =>
    intro s s' h hp
    by_cases hlt : s.killed = false ∧ s.offset < booter.length
    · by_cases hv : s.exec_valid = true
      · rw [hd_loop_step spill booter n s hlt.1 hlt.2] at h
        obtain ⟨x, hx⟩ := hd_body_fd spill booter s hv
        obtain ⟨w1, w2, w3, _⟩ := write_frame s.fd x hp
        rw [← hx] at w1 w2 w3
        obtain ⟨i1, i2, i3⟩ := ih _ _ h w3
        refine ⟨?_, by omega, i3⟩
        have := congrArg (List.take s.fd.pos) i1
        rw [List.take_take, List.take_take, Nat.min_eq_left (by omega)] at this
        rw [this, w1]
      · have hv' : s.exec_valid = false := by simpa using hv
        rw [hd_loop_kill spill booter n s hlt.1 hlt.2 hv'] at h
        cases h
        rw [(hd_body_killed spill booter s hv').2.1]
        exact ⟨rfl, le_refl _, hp⟩
    · rw [hd_loop_done spill booter _ s hlt] at h
      cases h
      exact ⟨rfl, le_refl _, hp⟩

theorem hd_tail_length (z : Prop) [Decidable z] (buf : List Nat) (hlen : buf.length = 512) :
    (if z then List.replicate 256 0 else buf.drop 256).length = 256 := by
  split <;> simp only [List.length_replicate, List.length_drop, hlen]

/-- A run of the copy loop that is not killed reads back. -/
theorem hd_loop_read (spill : Spill) (booter : List Nat) :
    ∀ (fuel : Nat) (s s' : HdState), hd_loop spill booter fuel s = some s' →
      s.killed = false → s'.killed = false →
      s.disk_buf.length = 512 → s.fd.pos ≤ s.fd.bytes.length →
      s.fd.pos = 512 * s.lba → 1 ≤ s.lba →
      252 * s.lba + (booter.length - s.offset) ≤ 252 * 65536 →
      s.offset < booter.length →
      ∀ dfuel, (booter.length - s.offset + 251) / 252 ≤ dfuel →
        ∃ pad, hd_read_chain s'.fd.bytes dfuel s.lba =
          some (booter.drop s.offset ++ List.replicate pad 0) := by
  intro fuel
  induction fuel with
  | zero =>
    intro s s' h hk _ _ _ _ _ _ hoff
    simp [hd_loop, hoff, hk] at h
  | succ n ih =>
    intro s s' h hk hk' hlen hp hpos hl1 hq hoff dfuel hd
    have hv : s.exec_valid = true := by
      by_contra hv
      have hv' : s.exec_valid = false := by simpa using hv
      rw [hd_loop_kill spill booter n s hk hoff hv'] at h
      cases h
      rw [(hd_body_killed spill booter s hv').1] at hk'
      cases hk'
    rw [hd_loop_step spill booter n s hk hoff] at h
    have hoffs : s.lba * SECTOR_SIZE = s.fd.pos := by
      simp only [SECTOR_SIZE]; omega
    obtain ⟨d, rfl⟩ : ∃ d, dfuel = d + 1 := ⟨dfuel - 1, by omega⟩
    by_cases hl : booter.length - s.offset ≤ 252
    · -- the last record
      have hc : (booter.drop s.offset).length ≤ 252 := by simp; omega
      rw [hd_body_last spill booter s hlen hoff hl hv] at h
      rw [hd_loop_done spill booter n _ (by simp)] at h
      cases h
      generalize htl : (if s.lba = 1 ∨ (booter.drop s.offset).length < 252
        then List.replicate 256 0 else s.disk_buf.drop 256) = tail
      have htll : tail.length = 256 := by
        rw [← htl]; exact hd_tail_length _ _ hlen
      have hxl : (sector_image 0 0 s.file_block (booter.drop s.offset) ++ tail).length
          = 512 := by
        rw [List.length_append, sector_image_length _ _ _ _ hc, htll]
      have hrec : (List.drop s.fd.pos (write s.fd (sector_image 0 0 s.file_block
          (booter.drop s.offset) ++ tail)).bytes).take SECTOR_SIZE
          = sector_image 0 0 s.file_block (booter.drop s.offset) ++ tail := by
        have := pwrite_read s.fd.bytes
          (sector_image 0 0 s.file_block (booter.drop s.offset) ++ tail) s.fd.pos hp
        rw [hxl] at this
        exact this
      refine ⟨252 - (booter.drop s.offset).length, ?_⟩
      simp only [hd_read_chain, hoffs, hrec]
      have g0 := sector_image_link0 0 0 s.file_block (booter.drop s.offset) tail
      have g1 := sector_image_link1 0 0 s.file_block (booter.drop s.offset) tail
      have gp := sector_image_payload 0 0 s.file_block (booter.drop s.offset) tail hc
      simp only [g0, g1, gp, and_self, if_true]
    · -- a record with a successor
      have hm : 252 < booter.length - s.offset := by omega
      have hcl : ((booter.drop s.offset).take 252).length = 252 := by simp; omega
      rw [hd_body_more spill booter s hlen hm hv] at h
      generalize htl : (if s.lba = 1 then List.replicate 256 0 else s.disk_buf.drop 256)
        = tail at h
      have htll : tail.length = 256 := by
        rw [← htl]; exact hd_tail_length _ _ hlen
      have el0 : ((s.lba + 1) >>> 8) &&& 0xff = (s.lba + 1) / 256 := by
        rw [and_ff, shr8]; omega
      have el1 : (s.lba + 1) &&& 0xff = (s.lba + 1) % 256 := and_ff _
      rw [el0, el1] at h
      generalize himg : sector_image ((s.lba + 1) / 256) ((s.lba + 1) % 256) s.file_block
        ((booter.drop s.offset).take 252) ++ tail = x at h
      have hxl : x.length = 512 := by
        rw [← himg, List.length_append, sector_image_length _ _ _ _ (by omega), htll]
      obtain ⟨w1, w2, w3, _⟩ := write_frame s.fd x hp
      obtain ⟨f1, f2, f3⟩ := hd_loop_frame spill booter n _ _ h w3
      simp only [] at f1 f2 f3
      have hrec : (List.drop s.fd.pos s'.fd.bytes).take SECTOR_SIZE = x := by
        have := read_of_frame s.fd.bytes x s.fd.pos hp s'.fd.bytes
          (by rw [w2] at f1; exact f1)
        rw [hxl] at this
        exact this
      obtain ⟨pad, hrest⟩ := ih _ _ h rfl hk' hxl w3 (by simp only [w2, hxl]; omega)
        (by simp only []; omega) (by simp only []; omega) (by simp only []; omega) d
        (by simp only []; omega)
      simp only [] at hrest
      refine ⟨pad, ?_⟩
      simp only [hd_read_chain, hoffs, hrec]
      have g0 := sector_image_link0 ((s.lba + 1) / 256) ((s.lba + 1) % 256) s.file_block
        ((booter.drop s.offset).take 252) tail
      have g1 := sector_image_link1 ((s.lba + 1) / 256) ((s.lba + 1) % 256) s.file_block
        ((booter.drop s.offset).take 252) tail
      have gp := sector_image_payload ((s.lba + 1) / 256) ((s.lba + 1) % 256) s.file_block
        ((booter.drop s.offset).take 252) tail (by omega)
      rw [himg] at g0 g1 gp
      have hnz : ¬ ((s.lba + 1) / 256 = 0 ∧ (s.lba + 1) % 256 = 0) := by omega
      have hlk : (s.lba + 1) / 256 * 256 + (s.lba + 1) % 256 = s.lba + 1 := by omega
      simp only [g0, g1, gp, hnz, if_false, hlk, hrest, Option.map_some', hcl, Nat.sub_self,
        List.replicate_zero, List.append_nil]
      congr 1
      rw [← List.append_assoc]
      congr 1
      have := List.take_append_drop 252 (booter.drop s.offset)
      rw [List.drop_drop] at this
      exact this


theorem make_rex_exec_err (file : List Nat) (h : 65535 < file.length) :
    make_rex_exec file = .error .booterTooLarge := by
  have : file.length > 0xffff := h
  simp only [make_rex_exec, this, if_true]

theorem make_rex_exec_ok (file : List Nat) (h : file.length ≤ 65535) :
    ∃ hdr : List Nat, hdr.length = 12 ∧ make_rex_exec file = .ok (hdr ++ file) := by
  have hn : ¬ file.length > 0xffff := by omega
  refine ⟨[ entry_cmd_tag,
           (load_address >>> 24) &&& 0xff, (load_address >>> 16) &&& 0xff,
           (load_address >>> 8) &&& 0xff, load_address &&& 0xff, load_cmd_tag,
           (load_address >>> 24) &&& 0xff, (load_address >>> 16) &&& 0xff,
           (load_address >>> 8) &&& 0xff, load_address &&& 0xff,
           (file.length >>> 8) &&& 0xff, file.length &&& 0xff ], rfl, ?_⟩
  simp only [make_rex_exec, hn, if_false]

theorem update_floppy_image_fit (booter buf : List Nat) (fd : Fd)
    (h : booter.length + ((booter.length + 251) / 252) * 4 ≤ 1392640) :
    ∃ s', floppy_loop booter booter.length
        { track := 0, sector := 1, file_block := 0, offset := 0, disk_buf := buf, fd := fd }
        = some s' ∧
      update_floppy_image booter buf fd =
        some { err := none, fd := s'.fd, disk_buf := s'.disk_buf, warned := false,
               summary := none, killed := false } := by
  obtain ⟨s', hs⟩ := floppy_loop_total booter booter.length
    { track := 0, sector := 1, file_block := 0, offset := 0, disk_buf := buf, fd := fd }
    (by simp)
  refine ⟨s', hs, ?_⟩
  have hn : ¬ (booter.length + ((booter.length + 252 - 1) / 252) * 4 > 1392640) := by
    have : booter.length + 252 - 1 = booter.length + 251 := by omega
    rw [this]; omega
  simp only [update_floppy_image, sector_data_size, floppy_sector_size, sector_header_size,
    floppy_size, floppy_tracks, floppy_sectors, Nat.reduceSub, Nat.reduceMul, hn, if_false, hs,
    Option.map_some']

theorem update_floppy_image_big (booter buf : List Nat) (fd : Fd)
    (h : 1392640 < booter.length + ((booter.length + 251) / 252) * 4) :
    update_floppy_image booter buf fd =
      some { err := some .booterTooLargeForFloppy, fd := fd, disk_buf := buf,
             warned := false, summary := none, killed := false } := by
  have hn : (booter.length + ((booter.length + 252 - 1) / 252) * 4 > 1392640) := by
    have : booter.length + 252 - 1 = booter.length + 251 := by omega
    rw [this]; omega
  simp only [update_floppy_image, sector_data_size, floppy_sector_size, sector_header_size,
    floppy_size, floppy_tracks, floppy_sectors, Nat.reduceSub, Nat.reduceMul, hn, if_true]

/-- What `update_hd_image` does, case by case: either it dies before the loop, the file
untouched apart from the descriptor having read block 0, or every check passed and the
outcome is that of the copy loop started at block 1. -/
theorem update_hd_image_cases (spill : Spill) (booter buf : List Nat) (fd : Fd) :
    ∃ out, update_hd_image spill booter buf fd = some out ∧
      ((∃ e, out.err = some e ∧ out.fd = (read fd SECTOR_SIZE).2 ∧ out.killed = false ∧
          (e = .readingMBR ∨ (∃ a b, e = .badMagic a b) ∨
            overlap_check (memcpy buf 0 (read fd SECTOR_SIZE).1)
              (booter.length / floppy_sector_size) 4 0 = some e)) ∨
       (out.err = none ∧ (read fd SECTOR_SIZE).1.length = SECTOR_SIZE ∧
          mbr_magic (memcpy buf 0 (read fd SECTOR_SIZE).1) 0 = 0x55 ∧
          mbr_magic (memcpy buf 0 (read fd SECTOR_SIZE).1) 1 = 0xaa ∧
          overlap_check (memcpy buf 0 (read fd SECTOR_SIZE).1)
            (booter.length / floppy_sector_size) 4 0 = none ∧
          ∃ s', hd_loop spill booter booter.length
              { offset := 0, lba := 1, file_block := 0,
                disk_buf := memcpy buf 0 (read fd SECTOR_SIZE).1,
                fd := (read fd SECTOR_SIZE).2, exec_valid := true, killed := false } =
                some s' ∧
            out.fd = s'.fd ∧ out.disk_buf = s'.disk_buf ∧ out.killed = s'.killed ∧
            out.summary = if s'.killed then none else some (s'.lba - 1))) := by
  unfold update_hd_image
  simp only []
  split
  · exact ⟨_, rfl, Or.inl ⟨_, rfl, rfl, rfl, Or.inl rfl⟩⟩
  · rename_i hr
    split
    · exact ⟨_, rfl, Or.inl ⟨_, rfl, rfl, rfl, Or.inr (Or.inl ⟨_, _, rfl⟩)⟩⟩
    · rename_i hm
      split
      · rename_i e he
        exact ⟨_, rfl, Or.inl ⟨_, rfl, rfl, rfl, Or.inr (Or.inr he)⟩⟩
      · rename_i he
        obtain ⟨s', hs⟩ := hd_loop_total spill booter booter.length
          { offset := 0, lba := 1, file_block := 0,
            disk_buf := memcpy buf 0 (read fd SECTOR_SIZE).1,
            fd := (read fd SECTOR_SIZE).2, exec_valid := true, killed := false } (by simp)
        rw [hs]
        refine ⟨_, rfl, Or.inr ⟨rfl, ?_, ?_, ?_, he, s', rfl, rfl, rfl, rfl, rfl⟩⟩
        · simpa using hr
        · by_contra hc; exact hm (Or.inl hc)
        · by_contra hc; exact hm (Or.inr hc)

end Installboot


namespace Installboot

/-! # The installer's claims -/

/-- C1: for every booter file of length L <= 65535, `make_rex_exec` succeeds and yields
L + 12 bytes: 0x16, the load address 0x00200000 high byte first, 0x01, the load address
again, L as two bytes high byte first (L / 256 below 256, then L % 256), and then the
file unchanged; reading bytes 10 and 11 back as a big-endian number gives L. -/
theorem make_rex_exec_layout (file : List Nat) (h : file.length ≤ 65535) :
    ∃ b, make_rex_exec file = .ok b ∧
      b.length = file.length + 12 ∧
      b.take 12 = [0x16, 0x00, 0x20, 0x00, 0x00, 0x01, 0x00, 0x20, 0x00, 0x00,
        file.length / 256, file.length % 256] ∧
      file.length / 256 < 256 ∧
      b.drop 12 = file ∧
      b.getD 10 0 * 256 + b.getD 11 0 = file.length := by
  have hlt : ¬ file.length > 0xffff := by omega
  have hrun : make_rex_exec file = .ok ([ entry_cmd_tag,
           (load_address >>> 24) &&& 0xff, (load_address >>> 16) &&& 0xff,
           (load_address >>> 8) &&& 0xff, load_address &&& 0xff, load_cmd_tag,
           (load_address >>> 24) &&& 0xff, (load_address >>> 16) &&& 0xff,
           (load_address >>> 8) &&& 0xff, load_address &&& 0xff,
           (file.length >>> 8) &&& 0xff, file.length &&& 0xff ] ++ file) := by
    simp only [make_rex_exec, hlt, if_false]
  refine ⟨_, hrun, ?_, ?_, ?_, ?_, ?_⟩
  · simp
  · have h1 : (file.length >>> 8) &&& 0xff = file.length / 256 := by
      rw [and_ff, shr8]; omega
    simp [and_ff, shr8, load_address, entry_cmd_tag, load_cmd_tag]
    omega
  · omega
  · simp
  · simp [and_ff, shr8]
    omega

theorem make_rex_exec_layout_witness :
    [7, 8, 9].length ≤ 65535 ∧
    ∃ b, make_rex_exec [7, 8, 9] = .ok b ∧
      b.length = [7, 8, 9].length + 12 ∧
      b.take 12 = [0x16, 0x00, 0x20, 0x00, 0x00, 0x01, 0x00, 0x20, 0x00, 0x00,
        [7, 8, 9].length / 256, [7, 8, 9].length % 256] ∧
      [7, 8, 9].length / 256 < 256 ∧
      b.drop 12 = [7, 8, 9] ∧
      b.getD 10 0 * 256 + b.getD 11 0 = [7, 8, 9].length :=
  ⟨by decide, make_rex_exec_layout [7, 8, 9] (by decide)⟩

end Installboot

namespace Installboot

/-- On a floppy-sized image every booter file of at most 65535 bytes is installed. -/
theorem main_floppy_accepts (spill : Spill) (file image : List Nat)
    (hl : file.length ≤ 65535) (hf : image.length = floppy_size) :
    (main spill file image).map (fun o => (o.err, o.killed)) = some (none, false) := by
  obtain ⟨hdr, hh, hmk⟩ := make_rex_exec_ok file hl
  obtain ⟨s', _, hu⟩ := update_floppy_image_fit (hdr ++ file)
    (List.replicate SECTOR_SIZE 0) { bytes := image, pos := 0, nwrites := 0 }
    (by simp only [List.length_append, hh]; omega)
  simp only [main, hmk, fd_size, hf, if_true]
  rw [hu]
  rfl

/-- Round trip of a run that is not killed.  Whenever `main` installs a booter file
without a diagnostic and returns, on a floppy-sized image or on a disk image, reading
the chain back from the first record written (track 0 sector 1, or block 1) by following
the link bytes up to the record with the null link, and cutting the concatenated payload
areas to the encoded length, gives the encoded boot object back, and the booter file
from offset 12 on. -/
theorem roundtrip_of_completed_run (spill : Spill) (file image : List Nat)
    (hok : (main spill file image).map (fun o => (o.err, o.killed)) = some (none, false)) :
    ∃ booter out d, make_rex_exec file = .ok booter ∧ main spill file image = some out ∧
      (if image.length = floppy_size then floppy_read_chain out.fd.bytes booter.length 0 1
        else hd_read_chain out.fd.bytes booter.length 1) = some d ∧
      d.take booter.length = booter ∧ (d.take booter.length).drop 12 = file := by
  by_cases hsz : 65535 < file.length
  · rw [main, make_rex_exec_err file hsz] at hok
    simp at hok
  · obtain ⟨hdr, hh, hmk⟩ := make_rex_exec_ok file (by omega)
    have hbl : (hdr ++ file).length = file.length + 12 := by simp [hh]; omega
    have hfuel : ((hdr ++ file).length - 0 + 251) / 252 ≤ (hdr ++ file).length := by omega
    have hdrop : List.drop 12 (hdr ++ file) = file := by
      rw [← hh]; exact List.drop_left _ _
    by_cases hfl : image.length = floppy_size
    · obtain ⟨s', hs, hu⟩ := update_floppy_image_fit (hdr ++ file)
        (List.replicate SECTOR_SIZE 0) { bytes := image, pos := 0, nwrites := 0 } (by omega)
      obtain ⟨pad, hr⟩ := floppy_loop_read (hdr ++ file) _ _ _ hs (by simp only [List.length_replicate, SECTOR_SIZE])
        (by simp) (by simp) (by simp) (by simp) (by simp only []; omega)
        (by simp only []; omega) (hdr ++ file).length hfuel
      simp only [List.drop_zero] at hr
      refine ⟨hdr ++ file, (⟨none, s'.fd, s'.disk_buf, false, none, false⟩ : Outcome),
        hdr ++ file ++ List.replicate pad 0, hmk, ?_, ?_, List.take_left _ _, ?_⟩
      · simp only [main, hmk, fd_size, hfl, if_true]
        exact hu
      · simp only [hfl, if_true]; exact hr
      · rw [List.take_left, hdrop]
    · obtain ⟨out, hu, hc⟩ := update_hd_image_cases spill (hdr ++ file)
        (List.replicate SECTOR_SIZE 0) { bytes := image, pos := 0, nwrites := 0 }
      have hmain : main spill file image = some out := by
        simp only [main, hmk, fd_size, hfl, if_false]
        exact hu
      rw [hmain] at hok
      simp only [Option.map_some', Option.some.injEq, Prod.mk.injEq] at hok
      rcases hc with ⟨e, he, _⟩ | ⟨_, hrl, _, _, _, s', hs, hfd, _, hkl, _⟩
      · rw [he] at hok; cases hok.1
      · have hrd : (read { bytes := image, pos := 0, nwrites := 0 } SECTOR_SIZE).2.pos = 512 := by
          simp only [read, List.drop_zero] at hrl ⊢
          rw [hrl]; rfl
        have hil : 512 ≤ image.length := by
          simp only [read, List.drop_zero, List.length_take, SECTOR_SIZE] at hrl
          omega
        obtain ⟨pad, hr⟩ := hd_loop_read spill (hdr ++ file) _ _ _ hs rfl
          (by rw [← hkl]; exact hok.2)
          (by simp only [memcpy_length, List.length_replicate, SECTOR_SIZE])
          (by simp only [hrd]; exact hil) (by simp only [hrd]) (by simp)
          (by simp only []; omega) (by simp only []; omega) (hdr ++ file).length hfuel
        simp only [List.drop_zero] at hr
        refine ⟨hdr ++ file, out, hdr ++ file ++ List.replicate pad 0, hmk, hmain, ?_,
          List.take_left _ _, ?_⟩
        · simp only [hfl, if_false, hfd]; exact hr
        · rw [List.take_left, hdrop]

/-- C2: the round trip fails on a disk image in a build where the bytes that
`update_hd_image` stores past `disk_buf` hit `booter.exec`.  A booter file of 300 bytes
encodes to 312 bytes, a chain of two records; `main` raises no diagnostic and is killed
in the second pass, having written block 1 only, whose link names block 2 (header
0, 2, 0, 0); reading the chain back from block 1 gives 252 payload bytes, not the 312
bytes of the encoded boot object. -/
theorem hd_chain_cut_short_by_overrun :
    records_needed ((List.replicate 300 7).length + 12) = 2 ∧
    (main .booter_exec (List.replicate 300 7) (sample_mbr 10 100)).map
      (fun o => (o.err, o.killed, o.fd.nwrites, o.fd.bytes.length,
        (o.fd.bytes.drop 512).take 4)) = some (none, true, 1, 1024, [0, 2, 0, 0]) ∧
    ((main .booter_exec (List.replicate 300 7) (sample_mbr 10 100)).bind
      fun o => hd_read_chain o.fd.bytes 312 1).map List.length = some 252 := by
  decide!

end Installboot

namespace Installboot

/-- C3: the overlap check of `update_hd_image` lets a chain through that overlaps a
partition.  A booter file of 2761 bytes encodes to 2773 bytes, which need 12 records;
block 0 names a partition of 100 blocks starting at block 10.  The check itself finds
nothing (2773 / 256 = 10 and 10 < 10 is false) and `main` raises no diagnostic,
whatever the bytes stored past `disk_buf` land on.  Where they hit nothing it issues 12
writes, reports
blocks 1-12, and block 10, the first block of the partition, now starts with the record
header 0, 11, 0, 9; where they hit `booter.exec` it is killed after the first write. -/
theorem overlap_check_misses_partition :
    records_needed ((List.replicate 2761 7).length + 12) = 12 ∧
    part_start (sample_mbr 10 100) 0 = 10 ∧ part_size (sample_mbr 10 100) 0 = 100 ∧
    overlap_check (sample_mbr 10 100) (((List.replicate 2761 7).length + 12) /
      floppy_sector_size) 4 0 = none ∧
    (main .spare (List.replicate 2761 7)
        (sample_mbr 10 100 ++ List.replicate (12 * 512) 0xe5)).map
      (fun o => (o.err, o.killed, o.fd.nwrites, o.summary,
        (o.fd.bytes.drop (10 * 512)).take 4)) =
      some (none, false, 12, some 12, [0, 11, 0, 9]) ∧
    (main .booter_exec (List.replicate 2761 7)
        (sample_mbr 10 100 ++ List.replicate (12 * 512) 0xe5)).map
      (fun o => (o.err, o.killed, o.fd.nwrites, o.summary)) =
      some (none, true, 1, none) := by
  refine ⟨by decide!, by decide!, by decide!, by decide!, by decide!, by decide!⟩

/-- C4, counterexample: a disk image of 512 bytes (block 0 only, signature valid, no
partition) and a booter file of 600 bytes, whose chain needs 3 records, more than 512
bytes however they are framed: whatever the bytes stored past `disk_buf` land on, `main`
raises no diagnostic and writes, growing the image.  Where the bytes stored past `disk_buf` hit nothing it issues 3
writes and the image grows to 2048 bytes; where they hit `booter.exec` it is killed
after the first write, the image grown to 1024 bytes. -/
theorem hd_capacity_not_checked :
    (sample_mbr 0 0).length = 512 ∧
    512 < records_needed ((List.replicate 600 7).length + 12) * floppy_sector_size ∧
    (main .spare (List.replicate 600 7) (sample_mbr 0 0)).map
      (fun o => (o.err, o.killed, o.fd.nwrites, o.fd.bytes.length)) =
      some (none, false, 3, 2048) ∧
    (main .booter_exec (List.replicate 600 7) (sample_mbr 0 0)).map
      (fun o => (o.err, o.killed, o.fd.nwrites, o.fd.bytes.length)) =
      some (none, true, 1, 1024) := by
  decide!

/-- C4, amended: for every booter file whose encoded and framed chain (encoded length
plus 4 header bytes per 252-byte record) is larger than a floppy image, the install
fails without a write whatever the target: `main` dies with "booter too large" before
the target is touched, and `update_floppy_image` itself, handed an encoded booter of
that length, dies with "booter too large for floppy" leaving the file as it was. -/
theorem floppy_capacity_guard (spill : Spill) (file image : List Nat)
    (hbig : floppy_size <
      (file.length + 12) + records_needed (file.length + 12) * sector_header_size) :
    main spill file image =
        some { err := some .booterTooLarge, fd := { bytes := image, pos := 0, nwrites := 0 },
               disk_buf := List.replicate SECTOR_SIZE 0, warned := false, summary := none,
               killed := false } ∧
      ∀ booter buf fd, booter.length = file.length + 12 →
        update_floppy_image booter buf fd =
          some { err := some .booterTooLargeForFloppy, fd := fd, disk_buf := buf,
                 warned := false, summary := none, killed := false } := by
  simp only [floppy_size, floppy_tracks, floppy_sectors, floppy_sector_size, records_needed,
    sector_data_size, sector_header_size, Nat.reduceMul, Nat.reduceSub] at hbig
  have e : file.length + 12 + 252 - 1 = file.length + 12 + 251 := by omega
  rw [e] at hbig
  constructor
  · rw [main, make_rex_exec_err file (by omega)]
  · intro booter buf fd hb
    exact update_floppy_image_big booter buf fd (by rw [hb]; omega)

theorem floppy_capacity_guard_witness :
    floppy_size < ((List.replicate 1400000 0).length + 12) +
      records_needed ((List.replicate 1400000 0).length + 12) * sector_header_size ∧
    (main .booter_exec (List.replicate 1400000 0) (List.replicate floppy_size 0) =
        some { err := some .booterTooLarge,
               fd := { bytes := List.replicate floppy_size 0, pos := 0, nwrites := 0 },
               disk_buf := List.replicate SECTOR_SIZE 0, warned := false, summary := none,
               killed := false } ∧
      ∀ booter buf fd, booter.length = (List.replicate 1400000 0).length + 12 →
        update_floppy_image booter buf fd =
          some { err := some .booterTooLargeForFloppy, fd := fd, disk_buf := buf,
                 warned := false, summary := none, killed := false }) :=
  ⟨by rw [List.length_replicate]; decide,
   floppy_capacity_guard .booter_exec (List.replicate 1400000 0) (List.replicate floppy_size 0)
    (by rw [List.length_replicate]; decide)⟩

end Installboot

namespace Installboot

theorem read_start (image : List Nat) :
    (read { bytes := image, pos := 0, nwrites := 0 } SECTOR_SIZE).2.bytes = image ∧
    (read { bytes := image, pos := 0, nwrites := 0 } SECTOR_SIZE).2.nwrites = 0 ∧
    (read { bytes := image, pos := 0, nwrites := 0 } SECTOR_SIZE).2.pos =
      (read { bytes := image, pos := 0, nwrites := 0 } SECTOR_SIZE).1.length :=
  ⟨rfl, rfl, by simp [read]⟩

/-- C5: whatever the bytes stored past `disk_buf` land on, whenever `main` runs on a
disk image (a target that is not floppy-sized) without a diagnostic, whether it returns
or is killed on the way, block 0 of the image is as it was, and so are its bytes 446..511, the partition array and the
signature. -/
theorem hd_install_keeps_partition_table (spill : Spill) (file image : List Nat)
    (hnf : image.length ≠ floppy_size)
    (hok : (main spill file image).map (fun o => o.err) = some none) :
    ∃ out, main spill file image = some out ∧
      out.fd.bytes.take 512 = image.take 512 ∧
      (out.fd.bytes.drop 446).take 66 = (image.drop 446).take 66 := by
  by_cases hsz : 65535 < file.length
  · rw [main, make_rex_exec_err file hsz] at hok
    simp at hok
  · obtain ⟨hdr, hh, hmk⟩ := make_rex_exec_ok file (by omega)
    obtain ⟨out, hu, hc⟩ := update_hd_image_cases spill (hdr ++ file)
      (List.replicate SECTOR_SIZE 0) { bytes := image, pos := 0, nwrites := 0 }
    have hmain : main spill file image = some out := by
      simp only [main, hmk, fd_size, hnf, if_false]
      exact hu
    rw [hmain] at hok
    simp only [Option.map_some', Option.some.injEq] at hok
    rcases hc with ⟨e, he, _⟩ | ⟨_, hrl, _, _, _, s', hs, hfd, _, _⟩
    · rw [he] at hok; cases hok
    · obtain ⟨r1, _, r3⟩ := read_start image
      have hil : 512 ≤ image.length := by
        simp only [read, List.drop_zero, List.length_take, SECTOR_SIZE] at hrl
        omega
      have hpos : (read { bytes := image, pos := 0, nwrites := 0 } SECTOR_SIZE).2.pos = 512 := by
        rw [r3, hrl]; rfl
      obtain ⟨f1, _, _⟩ := hd_loop_frame spill (hdr ++ file) _ _ _ hs
        (by simp only []; rw [hpos, r1]; exact hil)
      simp only [] at f1
      rw [hpos, r1] at f1
      have h512 : out.fd.bytes.take 512 = image.take 512 := by rw [hfd]; exact f1
      refine ⟨out, hmain, h512, ?_⟩
      have := congrArg (List.drop 446) h512
      rw [List.drop_take, List.drop_take] at this
      exact this

/-- C5, on a partition starting at block 10 and a chain of 9 records: where the bytes
stored past `disk_buf` hit nothing the install succeeds, where they hit `booter.exec`
the run is killed; block 0 is unchanged in both. -/
theorem hd_install_keeps_partition_table_witness :
    part_start (sample_mbr 10 100) 0 = 10 ∧ records_needed (2100 + 12) = 9 ∧
    (sample_mbr 10 100).length ≠ floppy_size ∧
    ((main .spare (List.replicate 2100 7) (sample_mbr 10 100)).map
        (fun o => (o.err, o.killed)) = some (none, false) ∧
      ∃ out, main .spare (List.replicate 2100 7) (sample_mbr 10 100) = some out ∧
        out.fd.bytes.take 512 = (sample_mbr 10 100).take 512 ∧
        (out.fd.bytes.drop 446).take 66 = ((sample_mbr 10 100).drop 446).take 66) ∧
    ((main .booter_exec (List.replicate 2100 7) (sample_mbr 10 100)).map
        (fun o => (o.err, o.killed)) = some (none, true) ∧
      ∃ out, main .booter_exec (List.replicate 2100 7) (sample_mbr 10 100) = some out ∧
        out.fd.bytes.take 512 = (sample_mbr 10 100).take 512 ∧
        (out.fd.bytes.drop 446).take 66 = ((sample_mbr 10 100).drop 446).take 66) :=
  ⟨by decide!, by decide, by decide!,
   ⟨by decide!, hd_install_keeps_partition_table .spare (List.replicate 2100 7)
      (sample_mbr 10 100) (by decide!) (by decide!)⟩,
   ⟨by decide!, hd_install_keeps_partition_table .booter_exec (List.replicate 2100 7)
      (sample_mbr 10 100) (by decide!) (by decide!)⟩⟩

/-- C6: whatever the bytes stored past `disk_buf` land on, whenever `main` dies with a
diagnostic (the booter file longer than 65535 bytes, a wrong signature in bytes 510/511 of a target that is not
floppy-sized, the partition overlap check, and likewise a short read of block 0), no
write has been issued and the target's bytes are as they were. -/
theorem failed_install_writes_nothing (spill : Spill) (file image : List Nat)
    (e : InstallError)
    (herr : (main spill file image).map (fun o => o.err) = some (some e)) :
    ∃ out, main spill file image = some out ∧ out.err = some e ∧
      out.fd.bytes = image ∧ out.fd.nwrites = 0 := by
  by_cases hsz : 65535 < file.length
  · rw [main, make_rex_exec_err file hsz] at herr ⊢
    simp only [Option.map_some', Option.some.injEq] at herr
    exact ⟨_, rfl, congrArg some herr, rfl, rfl⟩
  · obtain ⟨hdr, hh, hmk⟩ := make_rex_exec_ok file (by omega)
    by_cases hfl : image.length = floppy_size
    · obtain ⟨s', hs, hu⟩ := update_floppy_image_fit (hdr ++ file)
        (List.replicate SECTOR_SIZE 0) { bytes := image, pos := 0, nwrites := 0 }
        (by simp only [List.length_append, hh]; omega)
      have hmain : main spill file image =
          some ⟨none, s'.fd, s'.disk_buf, false, none, false⟩ := by
        simp only [main, hmk, fd_size, hfl, if_true]
        exact hu
      rw [hmain] at herr
      simp at herr
    · obtain ⟨out, hu, hc⟩ := update_hd_image_cases spill (hdr ++ file)
        (List.replicate SECTOR_SIZE 0) { bytes := image, pos := 0, nwrites := 0 }
      have hmain : main spill file image = some out := by
        simp only [main, hmk, fd_size, hfl, if_false]
        exact hu
      rw [hmain] at herr
      simp only [Option.map_some', Option.some.injEq] at herr
      rcases hc with ⟨e', he, hfd, _⟩ | ⟨hn, _⟩
      · obtain ⟨r1, r2, _⟩ := read_start image
        exact ⟨out, hmain, herr, by rw [hfd]; exact r1, by rw [hfd]; exact r2⟩
      · rw [hn] at herr; cases herr

theorem failed_install_writes_nothing_witness :
    (main .spare [1, 2, 3] (List.replicate 512 0)).map (fun o => o.err) =
      some (some (.badMagic 0 0)) ∧
    ∃ out, main .spare [1, 2, 3] (List.replicate 512 0) = some out ∧
      out.err = some (.badMagic 0 0) ∧
      out.fd.bytes = List.replicate 512 0 ∧ out.fd.nwrites = 0 :=
  ⟨by decide!,
   failed_install_writes_nothing .spare [1, 2, 3] (List.replicate 512 0) (.badMagic 0 0)
    (by decide!)⟩

end Installboot

/-! # Lemmas about the records of a chain -/

namespace Installboot

theorem records_needed_eq (n : Nat) : records_needed n = (n + 251) / 252 := by
  simp only [records_needed, sector_data_size, floppy_sector_size, sector_header_size]
  have : n + (256 - 4) - 1 = n + 251 := by omega
  rw [this]

theorem chain_slice_eq (booter : List Nat) (k : Nat) :
    chain_slice booter k = (booter.drop (252 * k)).take 252 := by
  simp only [chain_slice, sector_data_size, floppy_sector_size, sector_header_size]

theorem floppy_record_last (booter : List Nat) (k : Nat) (h : booter.length ≤ 252 * (k + 1)) :
    floppy_record booter k = sector_image 0 0 k (booter.drop (252 * k)) := by
  have h' : booter.length ≤ sector_data_size * (k + 1) := by
    simp only [sector_data_size, floppy_sector_size, sector_header_size]; omega
  rw [floppy_record, if_pos h', chain_slice_eq]
  congr 1
  apply List.take_of_length_le
  simp only [List.length_drop]; omega

theorem floppy_record_more (booter : List Nat) (k : Nat) (h : 252 * (k + 1) < booter.length) :
    floppy_record booter k =
      sector_image ((k + 1) / 68) ((k + 1) % 68 + 1) k ((booter.drop (252 * k)).take 252) := by
  have h' : ¬ booter.length ≤ sector_data_size * (k + 1) := by
    simp only [sector_data_size, floppy_sector_size, sector_header_size]; omega
  rw [floppy_record, if_neg h', chain_slice_eq]
  rfl

/-- The records the floppy copy loop leaves in the image, from record `k` on. -/
theorem floppy_loop_records (booter : List Nat) :
    ∀ (fuel : Nat) (s s' : FloppyState) (k : Nat), floppy_loop booter fuel s = some s' →
      s.disk_buf.length = 512 → s.fd.pos ≤ s.fd.bytes.length →
      s.fd.pos = 256 * k → s.file_block = k → s.offset = 252 * k →
      s.track = k / 68 → s.sector = k % 68 + 1 →
      booter.length ≤ 1370880 → s.offset < booter.length →
      (∀ j, k ≤ j → 252 * j < booter.length →
        (s'.fd.bytes.drop (256 * j)).take 256 = floppy_record booter j) ∧
      s'.fd.pos = 256 * records_needed booter.length ∧
      s'.fd.nwrites + k = s.fd.nwrites + records_needed booter.length := by
  intro fuel
  induction fuel with
  | zero =>
    intro s s' k h _ _ _ _ _ _ _ _ hoff
    simp [floppy_loop, hoff] at h
  | succ n ih =>
    intro s s' k h hlen hp hpos hfb hofs htr hsec hq hoff
    rw [floppy_loop_step booter n s hoff] at h
    rw [records_needed_eq]
    by_cases hl : booter.length - s.offset ≤ 252
    · -- the last record
      rw [floppy_body_last booter s hlen hoff hl] at h
      rw [floppy_loop_done booter n _ (by simp)] at h
      cases h
      have hc : (booter.drop s.offset).length ≤ 252 := by simp; omega
      have hil := sector_image_length 0 0 s.file_block (booter.drop s.offset) hc
      obtain ⟨w1, w2, w3, w4⟩ := write_frame s.fd
        (sector_image 0 0 s.file_block (booter.drop s.offset)) hp
      refine ⟨?_, ?_, ?_⟩
      · intro j hj1 hj2
        have hjk : j = k := by omega
        subst hjk
        rw [floppy_record_last booter j (by omega)]
        have := pwrite_read s.fd.bytes (sector_image 0 0 s.file_block (booter.drop s.offset))
          s.fd.pos hp
        rw [hil, hpos, hfb, hofs] at this
        rw [hfb, hofs]
        simp only [write]
        rw [hpos]
        exact this
      · simp only [w2, hil]; omega
      · simp only [w4]; omega
    · -- a record with a successor
      have hm : 252 < booter.length - s.offset := by omega
      rw [floppy_body_more booter s hlen hm] at h
      have ht : (if s.sector = 68 then s.track + 1 else s.track) = (k + 1) / 68 := by
        split <;> omega
      have hs : (if s.sector = 68 then 1 else s.sector + 1) = (k + 1) % 68 + 1 := by
        split <;> omega
      rw [ht, hs] at h
      have el0 : (k + 1) / 68 &&& 0xff = (k + 1) / 68 := by rw [and_ff]; omega
      have el1 : ((k + 1) % 68 + 1) &&& 0xff = (k + 1) % 68 + 1 := by rw [and_ff]; omega
      rw [el0, el1] at h
      generalize himg : sector_image ((k + 1) / 68) ((k + 1) % 68 + 1) s.file_block
        ((booter.drop s.offset).take 252) = img at h
      have hil : img.length = 256 := by
        rw [← himg]; exact sector_image_length _ _ _ _ (by simp)
      obtain ⟨w1, w2, w3, w4⟩ := write_frame s.fd img hp
      obtain ⟨f1, f2, f3⟩ := floppy_loop_frame booter n _ _ h w3
      simp only [] at f1 f2 f3
      have hbl : (img ++ List.drop 256 s.disk_buf).length = 512 := by
        simp only [List.length_append, List.length_drop, hlen, hil]
      obtain ⟨r1, r2, r3⟩ := ih _ _ (k + 1) h hbl w3 (by simp only [w2, hil]; omega)
        (by simp only []; omega) (by simp only []; omega) rfl rfl hq
        (by simp only []; omega)
      rw [records_needed_eq] at r2 r3
      simp only [w4] at r3
      refine ⟨?_, r2, by omega⟩
      intro j hj1 hj2
      by_cases hjk : j = k
      · subst hjk
        rw [floppy_record_more booter j (by omega)]
        have := read_of_frame s.fd.bytes img s.fd.pos hp s'.fd.bytes
          (by rw [w2] at f1; exact f1)
        rw [hil, hpos] at this
        rw [this, ← himg, hfb, hofs]
      · exact r1 j (by omega) hj2

theorem hd_record_last (booter : List Nat) (k : Nat) (h : booter.length ≤ 252 * (k + 1)) :
    hd_record booter k = sector_image 0 0 k (booter.drop (252 * k)) ++ List.replicate 256 0 := by
  have h' : booter.length ≤ sector_data_size * (k + 1) := by
    simp only [sector_data_size, floppy_sector_size, sector_header_size]; omega
  rw [hd_record, if_pos h', chain_slice_eq]
  congr 2
  apply List.take_of_length_le
  simp only [List.length_drop]; omega

theorem hd_record_more (booter : List Nat) (k : Nat) (h : 252 * (k + 1) < booter.length) :
    hd_record booter k =
      sector_image ((k + 2) / 256) ((k + 2) % 256) k ((booter.drop (252 * k)).take 252) ++
        List.replicate 256 0 := by
  have h' : ¬ booter.length ≤ sector_data_size * (k + 1) := by
    simp only [sector_data_size, floppy_sector_size, sector_header_size]; omega
  rw [hd_record, if_neg h', chain_slice_eq]
  rfl

theorem hd_tail_zero (z : Prop) [Decidable z] (lba : Nat) (buf : List Nat)
    (hinv : lba = 1 ∨ buf.drop 256 = List.replicate 256 0) :
    (if lba = 1 ∨ z then List.replicate 256 0 else buf.drop 256) = List.replicate 256 0 := by
  split
  · rfl
  · rename_i hn
    rcases hinv with h | h
    · exact absurd (Or.inl h) hn
    · exact h

theorem drop_image_tail (img tail : List Nat) (h : img.length = 256) :
    (img ++ tail).drop 256 = tail := by
  rw [← h]; exact List.drop_left _ _

/-- The records the disk copy loop has written when it ends, from record `k` on: as
many as it has issued writes, all of them when the run is not killed. -/
theorem hd_loop_records (spill : Spill) (booter : List Nat) :
    ∀ (fuel : Nat) (s s' : HdState) (k : Nat), hd_loop spill booter fuel s = some s' →
      s.killed = false →
      s.disk_buf.length = 512 → s.fd.pos ≤ s.fd.bytes.length →
      s.fd.pos = 512 * (k + 1) → s.lba = k + 1 → s.file_block = k → s.offset = 252 * k →
      (s.lba = 1 ∨ s.disk_buf.drop 256 = List.replicate 256 0) →
      booter.length ≤ 1370880 → s.offset < booter.length →
      (∀ j, k ≤ j → j < k + (s'.fd.nwrites - s.fd.nwrites) →
        (s'.fd.bytes.drop (512 * (j + 1))).take 512 = hd_record booter j) ∧
      s.fd.nwrites ≤ s'.fd.nwrites ∧
      s'.fd.nwrites + k ≤ s.fd.nwrites + records_needed booter.length ∧
      (s.exec_valid = true → s.fd.nwrites < s'.fd.nwrites) ∧
      (s'.killed = false →
        s'.fd.pos = 512 * (records_needed booter.length + 1) ∧
        s'.fd.nwrites + k = s.fd.nwrites + records_needed booter.length ∧
        s'.lba = records_needed booter.length + 1) ∧
      (spill = .spare → s.exec_valid = true → s'.killed = false) := by
  intro fuel
  induction fuel with
  | zero =>
    intro s s' k h hk _ _ _ _ _ _ _ _ hoff
    simp [hd_loop, hoff, hk] at h
  | succ n ih =>
    intro s s' k h hk hlen hp hpos hlba hfb hofs hinv hq hoff
    rw [records_needed_eq]
    by_cases hv : s.exec_valid = true
    · rw [hd_loop_step spill booter n s hk hoff] at h
      by_cases hl : booter.length - s.offset ≤ 252
      · -- the last record
        rw [hd_body_last spill booter s hlen hoff hl hv] at h
        rw [hd_loop_done spill booter n _ (by simp)] at h
        cases h
        have hc : (booter.drop s.offset).length ≤ 252 := by simp; omega
        have htl := hd_tail_zero ((booter.drop s.offset).length < 252) s.lba s.disk_buf hinv
        rw [htl]
        have hil : (sector_image 0 0 s.file_block (booter.drop s.offset) ++
            List.replicate 256 0).length = 512 := by
          rw [List.length_append, sector_image_length _ _ _ _ hc, List.length_replicate]
        obtain ⟨w1, w2, w3, w4⟩ := write_frame s.fd
          (sector_image 0 0 s.file_block (booter.drop s.offset) ++ List.replicate 256 0) hp
        refine ⟨?_, ?_, ?_, ?_, ?_, ?_⟩
        · intro j hj1 hj2
          simp only [w4] at hj2
          have hjk : j = k := by omega
          subst hjk
          rw [hd_record_last booter j (by omega)]
          have := pwrite_read s.fd.bytes (sector_image 0 0 s.file_block
            (booter.drop s.offset) ++ List.replicate 256 0) s.fd.pos hp
          rw [hil, hpos, hfb, hofs] at this
          rw [hfb, hofs]
          simp only [write]
          rw [hpos]
          exact this
        · simp only [w4]; omega
        · simp only [w4]; omega
        · intro _; simp only [w4]; omega
        · intro _
          refine ⟨?_, ?_, ?_⟩
          · simp only [w2, hil]; omega
          · simp only [w4]; omega
          · simp only []; omega
        · intro _ _; rfl
      · -- a record with a successor
        have hm : 252 < booter.length - s.offset := by omega
        rw [hd_body_more spill booter s hlen hm hv] at h
        have htl := hd_tail_zero False s.lba s.disk_buf hinv
        simp only [or_false] at htl
        rw [htl] at h
        have el0 : ((s.lba + 1) >>> 8) &&& 0xff = (k + 2) / 256 := by
          rw [and_ff, shr8]; omega
        have el1 : (s.lba + 1) &&& 0xff = (k + 2) % 256 := by rw [and_ff]; omega
        rw [el0, el1] at h
        generalize himg : sector_image ((k + 2) / 256) ((k + 2) % 256) s.file_block
          ((booter.drop s.offset).take 252) = img at h
        have hi256 : img.length = 256 := by
          rw [← himg]; exact sector_image_length _ _ _ _ (by simp)
        have hil : (img ++ List.replicate 256 0).length = 512 := by
          rw [List.length_append, hi256, List.length_replicate]
        obtain ⟨w1, w2, w3, w4⟩ := write_frame s.fd (img ++ List.replicate 256 0) hp
        obtain ⟨f1, f2, f3⟩ := hd_loop_frame spill booter n _ _ h w3
        simp only [] at f1 f2 f3
        obtain ⟨r1, r2, r3, _, r5, r6⟩ := ih _ _ (k + 1) h rfl hil w3
          (by simp only [w2, hil]; omega)
          (by simp only []; omega) (by simp only []; omega) (by simp only []; omega)
          (Or.inr (drop_image_tail _ _ hi256)) hq (by simp only []; omega)
        rw [records_needed_eq] at r3 r5
        simp only [w4] at r1 r2 r3 r5
        refine ⟨?_, by omega, by omega, fun _ => by omega, ?_, ?_⟩
        · intro j hj1 hj2
          by_cases hjk : j = k
          · subst hjk
            rw [hd_record_more booter j (by omega)]
            have := read_of_frame s.fd.bytes (img ++ List.replicate 256 0) s.fd.pos hp
              s'.fd.bytes (by rw [w2] at f1; exact f1)
            rw [hil, hpos] at this
            rw [this, ← himg, hfb, hofs]
          · exact r1 j (by omega) (by omega)
        · intro hk'
          obtain ⟨q1, q2, q3⟩ := r5 hk'
          exact ⟨q1, by omega, q3⟩
        · intro hsp _
          apply r6 hsp
          simp only [hsp, or_true, decide_True]
    · have hv' : s.exec_valid = false := by simpa using hv
      rw [hd_loop_kill spill booter n s hk hoff hv'] at h
      cases h
      obtain ⟨k1, k2, _⟩ := hd_body_killed spill booter s hv'
      rw [k2]
      refine ⟨?_, le_refl _, ?_, fun h => absurd h hv, ?_, fun _ h => absurd h hv⟩
      · intro j hj1 hj2
        omega
      · have : 252 * k < booter.length := by omega
        omega
      · intro hk'
        rw [k1] at hk'
        cases hk'

theorem lt_records_needed (n k : Nat) : k < records_needed n ↔ 252 * k < n := by
  rw [records_needed_eq]; omega

theorem update_floppy_image_records (booter buf : List Nat) (fd : Fd)
    (hlen : buf.length = 512) (hpos : fd.pos = 0) (hne : 0 < booter.length)
    (hfit : booter.length + ((booter.length + 251) / 252) * 4 ≤ 1392640) :
    ∃ out, update_floppy_image booter buf fd = some out ∧ out.err = none ∧
      (∀ k, k < records_needed booter.length →
        (out.fd.bytes.drop (256 * k)).take 256 = floppy_record booter k) ∧
      out.fd.pos = 256 * records_needed booter.length ∧
      out.fd.nwrites = fd.nwrites + records_needed booter.length ∧
      out.killed = false := by
  obtain ⟨s', hs, hu⟩ := update_floppy_image_fit booter buf fd hfit
  obtain ⟨r1, r2, r3⟩ := floppy_loop_records booter _ _ _ 0 hs hlen
    (by simp only [hpos]; omega) (by simp only [hpos]) rfl rfl rfl rfl (by omega) hne
  refine ⟨_, hu, rfl, ?_, r2, by simpa using r3, rfl⟩
  intro k hk
  exact r1 k (Nat.zero_le _) ((lt_records_needed _ _).1 hk)

/-- The blocks `update_hd_image` has written when it ends without a diagnostic: as many
records as it has issued writes, at least one, and the whole chain when the run is not
killed. -/
theorem update_hd_image_records (spill : Spill) (booter buf : List Nat) (fd : Fd)
    (hlen : buf.length = 512) (hpos : fd.pos = 0) (hne : 0 < booter.length)
    (hsz : booter.length ≤ 1370880)
    (hok : (update_hd_image spill booter buf fd).map (fun o => o.err) = some none) :
    ∃ out, update_hd_image spill booter buf fd = some out ∧ out.err = none ∧
      (∀ k, k < out.fd.nwrites - fd.nwrites →
        (out.fd.bytes.drop (512 * (k + 1))).take 512 = hd_record booter k) ∧
      fd.nwrites < out.fd.nwrites ∧
      out.fd.nwrites ≤ fd.nwrites + records_needed booter.length ∧
      (out.killed = false →
        out.fd.pos = 512 * (records_needed booter.length + 1) ∧
        out.fd.nwrites = fd.nwrites + records_needed booter.length ∧
        out.summary = some (records_needed booter.length)) ∧
      (spill = .spare → out.killed = false) := by
  obtain ⟨out, hu, hc⟩ := update_hd_image_cases spill booter buf fd
  rw [hu] at hok
  simp only [Option.map_some', Option.some.injEq] at hok
  rcases hc with ⟨e, he, _⟩ | ⟨herr, hrl, _, _, _, s', hs, hfd, _, hkl, hsum⟩
  · rw [he] at hok; cases hok
  · have hrp : (read fd SECTOR_SIZE).2.pos = 512 := by
      simp only [read, hpos, Nat.zero_add] at hrl ⊢
      rw [hrl]; rfl
    have hrb : (read fd SECTOR_SIZE).2.bytes = fd.bytes := rfl
    have hrn : (read fd SECTOR_SIZE).2.nwrites = fd.nwrites := rfl
    have hil : 512 ≤ fd.bytes.length := by
      simp only [read, hpos, List.drop_zero, List.length_take, SECTOR_SIZE] at hrl
      omega
    obtain ⟨r1, r2, r3, r4, r5, r6⟩ := hd_loop_records spill booter _ _ _ 0 hs rfl
      (by simp only [memcpy_length, hlen])
      (by simp only [hrp, hrb]; exact hil) (by simp only [hrp]) rfl rfl rfl (Or.inl rfl) hsz hne
    simp only [hrn] at r1 r2 r3 r4 r5
    refine ⟨out, hu, herr, ?_, by rw [hfd]; exact r4 trivial, by rw [hfd]; omega, ?_, ?_⟩
    · intro k hk
      rw [hfd] at hk ⊢
      exact r1 k (Nat.zero_le _) (by omega)
    · intro hk'
      rw [hkl] at hk'
      obtain ⟨q1, q2, q3⟩ := r5 hk'
      refine ⟨by rw [hfd]; exact q1, by rw [hfd]; omega, ?_⟩
      rw [hsum, hk', q3]
      rfl
    · intro hsp
      rw [hkl]
      exact r6 hsp rfl

/-- The sectors `main` leaves in the image after a run without a diagnostic: the
records of the chain, as many as it has issued writes; at least one, and all of them
when the run is not killed, which is so on a floppy image and when the bytes stored
past `disk_buf` hit nothing. -/
theorem main_records (spill : Spill) (file image : List Nat)
    (hok : (main spill file image).map (fun o => o.err) = some none) :
    ∃ booter out, make_rex_exec file = .ok booter ∧ main spill file image = some out ∧
      out.err = none ∧ booter.length = file.length + 12 ∧ file.length ≤ 65535 ∧
      0 < out.fd.nwrites ∧ out.fd.nwrites ≤ records_needed booter.length ∧
      (out.killed = false → out.fd.nwrites = records_needed booter.length) ∧
      (image.length = floppy_size ∨ spill = .spare → out.killed = false) ∧
      ∀ k, k < out.fd.nwrites →
        record_at image.length out.fd.bytes k =
          if image.length = floppy_size then floppy_record booter k else hd_record booter k := by
  by_cases hsz : 65535 < file.length
  · rw [main, make_rex_exec_err file hsz] at hok
    simp at hok
  · obtain ⟨hdr, hh, hmk⟩ := make_rex_exec_ok file (by omega)
    have hbl : (hdr ++ file).length = file.length + 12 := by simp [hh]; omega
    have hpos : 0 < records_needed (hdr ++ file).length := by
      rw [records_needed_eq]; omega
    by_cases hfl : image.length = floppy_size
    · obtain ⟨out, hu, he, r1, _, r3, r4⟩ := update_floppy_image_records (hdr ++ file)
        (List.replicate SECTOR_SIZE 0) { bytes := image, pos := 0, nwrites := 0 }
        (by simp only [List.length_replicate, SECTOR_SIZE]) rfl (by omega) (by omega)
      have hn : out.fd.nwrites = records_needed (hdr ++ file).length := by simpa using r3
      refine ⟨hdr ++ file, out, hmk, ?_, he, hbl, by omega, by omega, by omega,
        fun _ => hn, fun _ => r4, ?_⟩
      · simp only [main, hmk, fd_size, hfl, if_true]
        exact hu
      · intro k hk
        simp only [record_at, hfl, if_true, floppy_sector_size]
        exact r1 k (by omega)
    · have hm : main spill file image = update_hd_image spill (hdr ++ file)
          (List.replicate SECTOR_SIZE 0) { bytes := image, pos := 0, nwrites := 0 } := by
        simp only [main, hmk, fd_size, hfl, if_false]
      rw [hm] at hok
      obtain ⟨out, hu, he, r1, r2, r3, r4, r5⟩ := update_hd_image_records spill (hdr ++ file)
        (List.replicate SECTOR_SIZE 0) { bytes := image, pos := 0, nwrites := 0 }
        (by simp only [List.length_replicate, SECTOR_SIZE]) rfl (by omega) (by omega) hok
      simp only [Nat.zero_add, Nat.sub_zero] at r1 r2 r3 r4
      refine ⟨hdr ++ file, out, hmk, by rw [hm]; exact hu, he, hbl, by omega, r2, r3,
        fun hk => (r4 hk).2.1, ?_, ?_⟩
      · rintro (h | h)
        · exact absurd h hfl
        · exact r5 h
      · intro k hk
        simp only [record_at, hfl, if_false, SECTOR_SIZE]
        exact r1 k hk

theorem make_rex_exec_bytes (file : List Nat) (h : file.length ≤ 65535) :
    make_rex_exec file = .ok ([0x16, 0x00, 0x20, 0x00, 0x00, 0x01, 0x00, 0x20, 0x00, 0x00,
      file.length / 256, file.length % 256] ++ file) := by
  have hn : ¬ file.length > 0xffff := by omega
  have h1 : (file.length >>> 8) &&& 0xff = file.length / 256 := by
    rw [and_ff, shr8]; omega
  have h2 : file.length / 256 % 256 = file.length / 256 := by omega
  simp [make_rex_exec, hn, h1, and_ff, load_address, entry_cmd_tag, load_cmd_tag, shr8,
    Nat.shiftRight_eq_div_pow, h2]

theorem sector_image_hdr (l0 l1 fb : Nat) (c tail : List Nat) :
    (sector_image l0 l1 fb c ++ tail).take 4 = [l0, l1, fb / 256 % 256, fb % 256] := by
  simp [sector_image, and_ff, shr8]

theorem sector_image_idx (l0 l1 fb : Nat) (c tail : List Nat) :
    (sector_image l0 l1 fb c ++ tail).getD 2 0 = fb / 256 % 256 ∧
    (sector_image l0 l1 fb c ++ tail).getD 3 0 = fb % 256 := by
  simp [sector_image, and_ff, shr8]

end Installboot

/-! # The installer's claims about the chain -/

namespace Installboot

/-- C13: `make_rex_exec` fails with the "booter too large" error if and only if the
booter file is longer than 65535 bytes; a file of at most 65535 bytes, one of exactly
65535 bytes included, is accepted, and the function has no other error. -/
theorem make_rex_exec_too_large_iff (file : List Nat) :
    (make_rex_exec file = .error .booterTooLarge ↔ 65535 < file.length) ∧
    (file.length ≤ 65535 → ∃ b, make_rex_exec file = .ok b) ∧
    (∀ e, make_rex_exec file = .error e → e = .booterTooLarge ∧ 65535 < file.length) := by
  by_cases h : 65535 < file.length
  · have he := make_rex_exec_err file h
    refine ⟨⟨fun _ => h, fun _ => he⟩, fun hl => absurd h (by omega), ?_⟩
    intro e hee
    rw [he] at hee
    cases hee
    exact ⟨rfl, h⟩
  · have hb := make_rex_exec_bytes file (by omega)
    refine ⟨⟨fun he => ?_, fun hl => absurd hl h⟩, fun _ => ⟨_, hb⟩, ?_⟩
    · rw [hb] at he; cases he
    · intro e hee
      rw [hb] at hee; cases hee

/-- C13, at the boundary: 65535 bytes are accepted, 65536 are not. -/
theorem make_rex_exec_too_large_iff_witness :
    (∃ b, make_rex_exec (List.replicate 65535 0) = .ok b) ∧
    make_rex_exec (List.replicate 65536 0) = .error .booterTooLarge :=
  ⟨(make_rex_exec_too_large_iff (List.replicate 65535 0)).2.1
      (by rw [List.length_replicate]),
   (make_rex_exec_too_large_iff (List.replicate 65536 0)).1.2
      (by rw [List.length_replicate]; decide)⟩

/-- C14: `update_floppy_image`, on a chain that fits a floppy image, writes record `k`
(from 0) at byte offset 256 k, which is track k / 68, sector k % 68 + 1, so the chain
starts at track 0, sector 1; the record there is the one the format describes, and
every record that is not the last carries the link (track, sector) =
((k + 1) / 68, (k + 1) % 68 + 1), with track below 80 and sector between 1 and 68: the
sector advances by one within a track, wraps to sector 1 of the next track after sector
68, and is never 0. -/
theorem floppy_chain_layout (booter buf : List Nat) (fd : Fd)
    (hlen : buf.length = 512) (hpos : fd.pos = 0) (hne : 0 < booter.length)
    (hfit : booter.length + records_needed booter.length * sector_header_size ≤ floppy_size) :
    ∃ out, update_floppy_image booter buf fd = some out ∧ out.err = none ∧
      out.fd.nwrites = fd.nwrites + records_needed booter.length ∧
      ∀ k, k < records_needed booter.length →
        floppy_offset (k / 68) (k % 68 + 1) = 256 * k ∧
        (out.fd.bytes.drop (256 * k)).take 256 = floppy_record booter k ∧
        (k + 1 < records_needed booter.length →
          ((out.fd.bytes.drop (256 * k)).take 256).getD 0 0 = (k + 1) / 68 ∧
          ((out.fd.bytes.drop (256 * k)).take 256).getD 1 0 = (k + 1) % 68 + 1 ∧
          (k + 1) / 68 < 80 ∧ 1 ≤ (k + 1) % 68 + 1 ∧ (k + 1) % 68 + 1 ≤ 68) := by
  have hfit' : booter.length + ((booter.length + 251) / 252) * 4 ≤ 1392640 := by
    rw [records_needed_eq] at hfit
    simpa [sector_header_size, floppy_size, floppy_tracks, floppy_sectors, floppy_sector_size]
      using hfit
  obtain ⟨out, hu, he, r1, _, r3, _⟩ := update_floppy_image_records booter buf fd hlen hpos
    hne hfit'
  refine ⟨out, hu, he, r3, ?_⟩
  intro k hk
  refine ⟨?_, r1 k hk, ?_⟩
  · simp only [floppy_offset, floppy_sectors, floppy_sector_size]; omega
  · intro hk1
    rw [r1 k hk]
    have hmore : 252 * (k + 1) < booter.length := (lt_records_needed _ _).1 hk1
    rw [floppy_record_more booter k hmore]
    have g0 := sector_image_link0 ((k + 1) / 68) ((k + 1) % 68 + 1) k
      ((booter.drop (252 * k)).take 252) []
    have g1 := sector_image_link1 ((k + 1) / 68) ((k + 1) % 68 + 1) k
      ((booter.drop (252 * k)).take 252) []
    rw [List.append_nil] at g0 g1
    refine ⟨g0, g1, ?_, ?_, ?_⟩ <;> omega

/-- C14, on a chain of two records. -/
theorem floppy_chain_layout_witness :
    (List.replicate 512 0).length = 512 ∧
    (⟨List.replicate 1024 0, 0, 0⟩ : Fd).pos = 0 ∧
    0 < (List.replicate 300 7).length ∧
    (List.replicate 300 7).length +
      records_needed (List.replicate 300 7).length * sector_header_size ≤ floppy_size ∧
    ∃ out, update_floppy_image (List.replicate 300 7) (List.replicate 512 0)
        ⟨List.replicate 1024 0, 0, 0⟩ = some out ∧ out.err = none ∧
      out.fd.nwrites = (⟨List.replicate 1024 0, 0, 0⟩ : Fd).nwrites +
        records_needed (List.replicate 300 7).length ∧
      ∀ k, k < records_needed (List.replicate 300 7).length →
        floppy_offset (k / 68) (k % 68 + 1) = 256 * k ∧
        (out.fd.bytes.drop (256 * k)).take 256 = floppy_record (List.replicate 300 7) k ∧
        (k + 1 < records_needed (List.replicate 300 7).length →
          ((out.fd.bytes.drop (256 * k)).take 256).getD 0 0 = (k + 1) / 68 ∧
          ((out.fd.bytes.drop (256 * k)).take 256).getD 1 0 = (k + 1) % 68 + 1 ∧
          (k + 1) / 68 < 80 ∧ 1 ≤ (k + 1) % 68 + 1 ∧ (k + 1) % 68 + 1 ≤ 68) :=
  ⟨by decide!, rfl, by decide!, by decide!,
   floppy_chain_layout (List.replicate 300 7) (List.replicate 512 0)
    ⟨List.replicate 1024 0, 0, 0⟩ (by decide!) rfl (by decide!) (by decide!)⟩

/-- What a run that returned without a diagnostic has as its outcome. -/
theorem completed_run (spill : Spill) (file image : List Nat)
    (hok : (main spill file image).map (fun o => (o.err, o.killed)) = some (none, false)) :
    (main spill file image).map (fun o => o.err) = some none ∧
    ∀ out, main spill file image = some out → out.killed = false := by
  cases hm : main spill file image with
  | none => rw [hm] at hok; cases hok
  | some o =>
    rw [hm] at hok
    simp only [Option.map_some', Option.some.injEq, Prod.mk.injEq] at hok
    refine ⟨by rw [Option.map_some', hok.1], ?_⟩
    intro out ho
    cases ho
    exact hok.2

/-- The links of a chain that was written in full.  Whenever `main` installs a booter
file without a diagnostic and returns, on either medium, the record whose link bytes
(header bytes 0 and 1) are both zero is exactly the last of the records written, and
record `k` carries `k` as a big-endian 16-bit number in header bytes 2 and 3. -/
theorem chain_links_of_completed_run (spill : Spill) (file image : List Nat)
    (hok : (main spill file image).map (fun o => (o.err, o.killed)) = some (none, false)) :
    ∃ booter out, make_rex_exec file = .ok booter ∧ main spill file image = some out ∧
      out.fd.nwrites = records_needed booter.length ∧ 0 < records_needed booter.length ∧
      ∀ k, k < records_needed booter.length →
        (((record_at image.length out.fd.bytes k).getD 0 0 = 0 ∧
          (record_at image.length out.fd.bytes k).getD 1 0 = 0) ↔
            k + 1 = records_needed booter.length) ∧
        (record_at image.length out.fd.bytes k).getD 2 0 = k / 256 ∧
        (record_at image.length out.fd.bytes k).getD 3 0 = k % 256 ∧
        (record_at image.length out.fd.bytes k).getD 2 0 * 256 +
          (record_at image.length out.fd.bytes k).getD 3 0 = k := by
  obtain ⟨herr, hkl⟩ := completed_run spill file image hok
  obtain ⟨booter, out, hmk, hm, _, hbl, hfl, _, _, hn', _, hr'⟩ :=
    main_records spill file image herr
  have hn := hn' (hkl out hm)
  have hr : ∀ k, k < records_needed booter.length →
      record_at image.length out.fd.bytes k =
        if image.length = floppy_size then floppy_record booter k else hd_record booter k :=
    fun k hk => hr' k (by rw [hn]; exact hk)
  have hpos : 0 < records_needed booter.length := by
    rw [records_needed_eq]; omega
  refine ⟨booter, out, hmk, hm, hn, hpos, ?_⟩
  intro k hk
  rw [hr k hk]
  have hk' := hk
  rw [records_needed_eq] at hk'
  have hkb : k < 65536 := by omega
  have hlast : k + 1 = records_needed booter.length ↔ booter.length ≤ 252 * (k + 1) := by
    rw [records_needed_eq]; omega
  by_cases hfloppy : image.length = floppy_size
  · simp only [hfloppy, if_true]
    by_cases hl : booter.length ≤ 252 * (k + 1)
    · rw [floppy_record_last booter k hl]
      have g0 := sector_image_link0 0 0 k (booter.drop (252 * k)) []
      have g1 := sector_image_link1 0 0 k (booter.drop (252 * k)) []
      obtain ⟨g2, g3⟩ := sector_image_idx 0 0 k (booter.drop (252 * k)) []
      rw [List.append_nil] at g0 g1 g2 g3
      rw [g0, g1, g2, g3]
      refine ⟨⟨fun _ => hlast.2 hl, fun _ => ⟨rfl, rfl⟩⟩, ?_, rfl, ?_⟩ <;> omega
    · rw [floppy_record_more booter k (by omega)]
      have g0 := sector_image_link0 ((k + 1) / 68) ((k + 1) % 68 + 1) k
        ((booter.drop (252 * k)).take 252) []
      have g1 := sector_image_link1 ((k + 1) / 68) ((k + 1) % 68 + 1) k
        ((booter.drop (252 * k)).take 252) []
      obtain ⟨g2, g3⟩ := sector_image_idx ((k + 1) / 68) ((k + 1) % 68 + 1) k
        ((booter.drop (252 * k)).take 252) []
      rw [List.append_nil] at g0 g1 g2 g3
      rw [g0, g1, g2, g3]
      refine ⟨⟨fun h => ?_, fun h => absurd (hlast.1 h) hl⟩, ?_, rfl, ?_⟩ <;> omega
  · simp only [hfloppy, if_false]
    by_cases hl : booter.length ≤ 252 * (k + 1)
    · rw [hd_record_last booter k hl]
      have g0 := sector_image_link0 0 0 k (booter.drop (252 * k)) (List.replicate 256 0)
      have g1 := sector_image_link1 0 0 k (booter.drop (252 * k)) (List.replicate 256 0)
      obtain ⟨g2, g3⟩ := sector_image_idx 0 0 k (booter.drop (252 * k))
        (List.replicate 256 0)
      rw [g0, g1, g2, g3]
      refine ⟨⟨fun _ => hlast.2 hl, fun _ => ⟨rfl, rfl⟩⟩, ?_, rfl, ?_⟩ <;> omega
    · rw [hd_record_more booter k (by omega)]
      have g0 := sector_image_link0 ((k + 2) / 256) ((k + 2) % 256) k
        ((booter.drop (252 * k)).take 252) (List.replicate 256 0)
      have g1 := sector_image_link1 ((k + 2) / 256) ((k + 2) % 256) k
        ((booter.drop (252 * k)).take 252) (List.replicate 256 0)
      obtain ⟨g2, g3⟩ := sector_image_idx ((k + 2) / 256) ((k + 2) % 256) k
        ((booter.drop (252 * k)).take 252) (List.replicate 256 0)
      rw [g0, g1, g2, g3]
      refine ⟨⟨fun h => ?_, fun h => absurd (hlast.1 h) hl⟩, ?_, rfl, ?_⟩ <;> omega

/-- C15: the claim fails on a disk image in a build where the bytes that
`update_hd_image` stores past `disk_buf` hit `booter.exec`.  A booter file of 600 bytes
needs a chain of three records; `main` raises no diagnostic and is killed in the second
pass, so the only record written is record 0, whose link bytes are 0, 2, the number of
block 2: the last record written carries a forward link and no record carries the null
link. -/
theorem hd_chain_without_null_link :
    records_needed ((List.replicate 600 3).length + 12) = 3 ∧
    (main .booter_exec (List.replicate 600 3) (sample_mbr 20 50)).map
      (fun o => (o.err, o.killed, o.fd.nwrites,
        (record_at (sample_mbr 20 50).length o.fd.bytes 0).take 4,
        o.fd.bytes.length)) = some (none, true, 1, [0, 2, 0, 0], 1024) := by
  refine ⟨by decide!, by decide!⟩

/-- C23: the zero-fill of `update_hd_image` stores past the end of `disk_buf.raw`.  A
booter file of two bytes encodes to 14 bytes and is installed on a disk image without
a diagnostic whatever the spilled bytes hit; in the only pass of the copy loop
`copy_size` is 14 and the
`memset` covers 512 - 14 = 498 bytes from index 4 + 14 = 18, so the indices stored to run
up to 515, four bytes beyond the 512-byte buffer. -/
theorem hd_zero_fill_overruns_disk_buf :
    make_rex_exec [0x4e, 0x75] =
      .ok [0x16, 0, 0x20, 0, 0, 0x01, 0, 0x20, 0, 0, 0, 2, 0x4e, 0x75] ∧
    SECTOR_SIZE = 512 ∧
    ∀ spill : Spill,
      (main spill [0x4e, 0x75] (sample_mbr 10 100)).map (fun o => (o.err, o.killed)) =
        some (none, false) ∧
      (∀ i ∈ [512, 513, 514, 515],
        i ∈ hd_loop_stores spill [0x16, 0, 0x20, 0, 0, 0x01, 0, 0x20, 0, 0, 0, 2, 0x4e, 0x75]
          14 { offset := 0, lba := 1, file_block := 0, disk_buf := sample_mbr 10 100,
               fd := { bytes := sample_mbr 10 100, pos := 512, nwrites := 0 },
               exec_valid := true, killed := false }) ∧
      (∀ i ∈ hd_loop_stores spill [0x16, 0, 0x20, 0, 0, 0x01, 0, 0x20, 0, 0, 0, 2, 0x4e, 0x75]
          14 { offset := 0, lba := 1, file_block := 0, disk_buf := sample_mbr 10 100,
               fd := { bytes := sample_mbr 10 100, pos := 512, nwrites := 0 },
               exec_valid := true, killed := false }, i ≤ 515) := by
  refine ⟨rfl, rfl, fun spill => ?_⟩
  cases spill <;> refine ⟨by decide!, by decide!, by decide!⟩

end Installboot

/-! # Lemmas about the loaders and the orchestrator -/

namespace Boot1

theorem getD_take (l : List Nat) (n i : Nat) (h : i < n) :
    (l.take n).getD i 0 = l.getD i 0 := by
  simp [List.getD_eq_getElem?_getD, List.getElem?_take, h]

theorem parse_hdr_take (data : List Nat) (n : Nat) (h : 48 ≤ n) :
    parse_hdr (data.take n) = parse_hdr data := by
  simp only [parse_hdr, be32]
  rw [getD_take _ _ 0 (by omega), getD_take _ _ 1 (by omega), getD_take _ _ 2 (by omega),
    getD_take _ _ 3 (by omega), getD_take _ _ 4 (by omega), getD_take _ _ (4 + 1) (by omega),
    getD_take _ _ (4 + 2) (by omega), getD_take _ _ (4 + 3) (by omega),
    getD_take _ _ 8 (by omega), getD_take _ _ (8 + 1) (by omega),
    getD_take _ _ (8 + 2) (by omega), getD_take _ _ (8 + 3) (by omega),
    getD_take _ _ 12 (by omega), getD_take _ _ (12 + 1) (by omega),
    getD_take _ _ (12 + 2) (by omega), getD_take _ _ (12 + 3) (by omega),
    getD_take _ _ 44 (by omega), getD_take _ _ 45 (by omega), getD_take _ _ 46 (by omega),
    getD_take _ _ 47 (by omega)]

/-- The bytes the header read delivers. -/
theorem hdr_read (fil : FIL) (hl : fil.lseek_res = 0) :
    (f_read (f_lseek fil 0).2 48).2.1 = (fil.data.take fil.read_cap).take 48 ∧
    (f_read (f_lseek fil 0).2 48).1 = fil.read_res ∧
    (f_lseek fil 0).1 = 0 := by
  simp [f_read, f_lseek, hl]

theorem emutos_header_check_of_ok (fil : FIL) (m : Machine) (h : header_ok fil) :
    (emutos_header_check fil m).1 = (parse_hdr (fil.data.take sizeof_hdr)).os_beg ∧
    (emutos_header_check fil m).2.2 = m ∧
    (emutos_header_check fil m).2.1.data = fil.data ∧
    (emutos_header_check fil m).2.1.lseek_res = fil.lseek_res ∧
    (emutos_header_check fil m).2.1.read_res = fil.read_res ∧
    (emutos_header_check fil m).2.1.read_cap = fil.read_cap := by
  obtain ⟨h1, h2, ⟨hl, hr, hcap⟩, ⟨e0, e1, e2, e3⟩, b1, b2, b3, b4, b5⟩ := h
  obtain ⟨r1, r2, r3⟩ := hdr_read fil hl
  have hsz : ¬ (f_size fil < 64 * 1024 ∨ f_size fil > 1024 * 1024) := by omega
  have hbytes : (fil.data.take fil.read_cap).take 48 = fil.data.take 48 := by
    simp only [sizeof_hdr] at hcap
    rw [List.take_take, Nat.min_eq_left hcap]
  have hlen : (fil.data.take 48).length = 48 := by
    simp only [f_size] at h1
    simp; omega
  have hp : parse_hdr (fil.data.take 48) = parse_hdr fil.data := parse_hdr_take _ _ (le_refl _)
  simp only [sizeof_hdr] at b1 b2 b3 b4 b5
  rw [hp] at b1 b2 b3 b4 b5
  have hid : (parse_hdr fil.data).etos_id =
      [fil.data.getD 44 0, fil.data.getD 45 0, fil.data.getD 46 0, fil.data.getD 47 0] := rfl
  have hnot : ¬ (fil.read_res ≠ 0 ∨ (fil.data.take 48).length ≠ 48 ∨
      (parse_hdr fil.data).etos_id.getD 0 0 ≠ 'E'.toNat ∨
      (parse_hdr fil.data).etos_id.getD 1 0 ≠ 'T'.toNat ∨
      (parse_hdr fil.data).etos_id.getD 2 0 ≠ 'O'.toNat ∨
      (parse_hdr fil.data).etos_id.getD 3 0 ≠ 'S'.toNat ∨
      (parse_hdr fil.data).os_beg < 0x800 ∨
      (parse_hdr fil.data).os_beg > (parse_hdr fil.data).os_end ∨
      (parse_hdr fil.data).main < (parse_hdr fil.data).os_beg ∨
      (parse_hdr fil.data).main ≥ (parse_hdr fil.data).os_end ∨
      (parse_hdr fil.data).os_end ≥ 0x00100000) := by
    rw [hid, hlen]
    simp only [List.getD_cons_zero, List.getD_cons_succ, e0, e1, e2, e3, hr]
    omega
  simp only [emutos_header_check, sizeof_hdr, hsz, if_false, r3, ne_eq, not_true_eq_false, r1,
    r2, hbytes, hp]
  rw [if_neg hnot]
  simp [f_read, f_lseek, hl]



theorem emutos_header_check_of_not_ok (fil : FIL) (m : Machine) (h : ¬ header_ok fil) :
    (emutos_header_check fil m).1 = 0 := by
  by_contra hne
  apply h
  unfold emutos_header_check at hne
  simp only [sizeof_hdr] at hne
  split at hne
  · exact absurd rfl hne
  · rename_i hsz
    split at hne
    · exact absurd rfl hne
    · rename_i hs
      split at hne
      · exact absurd rfl hne
      · rename_i hc
        have hl : fil.lseek_res = 0 := by
          by_contra hl
          apply hs
          simp [f_lseek, hl]
        obtain ⟨r1, r2, _⟩ := hdr_read fil hl
        rw [r1, r2] at hc
        simp only [not_or, ne_eq, not_not, not_lt, ge_iff_le, gt_iff_lt, not_le] at hc hsz
        obtain ⟨hr, hlen, e0, e1, e2, e3, b1, b2, b3, b4, b5⟩ := hc
        have hcap : 48 ≤ fil.read_cap := by
          simp only [List.length_take] at hlen
          omega
        have hbytes : (fil.data.take fil.read_cap).take 48 = fil.data.take 48 := by
          rw [List.take_take, Nat.min_eq_left hcap]
        rw [hbytes] at e0 e1 e2 e3 b1 b2 b3 b4 b5
        have hid : (parse_hdr (fil.data.take 48)).etos_id =
            [(fil.data.take 48).getD 44 0, (fil.data.take 48).getD 45 0,
             (fil.data.take 48).getD 46 0, (fil.data.take 48).getD 47 0] := rfl
        rw [hid] at e0 e1 e2 e3
        simp only [List.getD_cons_zero, List.getD_cons_succ] at e0 e1 e2 e3
        rw [getD_take _ _ _ (by omega)] at e0 e1 e2 e3
        exact ⟨by omega, by omega, ⟨hl, hr, hcap⟩, ⟨e0, e1, e2, e3⟩, b1, b2, b3, b4, b5⟩

theorem sample_hdr_length (a b c : Nat) : (sample_hdr a b c).length = 48 := rfl

theorem sample_take (a b c : Nat) (rest : List Nat) :
    (sample_hdr a b c ++ rest).take 48 = sample_hdr a b c :=
  List.take_left' (sample_hdr_length a b c)

theorem parse_sample (a b c : Nat) :
    (parse_hdr (sample_hdr a b c)).main = a ∧ (parse_hdr (sample_hdr a b c)).os_beg = b ∧
      (parse_hdr (sample_hdr a b c)).os_end = c := by
  simp only [parse_hdr, be32, sample_hdr, List.cons_append, List.getD_cons_zero,
    List.getD_cons_succ]
  refine ⟨?_, ?_, ?_⟩ <;> omega

theorem sample_magic (a b c : Nat) (rest : List Nat) :
    (sample_hdr a b c ++ rest).getD 44 0 = 'E'.toNat ∧
    (sample_hdr a b c ++ rest).getD 45 0 = 'T'.toNat ∧
    (sample_hdr a b c ++ rest).getD 46 0 = 'O'.toNat ∧
    (sample_hdr a b c ++ rest).getD 47 0 = 'S'.toNat := by
  refine ⟨?_, ?_, ?_, ?_⟩ <;> rfl

/-- The sample file is acceptable exactly when its three fields are. -/
theorem header_ok_sample (a b c n : Nat) (hn : 65536 ≤ 48 + n ∧ 48 + n ≤ 1048576) :
    header_ok (FIL.ofData (sample_hdr a b c ++ List.replicate n 0)) ↔
      (0x800 ≤ b ∧ b ≤ c ∧ b ≤ a ∧ a < c ∧ c < 0x00100000) := by
  obtain ⟨p1, p2, p3⟩ := parse_sample a b c
  have hlen : (sample_hdr a b c ++ List.replicate n 0).length = 48 + n := by
    rw [List.length_append, sample_hdr_length, List.length_replicate]
  simp only [header_ok, FIL.ofData, f_size, hlen, sample_take, p1, p2, p3, sample_magic,
    and_self, true_and, sizeof_hdr]
  constructor
  · rintro ⟨_, _, _, h⟩; exact h
  · intro h; exact ⟨hn.1, hn.2, by omega, h⟩

theorem store_bytes_at (mem : Nat → Nat) (a : Nat) (data : List Nat) (i : Nat)
    (h : i < data.length) : store_bytes mem a data (a + i) = data.getD i 0 := by
  have h1 : a ≤ a + i ∧ a + i < a + data.length := by omega
  simp only [store_bytes, h1, and_self, if_true, Nat.add_sub_cancel_left]

theorem store_bytes_off (mem : Nat → Nat) (a : Nat) (data : List Nat) (x : Nat)
    (h : x < a ∨ a + data.length ≤ x) : store_bytes mem a data x = mem x := by
  have h1 : ¬ (a ≤ x ∧ x < a + data.length) := by omega
  simp only [store_bytes, h1, if_false]

/-- The full read of `emutos_load` on a handle the header check has gone over. -/
theorem full_read (fil : FIL) (hl : fil.lseek_res = 0) :
    (f_read (f_lseek fil 0).2 (f_size fil)).2.1 = fil.data.take fil.read_cap ∧
    (f_read (f_lseek fil 0).2 (f_size fil)).1 = fil.read_res := by
  simp only [f_read, f_lseek, hl, if_true, List.drop_zero, f_size, and_true]
  apply List.take_of_length_le
  simp only [List.length_take]
  omega

theorem emutos_load_of_not_ok (fil : FIL) (m : Machine) (h : ¬ header_ok fil) :
    (emutos_load fil m).1 = 0 := by
  have h0 := emutos_header_check_of_not_ok fil m h
  simp only [emutos_load, h0, if_true]

theorem emutos_load_of_ok (fil : FIL) (m : Machine) (h : header_ok fil) :
    emutos_load fil m =
      if fil.data.length ≤ fil.read_cap then
        ((parse_hdr (fil.data.take sizeof_hdr)).main,
          { mem := store_bytes m.mem (parse_hdr (fil.data.take sizeof_hdr)).os_beg fil.data,
            out := m.out ++ [.fmt (.loading_at (parse_hdr (fil.data.take sizeof_hdr)).os_beg)],
            jumped := m.jumped })
      else
        (0,
          { mem := store_bytes m.mem (parse_hdr (fil.data.take sizeof_hdr)).os_beg
              (fil.data.take fil.read_cap),
            out := m.out ++ [.fmt (.loading_at (parse_hdr (fil.data.take sizeof_hdr)).os_beg)],
            jumped := m.jumped }) := by
  obtain ⟨c1, c2, c3, c4, c5, c6⟩ := emutos_header_check_of_ok fil m h
  have hbeg : (parse_hdr (fil.data.take sizeof_hdr)).os_beg ≠ 0 := by
    have := h.2.2.2.2.1; omega
  have hl : (emutos_header_check fil m).2.1.lseek_res = 0 := by rw [c4]; exact h.2.2.1.1
  obtain ⟨r1, r2⟩ := full_read (emutos_header_check fil m).2.1 hl
  have hsz : f_size (emutos_header_check fil m).2.1 = fil.data.length := by
    simp only [f_size, c3]
  have hsz2 : f_size (f_lseek (emutos_header_check fil m).2.1 0).2 = fil.data.length := by
    simp only [f_size, f_lseek, hl, if_true, c3]
  rw [c3, c6, hsz] at r1
  rw [c5, h.2.2.1.2.1, hsz] at r2
  simp only [emutos_load, c1, hbeg, if_false, c2, hsz, hsz2, r1, r2, Machine.emit, ne_eq,
    not_true_eq_false, false_or, List.length_take]
  by_cases hcap : fil.data.length ≤ fil.read_cap
  · have e1 : min fil.read_cap fil.data.length = fil.data.length := by omega
    have e2 : fil.data.take fil.read_cap = fil.data := List.take_of_length_le hcap
    rw [if_pos hcap, e2, if_neg (not_not.mpr e1)]
    -- the entry point read back from the loaded image
    have h8 : 8 ≤ fil.data.length := by have := h.1; simp only [f_size] at this; omega
    have hentry : load32 (store_bytes m.mem (parse_hdr (fil.data.take sizeof_hdr)).os_beg
        fil.data) ((parse_hdr (fil.data.take sizeof_hdr)).os_beg + 4) =
        (parse_hdr (fil.data.take sizeof_hdr)).main := by
      simp only [load32, Nat.add_assoc, Nat.reduceAdd]
      rw [store_bytes_at _ _ _ 4 (by omega), store_bytes_at _ _ _ 5 (by omega),
        store_bytes_at _ _ _ 6 (by omega), store_bytes_at _ _ _ 7 (by omega)]
      rw [parse_hdr_take _ _ (by simp [sizeof_hdr])]
      simp only [parse_hdr, be32, Nat.reduceAdd, Nat.add_assoc]
    rw [hentry]
  · have e1 : min fil.read_cap fil.data.length ≠ fil.data.length := by omega
    rw [if_neg hcap, if_pos e1]

theorem try_boot_quiet (w : World) (drive : String) (m : Machine) (hj : m.jumped = none)
    (hb : (w.vol drive).bootk5 = none) (he : (w.vol drive).emutosk5 = none) :
    try_boot w drive m = some { m with out := m.out ++ quiet_attempt (w.vol drive) drive } := by
  unfold try_boot quiet_attempt
  by_cases hm : (w.vol drive).mount_res ≠ 0
  · simp [hm, Machine.emit]
  · by_cases hc : (w.vol drive).chdrive_res ≠ 0
    · simp [hm, hc, Machine.emit, hj]
    · simp [hm, hc, Machine.emit, hj, hb, he]

end Boot1

/-! # Lemmas about `try_boot` and `boot_main` -/

namespace Boot1

theorem mounts_append (a b : List Event) : mounts (a ++ b) = mounts a ++ mounts b := by
  simp [mounts, List.filterMap_append]

theorem transfers_append (a b : List Event) :
    transfers (a ++ b) = transfers a ++ transfers b := by
  simp [transfers, List.filterMap_append]

theorem probe_trace_quiet (n a : Nat) :
    mounts (probe_trace n a) = [] ∧ transfers (probe_trace n a) = [] := by
  induction n generalizing a with
  | zero => exact ⟨rfl, rfl⟩
  | succ n ih =>
    obtain ⟨h1, h2⟩ := ih (a + 0x00100000)
    constructor
    · simpa [probe_trace, mounts] using h1
    · simpa [probe_trace, transfers] using h2

/-- The probing loop ends within its budget; it adds probing actions only, and the
value it leaves in `ram_size` does not depend on the machine. -/
theorem probe_loop_total (probe : Nat → Bool) :
    ∀ (fuel a : Nat), 0x08000000 < a + fuel * 0x00100000 →
      ∃ r n, (∀ m : Machine, probe_loop probe fuel a m =
          some (r, { m with out := m.out ++ probe_trace n a })) ∧
        a ≤ r ∧ (a ≤ 0x08000000 → r ≤ 0x08100000) ∧ (0x08000000 < a → r = a) := by
  intro fuel
  induction fuel with
  | zero =>
    intro a h
    have : ¬ a ≤ 0x08000000 := by omega
    exact ⟨a, 0, fun m => by simp [probe_loop, this, probe_trace], le_refl _, by omega,
      fun _ => rfl⟩
  | succ f ih =>
    intro a h
    by_cases ha : a ≤ 0x08000000
    · by_cases hp : probe a = true
      · obtain ⟨r, n, hr, h1, h2, h3⟩ := ih (a + 0x00100000) (by omega)
        have hb : r ≤ 0x08100000 := by
          by_cases hb : a + 0x00100000 ≤ 0x08000000
          · exact h2 hb
          · have := h3 (by omega); omega
        refine ⟨r, n + 1, fun m => ?_, by omega, fun _ => hb, by omega⟩
        simp only [probe_loop, ha, if_true, hp, Bool.not_true, Bool.false_eq_true, if_false, hr]
        simp [Machine.emit, probe_trace]
      · refine ⟨a, 1, fun m => ?_, le_refl _, by omega, by omega⟩
        have hp' : probe a = false := by simpa using hp
        simp [probe_loop, ha, hp', Machine.emit, probe_trace]
    · exact ⟨a, 0, fun m => by simp [probe_loop, ha, probe_trace], le_refl _, by omega,
        fun _ => rfl⟩

theorem boot2_load_eq (fil : FIL) (m : Machine) (hf : fil.fptr = 0) :
    boot2_load fil m =
      if f_size fil < 1024 then (0, m.emit (.fmt .boot2_small))
      else if fil.read_res ≠ 0 ∨ fil.read_cap < f_size fil then
        (0, { m with mem := store_bytes m.mem 0x2000 (fil.data.take fil.read_cap) })
      else (0x2000, { m with mem := store_bytes m.mem 0x2000 fil.data }) := by
  have hr : (f_read fil (f_size fil)).2.1 = fil.data.take fil.read_cap := by
    simp only [f_read, hf, List.drop_zero, f_size]
    apply List.take_of_length_le
    simp only [List.length_take]; omega
  have hr1 : (f_read fil (f_size fil)).1 = fil.read_res := rfl
  simp only [boot2_load, hr, hr1]
  by_cases h1 : f_size fil < 1024
  · rw [if_pos h1, if_pos h1]
  · rw [if_neg h1, if_neg h1]
    by_cases h2 : fil.read_res ≠ 0 ∨ fil.read_cap < f_size fil
    · have : fil.read_res ≠ 0 ∨ (fil.data.take fil.read_cap).length ≠ f_size fil := by
        rcases h2 with h | h
        · exact Or.inl h
        · right
          simp only [List.length_take, f_size] at h ⊢; omega
      rw [if_pos this, if_pos h2]
    · have h3 : ¬ fil.read_cap < f_size fil := fun h => h2 (Or.inr h)
      have e : fil.data.take fil.read_cap = fil.data := by
        apply List.take_of_length_le; simp only [f_size] at h3; omega
      have : ¬ (fil.read_res ≠ 0 ∨ (fil.data.take fil.read_cap).length ≠ f_size fil) := by
        rw [e]
        intro h
        rcases h with h | h
        · exact h2 (Or.inl h)
        · exact h rfl
      rw [if_neg this, if_neg h2, e]

theorem boot2_load_shape (fil : FIL) (m : Machine) (hf : fil.fptr = 0) :
    (boot2_load fil m).2.jumped = m.jumped ∧
    (∀ x, x < 0x2000 → (boot2_load fil m).2.mem x = m.mem x) ∧
    ∃ evs, (boot2_load fil m).2.out = m.out ++ evs ∧ mounts evs = [] ∧ transfers evs = [] := by
  rw [boot2_load_eq fil m hf]
  split
  · exact ⟨rfl, fun _ _ => rfl, [.fmt .boot2_small], rfl, rfl, rfl⟩
  · split
    · exact ⟨rfl, fun x hx => store_bytes_off _ _ _ x (Or.inl hx), [], by simp, rfl, rfl⟩
    · exact ⟨rfl, fun x hx => store_bytes_off _ _ _ x (Or.inl hx), [], by simp, rfl, rfl⟩

theorem emutos_load_shape (fil : FIL) (m : Machine) :
    (emutos_load fil m).2.jumped = m.jumped ∧
    ∃ evs, (emutos_load fil m).2.out = m.out ++ evs ∧ mounts evs = [] ∧ transfers evs = [] := by
  by_cases hok : header_ok fil
  · rw [emutos_load_of_ok fil m hok]
    split
    · exact ⟨rfl, _, rfl, rfl, rfl⟩
    · exact ⟨rfl, _, rfl, rfl, rfl⟩
  · have h0 := emutos_header_check_of_not_ok fil m hok
    have hl : emutos_load fil m = (0, (emutos_header_check fil m).2.2) := by
      simp only [emutos_load, h0, if_true]
    rw [hl]
    -- the header check either leaves the machine alone or reports the bad image
    have hm : (emutos_header_check fil m).2.2 = m ∨
        (emutos_header_check fil m).2.2 = m.emit (.fmt .bad_image) := by
      unfold emutos_header_check
      simp only []
      split
      · exact Or.inr rfl
      · split
        · exact Or.inr rfl
        · split
          · exact Or.inr rfl
          · exact Or.inl rfl
    rcases hm with h | h
    · rw [h]; exact ⟨rfl, [], by simp, rfl, rfl⟩
    · rw [h]; exact ⟨rfl, [.fmt .bad_image], rfl, rfl, rfl⟩

theorem try_boot_mount_fail (w : World) (drive : String) (m : Machine)
    (hm : (w.vol drive).mount_res ≠ 0) :
    try_boot w drive m =
      some { m with out := m.out ++ [.f_mount drive, .fmt (.no_partition drive)] } := by
  unfold try_boot
  simp [hm, Machine.emit]

theorem try_boot_chdrive_fail (w : World) (drive : String) (m : Machine)
    (hj : m.jumped = none) (hm : (w.vol drive).mount_res = 0)
    (hc : (w.vol drive).chdrive_res ≠ 0) :
    try_boot w drive m =
      some { m with out := m.out ++
        [.f_mount drive, .f_chdrive drive, .fmt (.chdrive_failed drive), .f_unmount drive] } := by
  unfold try_boot
  simp [hm, hc, Machine.emit, hj]

theorem try_boot_bootk5 (w : World) (drive : String) (m : Machine) (fil : FIL)
    (hj : m.jumped = none) (hm : (w.vol drive).mount_res = 0)
    (hc : (w.vol drive).chdrive_res = 0) (hb : (w.vol drive).bootk5 = some fil) :
    try_boot w drive m =
      some (if (boot2_load { fil with fptr := 0 } { m with out := m.out ++
            [.f_mount drive, .f_chdrive drive, .f_open "/BOOTK5.SYS"] }).1 = 0 then
          { (boot2_load { fil with fptr := 0 } { m with out := m.out ++
              [.f_mount drive, .f_chdrive drive, .f_open "/BOOTK5.SYS"] }).2 with
            out := (boot2_load { fil with fptr := 0 } { m with out := m.out ++
              [.f_mount drive, .f_chdrive drive, .f_open "/BOOTK5.SYS"] }).2.out ++
              [.fmt .err_bootk5, .f_unmount drive] }
        else
          (boot2_load { fil with fptr := 0 } { m with out := m.out ++
              [.f_mount drive, .f_chdrive drive, .f_open "/BOOTK5.SYS"] }).2.jump
            (boot2_load { fil with fptr := 0 } { m with out := m.out ++
              [.f_mount drive, .f_chdrive drive, .f_open "/BOOTK5.SYS"] }).1) := by
  have hjl := (boot2_load_shape { fil with fptr := 0 } { m with out := m.out ++
    [.f_mount drive, .f_chdrive drive, .f_open "/BOOTK5.SYS"] } rfl).1
  rw [hj] at hjl
  unfold try_boot
  simp only [hm, hc, hb, ne_eq, not_true_eq_false, if_false, Machine.emit, List.append_assoc,
    List.singleton_append, List.cons_append, List.nil_append]
  split
  · simp [hjl, hj]
  · simp [Machine.jump]

theorem handoff_out (r e : Nat) (m : Machine) :
    (handoff r e m).jumped = some e ∧
    (handoff r e m).out = m.out ++
      [.puts "", .fmt (.booting_at e), .trap12 0x80 0 0, .trap12 0x12 0 0, .trap12 0x85 0 0,
       .trap12 0x89 0 0, .trap12 0x81 0 0, .trap12 0x90 5 5, .trap12 0x91 15 0] ++
      [.jump_to_loaded_os e] := by
  simp [handoff, video_init, Machine.emit, Machine.jump]

theorem load32_store32 (mem : Nat → Nat) (a v : Nat) (hv : v < 4294967296) :
    load32 (store32 mem a v) a = v := by
  simp only [load32, store32, store_bytes, List.length_cons, List.length_nil]
  have h0 : a ≤ a ∧ a < a + (0 + 1 + 1 + 1 + 1) := by omega
  have h1 : a ≤ a + 1 ∧ a + 1 < a + (0 + 1 + 1 + 1 + 1) := by omega
  have h2 : a ≤ a + 2 ∧ a + 2 < a + (0 + 1 + 1 + 1 + 1) := by omega
  have h3 : a ≤ a + 3 ∧ a + 3 < a + (0 + 1 + 1 + 1 + 1) := by omega
  simp only [h0, h1, h2, h3, and_self, if_true, Nat.sub_self, Nat.add_sub_cancel_left,
    List.getD_cons_zero, List.getD_cons_succ, Installboot.and_ff, Nat.shiftRight_eq_div_pow,
    Nat.reducePow]
  omega

theorem load32_store32_off (mem : Nat → Nat) (a v b : Nat) (h : b + 4 ≤ a ∨ a + 4 ≤ b) :
    load32 (store32 mem a v) b = load32 mem b := by
  simp only [load32, store32]
  rw [store_bytes_off _ _ _ b (by simp; omega), store_bytes_off _ _ _ (b + 1) (by simp; omega),
    store_bytes_off _ _ _ (b + 2) (by simp; omega), store_bytes_off _ _ _ (b + 3) (by simp; omega)]



theorem handoff_mem_eq (r e : Nat) (m : Machine) :
    (handoff r e m).mem =
      store32 (store32 (store32 (store32 (store32 (store32 (store32 (store32 (store32 m.mem
        0x424 0) 0x426 0) 0x42e r) 0x5a4 0) 0x420 0x752019f3) 0x43a 0x237698aa)
        0x51a 0x5555aaaa) 0x5a8 0x1357bd13) 0x6fc 0 := by
  simp [handoff, video_init, Machine.emit, Machine.jump]

theorem load32_overlap (mem : Nat → Nat) :
    load32 (store32 (store32 mem 0x424 0) 0x426 0) 0x424 = 0 := by
  simp [load32, store32, store_bytes]

/-- The memory-configuration fields as `handoff` leaves them. -/
theorem handoff_mem (r e : Nat) (m : Machine) (hr : r < 4294967296) :
    load32 (handoff r e m).mem 0x424 = 0 ∧
    load32 (handoff r e m).mem 0x426 = 0 ∧
    load32 (handoff r e m).mem 0x42e = r ∧
    load32 (handoff r e m).mem 0x5a4 = 0 ∧
    load32 (handoff r e m).mem 0x420 = 0x752019f3 ∧
    load32 (handoff r e m).mem 0x43a = 0x237698aa ∧
    load32 (handoff r e m).mem 0x51a = 0x5555aaaa ∧
    load32 (handoff r e m).mem 0x5a8 = 0x1357bd13 ∧
    load32 (handoff r e m).mem 0x6fc = 0 := by
  rw [handoff_mem_eq]
  refine ⟨?_, ?_, ?_, ?_, ?_, ?_, ?_, ?_, ?_⟩
  · rw [load32_store32_off _ _ _ _ (by decide), load32_store32_off _ _ _ _ (by decide),
      load32_store32_off _ _ _ _ (by decide), load32_store32_off _ _ _ _ (by decide),
      load32_store32_off _ _ _ _ (by decide), load32_store32_off _ _ _ _ (by decide),
      load32_store32_off _ _ _ _ (by decide), load32_overlap]
  · rw [load32_store32_off _ _ _ _ (by decide), load32_store32_off _ _ _ _ (by decide),
      load32_store32_off _ _ _ _ (by decide), load32_store32_off _ _ _ _ (by decide),
      load32_store32_off _ _ _ _ (by decide), load32_store32_off _ _ _ _ (by decide),
      load32_store32_off _ _ _ _ (by decide), load32_store32 _ _ _ (by decide)]
  · rw [load32_store32_off _ _ _ _ (by decide), load32_store32_off _ _ _ _ (by decide),
      load32_store32_off _ _ _ _ (by decide), load32_store32_off _ _ _ _ (by decide),
      load32_store32_off _ _ _ _ (by decide), load32_store32_off _ _ _ _ (by decide),
      load32_store32 _ _ _ hr]
  · rw [load32_store32_off _ _ _ _ (by decide), load32_store32_off _ _ _ _ (by decide),
      load32_store32_off _ _ _ _ (by decide), load32_store32_off _ _ _ _ (by decide),
      load32_store32_off _ _ _ _ (by decide), load32_store32 _ _ _ (by decide)]
  · rw [load32_store32_off _ _ _ _ (by decide), load32_store32_off _ _ _ _ (by decide),
      load32_store32_off _ _ _ _ (by decide), load32_store32_off _ _ _ _ (by decide),
      load32_store32 _ _ _ (by decide)]
  · rw [load32_store32_off _ _ _ _ (by decide), load32_store32_off _ _ _ _ (by decide),
      load32_store32_off _ _ _ _ (by decide), load32_store32 _ _ _ (by decide)]
  · rw [load32_store32_off _ _ _ _ (by decide), load32_store32_off _ _ _ _ (by decide),
      load32_store32 _ _ _ (by decide)]
  · rw [load32_store32_off _ _ _ _ (by decide), load32_store32 _ _ _ (by decide)]
  · rw [load32_store32 _ _ _ (by decide)]

theorem try_boot_emutos (w : World) (drive : String) (m : Machine) (fil : FIL)
    (hj : m.jumped = none) (hm : (w.vol drive).mount_res = 0)
    (hc : (w.vol drive).chdrive_res = 0) (hb : (w.vol drive).bootk5 = none)
    (he : (w.vol drive).emutosk5 = some fil) :
    try_boot w drive m =
      if (emutos_load { fil with fptr := 0 } { m with out := m.out ++
            [.f_mount drive, .f_chdrive drive, .f_open "/BOOTK5.SYS",
             .f_open "/EMUTOSK5.SYS"] }).1 = 0 then
        some { (emutos_load { fil with fptr := 0 } { m with out := m.out ++
            [.f_mount drive, .f_chdrive drive, .f_open "/BOOTK5.SYS",
             .f_open "/EMUTOSK5.SYS"] }).2 with
          out := (emutos_load { fil with fptr := 0 } { m with out := m.out ++
            [.f_mount drive, .f_chdrive drive, .f_open "/BOOTK5.SYS",
             .f_open "/EMUTOSK5.SYS"] }).2.out ++ [.fmt .err_emutosk5, .f_unmount drive] }
      else
        (probe_loop w.probe 125 0x00400000 (emutos_load { fil with fptr := 0 }
            { m with out := m.out ++
            [.f_mount drive, .f_chdrive drive, .f_open "/BOOTK5.SYS",
             .f_open "/EMUTOSK5.SYS"] }).2).map
          fun p => handoff p.1 (emutos_load { fil with fptr := 0 } { m with out := m.out ++
            [.f_mount drive, .f_chdrive drive, .f_open "/BOOTK5.SYS",
             .f_open "/EMUTOSK5.SYS"] }).1 p.2 := by
  have hjl := (emutos_load_shape { fil with fptr := 0 } { m with out := m.out ++
    [.f_mount drive, .f_chdrive drive, .f_open "/BOOTK5.SYS", .f_open "/EMUTOSK5.SYS"] }).1
  rw [hj] at hjl
  unfold try_boot
  simp only [hm, hc, hb, he, ne_eq, not_true_eq_false, if_false, Machine.emit,
    List.append_assoc, List.singleton_append, List.cons_append, List.nil_append]
  split
  · simp [hjl, hj]
  · simp only [Option.map_map]
    congr 1

/-- What a single `try_boot` adds to the trace: one mount, of its drive, and a transfer
only as its very last action. -/
theorem try_boot_shape (w : World) (drive : String) (m : Machine) (hj : m.jumped = none) :
    ∃ m' evs, try_boot w drive m = some m' ∧ m'.out = m.out ++ evs ∧ mounts evs = [drive] ∧
      ((m'.jumped = none ∧ transfers evs = []) ∨
       (∃ e pre, m'.jumped = some e ∧ evs = pre ++ [.jump_to_loaded_os e] ∧
          transfers pre = [])) := by
  by_cases hm : (w.vol drive).mount_res = 0
  · by_cases hc : (w.vol drive).chdrive_res = 0
    · cases hb : (w.vol drive).bootk5 with
      | some fil =>
        rw [try_boot_bootk5 w drive m fil hj hm hc hb]
        obtain ⟨s1, _, evs, s3, s4, s5⟩ := boot2_load_shape { fil with fptr := 0 }
          { m with out := m.out ++ [.f_mount drive, .f_chdrive drive, .f_open "/BOOTK5.SYS"] }
          rfl
        split
        · refine ⟨_, [.f_mount drive, .f_chdrive drive, .f_open "/BOOTK5.SYS"] ++ evs ++
            [.fmt .err_bootk5, .f_unmount drive], rfl, ?_, ?_, Or.inl ⟨?_, ?_⟩⟩
          · simp only [s3, List.append_assoc]
          · simp only [mounts_append, s4]; simp [mounts]
          · exact s1.trans hj
          · simp only [transfers_append, s5]; simp [transfers]
        · refine ⟨_, [.f_mount drive, .f_chdrive drive, .f_open "/BOOTK5.SYS"] ++ evs ++
            [.jump_to_loaded_os _], rfl, ?_, ?_, Or.inr ⟨_, _, rfl, rfl, ?_⟩⟩
          · simp only [Machine.jump, s3, List.append_assoc]
          · simp only [mounts_append, s4]; simp [mounts]
          · simp only [transfers_append, s5]; simp [transfers]
      | none =>
        cases he : (w.vol drive).emutosk5 with
        | none =>
          rw [try_boot_quiet w drive m hj hb he]
          refine ⟨_, _, rfl, rfl, ?_, Or.inl ⟨hj, ?_⟩⟩
          · simp [quiet_attempt, hm, hc, mounts]
          · simp [quiet_attempt, hm, hc, transfers]
        | some fil =>
          rw [try_boot_emutos w drive m fil hj hm hc hb he]
          obtain ⟨s1, evs, s3, s4, s5⟩ := emutos_load_shape { fil with fptr := 0 }
            { m with out := m.out ++ [.f_mount drive, .f_chdrive drive,
              .f_open "/BOOTK5.SYS", .f_open "/EMUTOSK5.SYS"] }
          split
          · refine ⟨_, [.f_mount drive, .f_chdrive drive, .f_open "/BOOTK5.SYS",
              .f_open "/EMUTOSK5.SYS"] ++ evs ++ [.fmt .err_emutosk5, .f_unmount drive],
              rfl, ?_, ?_, Or.inl ⟨?_, ?_⟩⟩
            · simp only [s3, List.append_assoc]
            · simp only [mounts_append, s4]; simp [mounts]
            · exact s1.trans hj
            · simp only [transfers_append, s5]; simp [transfers]
          · generalize emutos_load { fil with fptr := 0 } { m with out := m.out ++
              [.f_mount drive, .f_chdrive drive, .f_open "/BOOTK5.SYS",
               .f_open "/EMUTOSK5.SYS"] } = L at s1 s3 ⊢
            obtain ⟨r, n, hp', _, _, _⟩ := probe_loop_total w.probe 125 0x00400000
              (by decide)
            have hp := hp' L.2
            rw [hp]
            obtain ⟨o1, o2⟩ := handoff_out r L.1
              { L.2 with out := L.2.out ++ probe_trace n 0x00400000 }
            obtain ⟨q1, q2⟩ := probe_trace_quiet n 0x00400000
            refine ⟨handoff r L.1 { L.2 with out := L.2.out ++ probe_trace n 0x00400000 },
              ([.f_mount drive, .f_chdrive drive, .f_open "/BOOTK5.SYS",
                .f_open "/EMUTOSK5.SYS"] ++ evs ++ probe_trace n 0x00400000 ++
                [.puts "", .fmt (.booting_at L.1),
                 .trap12 0x80 0 0, .trap12 0x12 0 0, .trap12 0x85 0 0,
                 .trap12 0x89 0 0, .trap12 0x81 0 0, .trap12 0x90 5 5, .trap12 0x91 15 0]) ++
                [.jump_to_loaded_os L.1], rfl, ?_, ?_, Or.inr ⟨_, _, o1, rfl, ?_⟩⟩
            · rw [o2]
              simp only [s3, List.append_assoc]
            · simp only [mounts_append, s4, q1]; simp [mounts]
            · simp only [transfers_append, s5, q2]; simp [transfers]
    · rw [try_boot_chdrive_fail w drive m hj hm hc]
      exact ⟨_, _, rfl, rfl, by simp [mounts], Or.inl ⟨hj, by simp [transfers]⟩⟩
  · rw [try_boot_mount_fail w drive m hm]
    exact ⟨_, _, rfl, rfl, by simp [mounts], Or.inl ⟨hj, by simp [transfers]⟩⟩

theorem mounts_fmt (msg : Msg) : mounts [Event.fmt msg] = [] := rfl
theorem transfers_fmt (msg : Msg) : transfers [Event.fmt msg] = [] := rfl
theorem mounts_jump (e : Nat) : mounts [Event.jump_to_loaded_os e] = [] := rfl

/-- One more labelled attempt in the scan of `boot_main`. -/
theorem next_try_boot (w : World) (d : String) (lbl : Msg) (m m1 : Machine)
    (ds : List String) (evs : List Event) (h1 : m1.out = m.out ++ evs)
    (hc : (m1.jumped = none ∧ mounts evs = ds ∧ transfers evs = []) ∨
      (∃ e pre, m1.jumped = some e ∧ evs = pre ++ [.jump_to_loaded_os e] ∧
        transfers pre = [] ∧ mounts evs <+: ds)) :
    ∃ m2 evs2, next (some m1) (fun m => try_boot w d (m.emit (.fmt lbl))) = some m2 ∧
      m2.out = m.out ++ evs2 ∧
      ((m2.jumped = none ∧ mounts evs2 = ds ++ [d] ∧ transfers evs2 = []) ∨
       (∃ e pre, m2.jumped = some e ∧ evs2 = pre ++ [.jump_to_loaded_os e] ∧
          transfers pre = [] ∧ mounts evs2 <+: ds ++ [d])) := by
  rcases hc with ⟨hj, hmo, htr⟩ | ⟨e, pre, hj, hev, htr, hpre⟩
  · obtain ⟨m2, evs2, ht, ho, hm2, hcase⟩ := try_boot_shape w d (m1.emit (.fmt lbl))
      (by simp [Machine.emit, hj])
    refine ⟨m2, evs ++ [.fmt lbl] ++ evs2, ?_, ?_, ?_⟩
    · simp [next, hj, ht]
    · rw [ho]; simp [Machine.emit, h1]
    · rcases hcase with ⟨hj2, htr2⟩ | ⟨e, pre, hj2, hev2, htr2⟩
      · left
        refine ⟨hj2, ?_, ?_⟩
        · simp only [mounts_append, hmo, hm2, mounts_fmt, List.append_nil]
        · simp only [transfers_append, htr, htr2, transfers_fmt, List.append_nil]
      · right
        refine ⟨e, evs ++ [.fmt lbl] ++ pre, hj2, ?_, ?_, ?_⟩
        · rw [hev2]; simp only [List.append_assoc]
        · simp only [transfers_append, htr, htr2, transfers_fmt, List.append_nil]
        · simp only [mounts_append, hmo, hm2, mounts_fmt, List.append_nil]
          exact List.prefix_refl _
  · refine ⟨m1, evs, ?_, h1, Or.inr ⟨e, pre, hj, hev, htr, ?_⟩⟩
    · simp [next, hj]
    · exact hpre.trans (List.prefix_append _ _)

/-- The drives `boot_main` mounts, in order, and where a transfer can stand. -/
theorem boot_main_chain (w : World) (base_addr slave : Nat) (m : Machine)
    (hj : m.jumped = none) :
    ∃ m' evs, boot_main w base_addr slave m = some m' ∧ m'.out = m.out ++ evs ∧
      ((m'.jumped = none ∧ mounts evs = candidates base_addr slave ∧ transfers evs = []) ∨
       (∃ e pre, m'.jumped = some e ∧ evs = pre ++ [.jump_to_loaded_os e] ∧
          transfers pre = [] ∧ mounts evs <+: candidates base_addr slave)) := by
  -- a single attempt after the banner
  have single : ∀ d, ∃ m' evs, try_boot w d (m.emit (.fmt .banner)) = some m' ∧
      m'.out = m.out ++ evs ∧
      ((m'.jumped = none ∧ mounts evs = [d] ∧ transfers evs = []) ∨
       (∃ e pre, m'.jumped = some e ∧ evs = pre ++ [.jump_to_loaded_os e] ∧
          transfers pre = [] ∧ mounts evs <+: [d])) := by
    intro d
    obtain ⟨m2, evs2, ht, ho, hm2, hcase⟩ := try_boot_shape w d (m.emit (.fmt .banner))
      (by simp [Machine.emit, hj])
    refine ⟨m2, [.fmt .banner] ++ evs2, ht, by rw [ho]; simp [Machine.emit], ?_⟩
    rcases hcase with ⟨hj2, htr2⟩ | ⟨e, pre, hj2, hev2, htr2⟩
    · exact Or.inl ⟨hj2, by simp only [mounts_append, hm2, mounts_fmt, List.nil_append],
        by simp only [transfers_append, htr2, transfers_fmt, List.nil_append]⟩
    · refine Or.inr ⟨e, [.fmt .banner] ++ pre, hj2, by rw [hev2]; simp, ?_, ?_⟩
      · simp only [transfers_append, htr2, transfers_fmt, List.nil_append]
      · simp only [mounts_append, hm2, mounts_fmt, List.nil_append]
        exact List.prefix_refl _
  unfold boot_main
  by_cases h1 : base_addr = 0x10000300
  · by_cases hs : slave = 0
    · simpa [h1, hs, candidates] using single "1:"
    · simpa [h1, hs, candidates] using single "2:"
  · by_cases h2 : base_addr = 0x20004180
    · by_cases hs : slave = 0
      · simpa [h1, h2, hs, candidates] using single "3:"
      · simpa [h1, h2, hs, candidates] using single "4:"
    · simp only [h1, h2, if_false, candidates]
      -- the four-drive scan
      obtain ⟨m1, e1, t1, o1, _, c1⟩ := try_boot_shape w "1:"
        ((m.emit (.fmt .banner)).emit (.fmt .xtide_master)) (by simp [Machine.emit, hj])
      have s1 : (m1.jumped = none ∧ mounts ([.fmt .banner, .fmt .xtide_master] ++ e1) = ["1:"] ∧
            transfers ([.fmt .banner, .fmt .xtide_master] ++ e1) = []) ∨
          (∃ e pre, m1.jumped = some e ∧
            [.fmt .banner, .fmt .xtide_master] ++ e1 = pre ++ [.jump_to_loaded_os e] ∧
            transfers pre = [] ∧
            mounts ([.fmt .banner, .fmt .xtide_master] ++ e1) <+: ["1:"]) := by
        rename_i hm1
        rcases c1 with ⟨hj2, htr2⟩ | ⟨e, pre, hj2, hev2, htr2⟩
        · exact Or.inl ⟨hj2, by simp only [mounts_append, hm1]; rfl,
            by simp only [transfers_append, htr2]; rfl⟩
        · refine Or.inr ⟨e, [.fmt .banner, .fmt .xtide_master] ++ pre, hj2,
            by rw [hev2]; simp, ?_, ?_⟩
          · simp only [transfers_append, htr2]; rfl
          · simp only [mounts_append, hm1]; exact List.prefix_refl _
      rw [t1]
      obtain ⟨m2, e2, t2, o2, c2⟩ := next_try_boot w "2:" .xtide_slave m m1 ["1:"] _
        (by rw [o1]; simp [Machine.emit]) s1
      rw [t2]
      obtain ⟨m3, e3, t3, o3, c3⟩ := next_try_boot w "3:" .ide_master m m2 _ _ o2 c2
      rw [t3]
      obtain ⟨m4, e4, t4, o4, c4⟩ := next_try_boot w "4:" .ide_slave m m3 _ _ o3 c3
      rw [t4]
      rcases c4 with ⟨hj4, hm4, ht4⟩ | ⟨e, pre, hj4, hev4, htr4, hp4⟩
      · refine ⟨m4.emit (.fmt .nothing_bootable), e4 ++ [.fmt .nothing_bootable], ?_, ?_,
          Or.inl ⟨hj4, ?_, ?_⟩⟩
        · simp [next, hj4]
        · simp [Machine.emit, o4]
        · simp only [mounts_append, hm4, mounts_fmt, List.append_nil]; rfl
        · simp only [transfers_append, ht4, transfers_fmt, List.append_nil]
      · refine ⟨m4, e4, ?_, o4, Or.inr ⟨e, pre, hj4, hev4, htr4, ?_⟩⟩
        · simp [next, hj4]
        · simpa using hp4

/-- The full-image path of `try_boot` on a file that passes the header check and is
read in full, given how the probing loop ends. -/
theorem try_boot_full_image (w : World) (drive : String) (m : Machine) (fil : FIL)
    (r n : Nat) (hj : m.jumped = none) (hm : (w.vol drive).mount_res = 0)
    (hc : (w.vol drive).chdrive_res = 0) (hb : (w.vol drive).bootk5 = none)
    (he : (w.vol drive).emutosk5 = some fil) (hok : header_ok fil)
    (hcap : f_size fil ≤ fil.read_cap)
    (hp : ∀ m0 : Machine, probe_loop w.probe 125 0x00400000 m0 =
      some (r, { m0 with out := m0.out ++ probe_trace n 0x00400000 })) :
    try_boot w drive m = some (handoff r (parse_hdr (fil.data.take sizeof_hdr)).main
      { mem := store_bytes m.mem (parse_hdr (fil.data.take sizeof_hdr)).os_beg fil.data,
        out := m.out ++ [.f_mount drive, .f_chdrive drive, .f_open "/BOOTK5.SYS",
            .f_open "/EMUTOSK5.SYS"] ++
          [.fmt (.loading_at (parse_hdr (fil.data.take sizeof_hdr)).os_beg)] ++
          probe_trace n 0x00400000,
        jumped := none }) := by
  have hok' : header_ok { fil with fptr := 0 } := hok
  have hl := emutos_load_of_ok { fil with fptr := 0 } { m with out := m.out ++
    [.f_mount drive, .f_chdrive drive, .f_open "/BOOTK5.SYS", .f_open "/EMUTOSK5.SYS"] } hok'
  simp only [f_size] at hcap
  rw [if_pos hcap] at hl
  have hmain : (parse_hdr (fil.data.take sizeof_hdr)).main ≠ 0 := by
    have h1 := hok.2.2.2.2.1
    have h2 := hok.2.2.2.2.2.2.1
    omega
  rw [try_boot_emutos w drive m fil hj hm hc hb he, hl]
  simp only [hmain, if_false, hp, Option.map_some', hj]

/-- The secondary-loader path of `try_boot` on a file of at least 1024 bytes that is
read in full. -/
theorem try_boot_raw (w : World) (drive : String) (m : Machine) (fil : FIL)
    (hj : m.jumped = none) (hm : (w.vol drive).mount_res = 0)
    (hc : (w.vol drive).chdrive_res = 0) (hb : (w.vol drive).bootk5 = some fil)
    (hs : 1024 ≤ f_size fil) (hr : fil.read_res = 0) (hcap : f_size fil ≤ fil.read_cap) :
    try_boot w drive m = some
      { mem := store_bytes m.mem 0x2000 fil.data,
        out := m.out ++ [.f_mount drive, .f_chdrive drive, .f_open "/BOOTK5.SYS"] ++
          [.jump_to_loaded_os 0x2000],
        jumped := some 0x2000 } := by
  have hl := boot2_load_eq { fil with fptr := 0 } { m with out := m.out ++
    [.f_mount drive, .f_chdrive drive, .f_open "/BOOTK5.SYS"] } rfl
  have hs' : ¬ f_size { fil with fptr := 0 } < 1024 := by
    simp only [f_size] at hs ⊢; omega
  have hr' : ¬ (({ fil with fptr := 0 } : FIL).read_res ≠ 0 ∨
      ({ fil with fptr := 0 } : FIL).read_cap < f_size { fil with fptr := 0 }) := by
    simp only [f_size] at hcap ⊢
    rintro (h | h)
    · exact h hr
    · omega
  rw [if_neg hs', if_neg hr'] at hl
  rw [try_boot_bootk5 w drive m fil hj hm hc hb, hl]
  simp [Machine.jump]

end Boot1

/-! # The loader's claims -/

namespace Boot1

/-- C7: `emutos_header_check` accepts a file (returns a non-zero load address) if and
only if `header_ok` holds: 65536 <= size <= 1048576, the 48 header bytes are read in full
(seek and read succeed), the bytes at offset 44 are 'E','T','O','S', `os_beg >= 0x800`,
`os_beg <= os_end`, `os_beg <= main < os_end` and `os_end < 0x00100000`; an accepted file
yields its `os_beg`.  Hence a header with `os_beg > os_end` is rejected, one with `main =
os_end` is rejected, and with `main = os_beg` acceptance only asks of the other fields
what it asks anyway (and `os_beg < os_end`). -/
theorem emutos_header_check_accepts_iff (fil : FIL) (m : Machine) :
    ((emutos_header_check fil m).1 ≠ 0 ↔ header_ok fil) ∧
    (header_ok fil →
      (emutos_header_check fil m).1 = (parse_hdr (fil.data.take sizeof_hdr)).os_beg) ∧
    ((parse_hdr (fil.data.take sizeof_hdr)).os_beg >
        (parse_hdr (fil.data.take sizeof_hdr)).os_end → (emutos_header_check fil m).1 = 0) ∧
    ((parse_hdr (fil.data.take sizeof_hdr)).main =
        (parse_hdr (fil.data.take sizeof_hdr)).os_end → (emutos_header_check fil m).1 = 0) ∧
    ((parse_hdr (fil.data.take sizeof_hdr)).main =
        (parse_hdr (fil.data.take sizeof_hdr)).os_beg →
      (header_ok fil ↔
        65536 ≤ f_size fil ∧ f_size fil ≤ 1048576 ∧
        (fil.lseek_res = 0 ∧ fil.read_res = 0 ∧ sizeof_hdr ≤ fil.read_cap) ∧
        (fil.data.getD 44 0 = 'E'.toNat ∧ fil.data.getD 45 0 = 'T'.toNat ∧
          fil.data.getD 46 0 = 'O'.toNat ∧ fil.data.getD 47 0 = 'S'.toNat) ∧
        0x800 ≤ (parse_hdr (fil.data.take sizeof_hdr)).os_beg ∧
        (parse_hdr (fil.data.take sizeof_hdr)).os_beg <
          (parse_hdr (fil.data.take sizeof_hdr)).os_end ∧
        (parse_hdr (fil.data.take sizeof_hdr)).os_end < 0x00100000)) := by
  have hiff : (emutos_header_check fil m).1 ≠ 0 ↔ header_ok fil := by
    constructor
    · intro h
      by_contra hn
      exact h (emutos_header_check_of_not_ok fil m hn)
    · intro h
      rw [(emutos_header_check_of_ok fil m h).1]
      have := h.2.2.2.2.1
      omega
  refine ⟨hiff, fun h => (emutos_header_check_of_ok fil m h).1, ?_, ?_, ?_⟩
  · intro hgt
    apply emutos_header_check_of_not_ok
    intro h
    have := h.2.2.2.2.2.1
    omega
  · intro heq
    apply emutos_header_check_of_not_ok
    intro h
    have := h.2.2.2.2.2.2.2.1
    omega
  · intro heq
    unfold header_ok
    rw [heq]
    constructor
    · rintro ⟨h1, h2, h3, h4, h5, h6, h7, h8, h9⟩
      exact ⟨h1, h2, h3, h4, h5, h8, h9⟩
    · rintro ⟨h1, h2, h3, h4, h5, h8, h9⟩
      exact ⟨h1, h2, h3, h4, h5, by omega, le_refl _, h8, h9⟩

theorem emutos_header_check_accepts_iff_witness :
    -- `main == os_beg`, everything else valid: accepted, the load address is `os_beg`
    (emutos_header_check (FIL.ofData (sample_hdr 0x1000 0x1000 0x90000 ++
        List.replicate 65488 0)) Machine.init).1 = 0x1000 ∧
    -- `main == os_end`: rejected
    (emutos_header_check (FIL.ofData (sample_hdr 0x90000 0x1000 0x90000 ++
        List.replicate 65488 0)) Machine.init).1 = 0 ∧
    -- `os_beg > os_end`: rejected
    (emutos_header_check (FIL.ofData (sample_hdr 0x90000 0x90000 0x1000 ++
        List.replicate 65488 0)) Machine.init).1 = 0 := by
  refine ⟨?_, ?_, ?_⟩
  · have h := (emutos_header_check_accepts_iff (FIL.ofData (sample_hdr 0x1000 0x1000 0x90000 ++
        List.replicate 65488 0)) Machine.init).2.1
      ((header_ok_sample 0x1000 0x1000 0x90000 65488 (by decide)).2 (by decide))
    rw [h]
    simp only [FIL.ofData, sizeof_hdr, sample_take]
    exact (parse_sample 0x1000 0x1000 0x90000).2.1
  · apply (emutos_header_check_accepts_iff (FIL.ofData (sample_hdr 0x90000 0x1000 0x90000 ++
        List.replicate 65488 0)) Machine.init).2.2.2.1
    simp only [FIL.ofData, sizeof_hdr, sample_take]
    rw [(parse_sample 0x90000 0x1000 0x90000).1, (parse_sample 0x90000 0x1000 0x90000).2.2]
  · apply (emutos_header_check_accepts_iff (FIL.ofData (sample_hdr 0x90000 0x90000 0x1000 ++
        List.replicate 65488 0)) Machine.init).2.2.1
    simp only [FIL.ofData, sizeof_hdr, sample_take]
    rw [(parse_sample 0x90000 0x90000 0x1000).2.1, (parse_sample 0x90000 0x90000 0x1000).2.2]
    decide

/-- C8: for every file that passes `emutos_header_check` and whose full read succeeds
(no short read), `emutos_load` returns the `main` field of the validated header, which is
not 0, and leaves the file's bytes in memory from `os_beg` on; it returns 0 when the
header check fails, and when the read is short. -/
theorem emutos_load_spec (fil : FIL) (m : Machine) :
    ((emutos_header_check fil m).1 ≠ 0 ∧ f_size fil ≤ fil.read_cap →
      (emutos_load fil m).1 = (parse_hdr (fil.data.take sizeof_hdr)).main ∧
      (emutos_load fil m).1 ≠ 0 ∧
      (emutos_header_check fil m).1 = (parse_hdr (fil.data.take sizeof_hdr)).os_beg ∧
      ∀ i, i < f_size fil →
        (emutos_load fil m).2.mem ((parse_hdr (fil.data.take sizeof_hdr)).os_beg + i) =
          fil.data.getD i 0) ∧
    ((emutos_header_check fil m).1 = 0 → (emutos_load fil m).1 = 0) ∧
    (fil.read_cap < f_size fil → (emutos_load fil m).1 = 0) := by
  refine ⟨?_, ?_, ?_⟩
  · rintro ⟨hchk, hcap⟩
    have hok : header_ok fil := by
      by_contra hn
      exact hchk (emutos_header_check_of_not_ok fil m hn)
    have hl := emutos_load_of_ok fil m hok
    simp only [f_size] at hcap
    rw [if_pos hcap] at hl
    rw [hl]
    refine ⟨rfl, ?_, (emutos_header_check_of_ok fil m hok).1, ?_⟩
    · have h1 := hok.2.2.2.2.1
      have h2 := hok.2.2.2.2.2.2.1
      simp only []
      omega
    · intro i hi
      exact store_bytes_at _ _ _ i hi
  · intro h0
    simp only [emutos_load, h0, if_true]
  · intro hshort
    by_cases hok : header_ok fil
    · have hl := emutos_load_of_ok fil m hok
      simp only [f_size] at hshort
      rw [if_neg (by omega)] at hl
      rw [hl]
    · exact emutos_load_of_not_ok fil m hok

theorem emutos_load_spec_witness :
    ((emutos_header_check (FIL.ofData (sample_hdr 0x1234 0x1000 0x90000 ++
        List.replicate 65488 0)) Machine.init).1 ≠ 0 ∧
      f_size (FIL.ofData (sample_hdr 0x1234 0x1000 0x90000 ++ List.replicate 65488 0)) ≤
        (FIL.ofData (sample_hdr 0x1234 0x1000 0x90000 ++ List.replicate 65488 0)).read_cap) ∧
    (emutos_load (FIL.ofData (sample_hdr 0x1234 0x1000 0x90000 ++
        List.replicate 65488 0)) Machine.init).1 = 0x1234 := by
  have hok := (header_ok_sample 0x1234 0x1000 0x90000 65488 (by decide)).2 (by decide)
  have hprem : (emutos_header_check (FIL.ofData (sample_hdr 0x1234 0x1000 0x90000 ++
        List.replicate 65488 0)) Machine.init).1 ≠ 0 ∧
      f_size (FIL.ofData (sample_hdr 0x1234 0x1000 0x90000 ++ List.replicate 65488 0)) ≤
        (FIL.ofData (sample_hdr 0x1234 0x1000 0x90000 ++ List.replicate 65488 0)).read_cap := by
    constructor
    · rw [(emutos_header_check_of_ok _ Machine.init hok).1]
      simp only [FIL.ofData, sizeof_hdr, sample_take]
      rw [(parse_sample 0x1234 0x1000 0x90000).2.1]
      decide
    · exact le_refl _
  refine ⟨hprem, ?_⟩
  rw [((emutos_load_spec _ Machine.init).1 hprem).1]
  simp only [FIL.ofData, sizeof_hdr, sample_take]
  exact (parse_sample 0x1234 0x1000 0x90000).1

end Boot1

/-! # The orchestrator's claims -/

namespace Boot1

/-- C11: the drives `boot_main` mounts are, in order, a prefix of the candidate list
that (base_addr, slave) alone selects (["2:"] or ["1:"] for base 0x10000300 with slave
non-zero or zero, ["4:"] or ["3:"] for base 0x20004180, and ["1:", "2:", "3:", "4:"] for
every other base); when control is never transferred the whole list is mounted, and a
transfer of control is the last action of the run, so that no drive is mounted after
one. -/
theorem boot_main_drive_order (w : World) (base_addr slave : Nat) (m : Machine)
    (hj : m.jumped = none) :
    ∃ m' evs, boot_main w base_addr slave m = some m' ∧ m'.out = m.out ++ evs ∧
      mounts evs <+: candidates base_addr slave ∧
      (m'.jumped = none → mounts evs = candidates base_addr slave ∧ transfers evs = []) ∧
      (∀ e, m'.jumped = some e →
        ∃ pre, evs = pre ++ [.jump_to_loaded_os e] ∧ transfers pre = []) := by
  obtain ⟨m', evs, hb, ho, hcase⟩ := boot_main_chain w base_addr slave m hj
  refine ⟨m', evs, hb, ho, ?_, ?_, ?_⟩
  · rcases hcase with ⟨_, hmo, _⟩ | ⟨_, _, _, _, _, hp⟩
    · rw [hmo]
    · exact hp
  · intro hn
    rcases hcase with ⟨_, hmo, htr⟩ | ⟨e, _, he, _, _, _⟩
    · exact ⟨hmo, htr⟩
    · rw [hn] at he; cases he
  · intro e he
    rcases hcase with ⟨hn, _, _⟩ | ⟨e', pre, he', hev, htr, _⟩
    · rw [hn] at he; cases he
    · rw [he'] at he
      cases he
      exact ⟨pre, hev, htr⟩

/-- C11, on a machine with no bootable drive and an unrecognised origin address. -/
theorem boot_main_drive_order_witness :
    Machine.init.jumped = none ∧
    ∃ m' evs, boot_main (sample_world (sample_volume none none)) 0 0 Machine.init = some m' ∧
      m'.out = Machine.init.out ++ evs ∧
      mounts evs <+: candidates 0 0 ∧
      (m'.jumped = none → mounts evs = candidates 0 0 ∧ transfers evs = []) ∧
      (∀ e, m'.jumped = some e →
        ∃ pre, evs = pre ++ [.jump_to_loaded_os e] ∧ transfers pre = []) :=
  ⟨rfl, boot_main_drive_order (sample_world (sample_volume none none)) 0 0 Machine.init rfl⟩

/-- C12: on a freshly opened file, `boot2_load` returns 0 when the file is smaller than
1024 bytes, when the read fails and when it is short, and 0x2000 otherwise, whatever the
bytes of the file are; when it returns 0x2000 the bytes of the file stand in memory from
0x2000 on, in order, and no other byte of memory has changed. -/
theorem boot2_load_spec (fil : FIL) (m : Machine) (hf : fil.fptr = 0) :
    (boot2_load fil m).1 =
      (if f_size fil < 1024 ∨ fil.read_res ≠ 0 ∨ fil.read_cap < f_size fil then 0
       else 0x2000) ∧
    ((boot2_load fil m).1 ≠ 0 →
      (∀ i, i < f_size fil → (boot2_load fil m).2.mem (0x2000 + i) = fil.data.getD i 0) ∧
      (∀ x, x < 0x2000 ∨ 0x2000 + f_size fil ≤ x → (boot2_load fil m).2.mem x = m.mem x)) := by
  rw [boot2_load_eq fil m hf]
  by_cases h1 : f_size fil < 1024
  · simp [h1]
  · by_cases h2 : fil.read_res ≠ 0 ∨ fil.read_cap < f_size fil
    · rw [if_neg h1, if_pos h2]
      have h3 : f_size fil < 1024 ∨ fil.read_res ≠ 0 ∨ fil.read_cap < f_size fil := Or.inr h2
      rw [if_pos h3]
      exact ⟨rfl, fun h => absurd rfl h⟩
    · rw [if_neg h1, if_neg h2]
      have h3 : ¬ (f_size fil < 1024 ∨ fil.read_res ≠ 0 ∨ fil.read_cap < f_size fil) := by
        rintro (h | h)
        · exact h1 h
        · exact h2 h
      rw [if_neg h3]
      refine ⟨rfl, fun _ => ⟨fun i hi => store_bytes_at _ _ _ i hi, fun x hx => ?_⟩⟩
      exact store_bytes_off _ _ _ x hx

/-- C12, on a file of 1024 bytes. -/
theorem boot2_load_spec_witness :
    (FIL.ofData (List.replicate 1024 7)).fptr = 0 ∧
    (boot2_load (FIL.ofData (List.replicate 1024 7)) Machine.init).1 = 0x2000 ∧
    (boot2_load (FIL.ofData (List.replicate 1024 7)) Machine.init).2.mem (0x2000 + 5) = 7 := by
  have h := boot2_load_spec (FIL.ofData (List.replicate 1024 7)) Machine.init rfl
  have hs : f_size (FIL.ofData (List.replicate 1024 7)) = 1024 := by
    simp only [f_size, FIL.ofData, List.length_replicate]
  have hc : (FIL.ofData (List.replicate 1024 7)).read_cap = 1024 := by
    simp only [FIL.ofData, List.length_replicate]
  have hr : (FIL.ofData (List.replicate 1024 7)).read_res = 0 := rfl
  have h1 : (boot2_load (FIL.ofData (List.replicate 1024 7)) Machine.init).1 = 0x2000 := by
    rw [h.1, hs, hc, hr]; decide
  refine ⟨rfl, h1, ?_⟩
  have h2 := (h.2 (by rw [h1]; decide)).1 5 (by rw [hs]; decide)
  rw [h2]
  simp only [FIL.ofData]
  decide!

/-- C16, as stated, fails: on a drive that mounts, holds a well-formed secondary-loader
file and refuses `f_chdrive`, `try_boot` logs the failure, opens no file, unmounts the
drive and returns without transferring control. -/
theorem try_boot_chdrive_failure_opens_nothing :
    ∃ m', try_boot (sample_world
        { mount_res := 0, chdrive_res := 1,
          bootk5 := some (FIL.ofData (List.replicate 2048 0)), emutosk5 := none })
        "1:" Machine.init = some m' ∧
      m'.out = [.f_mount "1:", .f_chdrive "1:", .fmt (.chdrive_failed "1:"),
        .f_unmount "1:"] ∧
      m'.jumped = none :=
  ⟨_, try_boot_chdrive_fail _ "1:" Machine.init rfl rfl (by decide), rfl, rfl⟩

/-- C16, amended: if `f_chdrive` fails on a candidate that mounted successfully,
`try_boot` logs the failure, opens neither the secondary-loader file nor the full-image
file, unmounts the drive and returns with memory untouched and control not transferred:
the failure ends the attempt on that drive. -/
theorem try_boot_chdrive_failure_ends_attempt (w : World) (drive : String) (m : Machine)
    (hj : m.jumped = none) (hm : (w.vol drive).mount_res = 0)
    (hc : (w.vol drive).chdrive_res ≠ 0) :
    ∃ m', try_boot w drive m = some m' ∧
      m'.out = m.out ++ [.f_mount drive, .f_chdrive drive, .fmt (.chdrive_failed drive),
        .f_unmount drive] ∧
      m'.mem = m.mem ∧ m'.jumped = none :=
  ⟨_, try_boot_chdrive_fail w drive m hj hm hc, rfl, rfl, hj⟩

/-- C16, amended, on a drive that holds both files and refuses `f_chdrive`. -/
theorem try_boot_chdrive_failure_ends_attempt_witness :
    Machine.init.jumped = none ∧
    ((sample_world
        { mount_res := 0, chdrive_res := 5,
          bootk5 := some (FIL.ofData (List.replicate 1024 1)),
          emutosk5 := some (FIL.ofData [1, 2, 3]) }).vol "1:").mount_res = 0 ∧
    ((sample_world
        { mount_res := 0, chdrive_res := 5,
          bootk5 := some (FIL.ofData (List.replicate 1024 1)),
          emutosk5 := some (FIL.ofData [1, 2, 3]) }).vol "1:").chdrive_res ≠ 0 ∧
    ∃ m', try_boot (sample_world
        { mount_res := 0, chdrive_res := 5,
          bootk5 := some (FIL.ofData (List.replicate 1024 1)),
          emutosk5 := some (FIL.ofData [1, 2, 3]) }) "1:" Machine.init = some m' ∧
      m'.out = Machine.init.out ++ [.f_mount "1:", .f_chdrive "1:",
        .fmt (.chdrive_failed "1:"), .f_unmount "1:"] ∧
      m'.mem = Machine.init.mem ∧ m'.jumped = none :=
  ⟨rfl, rfl, by decide, try_boot_chdrive_failure_ends_attempt _ "1:" Machine.init rfl rfl
    (by decide)⟩

/-- C19: on a drive that mounts and becomes the default drive, (1) when no secondary
loader opens and the full image passes the header check and is read in full,
`try_boot` transfers control to the image, and at that moment each
memory-configuration field read back as a 32-bit value is the value assigned to it:
0 at 0x424, 0 at 0x426, the value `ram_size` has on leaving the probing loop at 0x42e,
0 at 0x5a4, 0x752019f3 at 0x420, 0x237698aa at 0x43a, 0x5555aaaa at 0x51a, 0x1357bd13 at
0x5a8 and 0 at 0x6fc (the stores at 0x424 and 0x426 overlap in two bytes, both zero);
(2) when the secondary loader opens, has at least 1024 bytes and is read in full,
`try_boot` transfers control to 0x2000 with every byte of memory below 0x2000, the
nine fields among them, as it was. -/
theorem try_boot_memory_configuration (w : World) (drive : String) (m : Machine)
    (hj : m.jumped = none) (hm : (w.vol drive).mount_res = 0)
    (hc : (w.vol drive).chdrive_res = 0) :
    (∀ fil, (w.vol drive).bootk5 = none → (w.vol drive).emutosk5 = some fil →
      header_ok fil → f_size fil ≤ fil.read_cap →
      ∃ m' r, try_boot w drive m = some m' ∧
        m'.jumped = some (parse_hdr (fil.data.take sizeof_hdr)).main ∧
        (probe_loop w.probe 125 0x00400000 m).map Prod.fst = some r ∧
        load32 m'.mem 0x424 = 0 ∧
        load32 m'.mem 0x426 = 0 ∧
        load32 m'.mem 0x42e = r ∧
        load32 m'.mem 0x5a4 = 0 ∧
        load32 m'.mem 0x420 = 0x752019f3 ∧
        load32 m'.mem 0x43a = 0x237698aa ∧
        load32 m'.mem 0x51a = 0x5555aaaa ∧
        load32 m'.mem 0x5a8 = 0x1357bd13 ∧
        load32 m'.mem 0x6fc = 0) ∧
    (∀ fil, (w.vol drive).bootk5 = some fil → 1024 ≤ f_size fil → fil.read_res = 0 →
      f_size fil ≤ fil.read_cap →
      ∃ m', try_boot w drive m = some m' ∧ m'.jumped = some 0x2000 ∧
        ∀ x, x < 0x2000 → m'.mem x = m.mem x) := by
  constructor
  · intro fil hb he hok hcap
    obtain ⟨r, n, hp, _, hle, _⟩ := probe_loop_total w.probe 125 0x00400000 (by decide)
    have hr : r < 4294967296 := by
      have := hle (by decide)
      omega
    have ht := try_boot_full_image w drive m fil r n hj hm hc hb he hok hcap hp
    refine ⟨_, r, ht, (handoff_out _ _ _).1, by rw [hp m]; rfl, handoff_mem r _ _ hr⟩
  · intro fil hb hs hr hcap
    refine ⟨_, try_boot_raw w drive m fil hj hm hc hb hs hr hcap, rfl, fun x hx => ?_⟩
    exact store_bytes_off _ _ _ x (Or.inl hx)

/-- C19, on a drive that holds an acceptable full image and on one that holds a
secondary loader of 1024 bytes. -/
theorem try_boot_memory_configuration_witness :
    (∃ m' r, try_boot (sample_world (sample_volume none
          (some (FIL.ofData (sample_hdr 0x1234 0x1000 0x90000 ++ List.replicate 65488 0)))))
        "1:" Machine.init = some m' ∧
      m'.jumped = some (parse_hdr ((FIL.ofData (sample_hdr 0x1234 0x1000 0x90000 ++
        List.replicate 65488 0)).data.take sizeof_hdr)).main ∧
      (probe_loop (sample_world (sample_volume none
          (some (FIL.ofData (sample_hdr 0x1234 0x1000 0x90000 ++
            List.replicate 65488 0))))).probe 125 0x00400000 Machine.init).map Prod.fst =
        some r ∧
      load32 m'.mem 0x424 = 0 ∧
      load32 m'.mem 0x426 = 0 ∧
      load32 m'.mem 0x42e = r ∧
      load32 m'.mem 0x5a4 = 0 ∧
      load32 m'.mem 0x420 = 0x752019f3 ∧
      load32 m'.mem 0x43a = 0x237698aa ∧
      load32 m'.mem 0x51a = 0x5555aaaa ∧
      load32 m'.mem 0x5a8 = 0x1357bd13 ∧
      load32 m'.mem 0x6fc = 0) ∧
    (∃ m', try_boot (sample_world (sample_volume
          (some (FIL.ofData (List.replicate 1024 9))) none))
        "1:" Machine.init = some m' ∧ m'.jumped = some 0x2000 ∧
      ∀ x, x < 0x2000 → m'.mem x = Machine.init.mem x) :=
  ⟨(try_boot_memory_configuration (sample_world (sample_volume none
        (some (FIL.ofData (sample_hdr 0x1234 0x1000 0x90000 ++ List.replicate 65488 0)))))
      "1:" Machine.init rfl rfl rfl).1
      (FIL.ofData (sample_hdr 0x1234 0x1000 0x90000 ++ List.replicate 65488 0)) rfl rfl
      ((header_ok_sample 0x1234 0x1000 0x90000 65488 (by decide)).2 (by decide))
      (le_refl _),
   (try_boot_memory_configuration (sample_world (sample_volume
        (some (FIL.ofData (List.replicate 1024 9))) none))
      "1:" Machine.init rfl rfl rfl).2
      (FIL.ofData (List.replicate 1024 9)) rfl
      (by simp only [f_size, FIL.ofData, List.length_replicate]; decide) rfl (le_refl _)⟩

end Boot1

/-! # The load region -/

namespace Boot1

/-- An accepted header: what the check has established about the three fields and the
file size. -/
theorem header_ok_of_accepted (fil : FIL) (m : Machine)
    (hacc : (emutos_header_check fil m).1 ≠ 0) : header_ok fil := by
  by_contra hn
  exact hacc (emutos_header_check_of_not_ok fil m hn)

/-- Where `emutos_load` stores on an accepted image: nowhere outside
[os_beg, os_beg + file size). -/
theorem emutos_load_frame (fil : FIL) (m : Machine) (hok : header_ok fil) (x : Nat)
    (hx : x < (parse_hdr (fil.data.take sizeof_hdr)).os_beg ∨
      (parse_hdr (fil.data.take sizeof_hdr)).os_beg + f_size fil ≤ x) :
    (emutos_load fil m).2.mem x = m.mem x := by
  rw [emutos_load_of_ok fil m hok]
  simp only [f_size] at hx
  split
  · exact store_bytes_off _ _ _ x hx
  · apply store_bytes_off
    have : (fil.data.take fil.read_cap).length ≤ fil.data.length := by
      simp only [List.length_take]; omega
    omega

theorem sample_getD_tail (a b c n i : Nat) (hi : 48 ≤ i) :
    (sample_hdr a b c ++ List.replicate n 0).getD i 0 = 0 := by
  rw [List.getD_append_right _ _ _ _ (by rw [sample_hdr_length]; exact hi)]
  rw [List.getD_eq_getElem?_getD, List.getElem?_replicate]
  split <;> rfl

/-- C24, as stated, fails: a 64 KiB file whose header declares the region
[0x1000, 0x2000) is accepted by `emutos_header_check`, os_beg + file size = 0x11000 is
above os_end = 0x2000, and `emutos_load` stores the file's bytes beyond os_end (the
byte at 0x3000, 0xff before, is the file's byte 0x2000 afterwards). -/
theorem accepted_image_runs_past_os_end :
    (emutos_header_check (FIL.ofData (sample_hdr 0x1000 0x1000 0x2000 ++
        List.replicate 65488 0)) { Machine.init with mem := fun _ => 0xff }).1 = 0x1000 ∧
    (parse_hdr ((FIL.ofData (sample_hdr 0x1000 0x1000 0x2000 ++
        List.replicate 65488 0)).data.take sizeof_hdr)).os_end = 0x2000 ∧
    f_size (FIL.ofData (sample_hdr 0x1000 0x1000 0x2000 ++ List.replicate 65488 0)) = 65536 ∧
    ¬ (0x1000 + 65536 ≤ 0x2000) ∧
    (emutos_load (FIL.ofData (sample_hdr 0x1000 0x1000 0x2000 ++ List.replicate 65488 0))
      { Machine.init with mem := fun _ => 0xff }).2.mem 0x3000 = 0 := by
  have hok := (header_ok_sample 0x1000 0x1000 0x2000 65488 (by decide)).2 (by decide)
  have hb : (parse_hdr ((FIL.ofData (sample_hdr 0x1000 0x1000 0x2000 ++
      List.replicate 65488 0)).data.take sizeof_hdr)).os_beg = 0x1000 := by
    simp only [FIL.ofData, sizeof_hdr, sample_take]
    exact (parse_sample 0x1000 0x1000 0x2000).2.1
  have hlen : (sample_hdr 0x1000 0x1000 0x2000 ++ List.replicate 65488 0).length = 65536 := by
    rw [List.length_append, sample_hdr_length, List.length_replicate]
  refine ⟨?_, ?_, ?_, by decide, ?_⟩
  · rw [(emutos_header_check_of_ok _ _ hok).1, hb]
  · simp only [FIL.ofData, sizeof_hdr, sample_take]
    exact (parse_sample 0x1000 0x1000 0x2000).2.2
  · simp only [f_size, FIL.ofData, hlen]
  · have hcap : (FIL.ofData (sample_hdr 0x1000 0x1000 0x2000 ++
        List.replicate 65488 0)).data.length ≤
        (FIL.ofData (sample_hdr 0x1000 0x1000 0x2000 ++ List.replicate 65488 0)).read_cap :=
      le_refl _
    rw [emutos_load_of_ok _ _ hok, if_pos hcap, hb]
    have h := store_bytes_at (fun _ => 0xff) 0x1000
      (FIL.ofData (sample_hdr 0x1000 0x1000 0x2000 ++ List.replicate 65488 0)).data 0x2000
      (by simp only [FIL.ofData, hlen]; decide)
    simp only [FIL.ofData] at h ⊢
    rw [sample_getD_tail 0x1000 0x1000 0x2000 65488 0x2000 (by decide)] at h
    exact h

/-- C24, amended: for every image `emutos_header_check` accepts, the bytes `emutos_load`
stores start at the os_beg the header declares, which is below os_end, and no byte
outside [os_beg, os_beg + file size) changes, where the file size is between 64 KiB and
1 MiB; the file size is not compared with os_end, and os_beg + file size is only known
to be below os_end + 1 MiB. -/
theorem emutos_load_region (fil : FIL) (m : Machine)
    (hacc : (emutos_header_check fil m).1 ≠ 0) :
    (emutos_header_check fil m).1 = (parse_hdr (fil.data.take sizeof_hdr)).os_beg ∧
    (parse_hdr (fil.data.take sizeof_hdr)).os_beg <
      (parse_hdr (fil.data.take sizeof_hdr)).os_end ∧
    65536 ≤ f_size fil ∧ f_size fil ≤ 1048576 ∧
    (parse_hdr (fil.data.take sizeof_hdr)).os_beg + f_size fil <
      (parse_hdr (fil.data.take sizeof_hdr)).os_end + 0x00100000 ∧
    (∀ x, x < (parse_hdr (fil.data.take sizeof_hdr)).os_beg ∨
        (parse_hdr (fil.data.take sizeof_hdr)).os_beg + f_size fil ≤ x →
      (emutos_load fil m).2.mem x = m.mem x) := by
  have hok := header_ok_of_accepted fil m hacc
  obtain ⟨h1, h2, _, _, _, _, h7, h8, _⟩ := id hok
  refine ⟨(emutos_header_check_of_ok fil m hok).1, by omega, h1, h2, by omega, ?_⟩
  intro x hx
  exact emutos_load_frame fil m hok x hx

/-- C24, amended, on a 64 KiB image that declares the region [0x1000, 0x90000). -/
theorem emutos_load_region_witness :
    (emutos_header_check (FIL.ofData (sample_hdr 0x1234 0x1000 0x90000 ++
        List.replicate 65488 0)) Machine.init).1 ≠ 0 ∧
    65536 ≤ f_size (FIL.ofData (sample_hdr 0x1234 0x1000 0x90000 ++
        List.replicate 65488 0)) ∧
    (parse_hdr ((FIL.ofData (sample_hdr 0x1234 0x1000 0x90000 ++
        List.replicate 65488 0)).data.take sizeof_hdr)).os_beg <
      (parse_hdr ((FIL.ofData (sample_hdr 0x1234 0x1000 0x90000 ++
        List.replicate 65488 0)).data.take sizeof_hdr)).os_end := by
  have hok := (header_ok_sample 0x1234 0x1000 0x90000 65488 (by decide)).2 (by decide)
  have hacc : (emutos_header_check (FIL.ofData (sample_hdr 0x1234 0x1000 0x90000 ++
      List.replicate 65488 0)) Machine.init).1 ≠ 0 := by
    rw [(emutos_header_check_of_ok _ Machine.init hok).1]
    simp only [FIL.ofData, sizeof_hdr, sample_take]
    rw [(parse_sample 0x1234 0x1000 0x90000).2.1]
    decide
  have h := emutos_load_region _ Machine.init hacc
  exact ⟨hacc, h.2.2.1, h.2.1⟩

/-- C25: for every image `emutos_header_check` accepts, the copy `emutos_load` performs
starts at os_beg, at or above 0x800, and ends at os_beg + file size, at or below
0x00200000, the address the installer has the booter loaded at; `emutos_load` changes
no byte below 0x800, the memory-configuration fields in [0x420, 0x700) among them, and
no byte at or above 0x00200000. -/
theorem emutos_load_clear_of_booter (fil : FIL) (m : Machine)
    (hacc : (emutos_header_check fil m).1 ≠ 0) :
    0x800 ≤ (parse_hdr (fil.data.take sizeof_hdr)).os_beg ∧
    (parse_hdr (fil.data.take sizeof_hdr)).os_beg + f_size fil ≤ Installboot.load_address ∧
    (∀ x, x < 0x800 ∨ Installboot.load_address ≤ x →
      (emutos_load fil m).2.mem x = m.mem x) ∧
    (∀ x, 0x420 ≤ x → x < 0x700 → (emutos_load fil m).2.mem x = m.mem x) := by
  have hok := header_ok_of_accepted fil m hacc
  obtain ⟨h1, h2, _, _, h5, h6, h7, h8, h9⟩ := id hok
  have hla : Installboot.load_address = 0x00200000 := rfl
  refine ⟨h5, by rw [hla]; omega, ?_, ?_⟩
  · intro x hx
    apply emutos_load_frame fil m hok x
    rw [hla] at hx
    omega
  · intro x _ hx
    apply emutos_load_frame fil m hok x
    omega

/-- C25, on a 64 KiB image that declares the region [0x1000, 0x90000). -/
theorem emutos_load_clear_of_booter_witness :
    (emutos_header_check (FIL.ofData (sample_hdr 0x2000 0x1000 0x90000 ++
        List.replicate 65488 0)) Machine.init).1 ≠ 0 ∧
    (parse_hdr ((FIL.ofData (sample_hdr 0x2000 0x1000 0x90000 ++
        List.replicate 65488 0)).data.take sizeof_hdr)).os_beg +
      f_size (FIL.ofData (sample_hdr 0x2000 0x1000 0x90000 ++ List.replicate 65488 0)) ≤
        Installboot.load_address ∧
    (emutos_load (FIL.ofData (sample_hdr 0x2000 0x1000 0x90000 ++ List.replicate 65488 0))
      Machine.init).2.mem 0x42e = Machine.init.mem 0x42e := by
  have hok := (header_ok_sample 0x2000 0x1000 0x90000 65488 (by decide)).2 (by decide)
  have hacc : (emutos_header_check (FIL.ofData (sample_hdr 0x2000 0x1000 0x90000 ++
      List.replicate 65488 0)) Machine.init).1 ≠ 0 := by
    rw [(emutos_header_check_of_ok _ Machine.init hok).1]
    simp only [FIL.ofData, sizeof_hdr, sample_take]
    rw [(parse_sample 0x2000 0x1000 0x90000).2.1]
    decide
  have h := emutos_load_clear_of_booter _ Machine.init hacc
  exact ⟨hacc, h.2.1, h.2.2.2 0x42e (by decide) (by decide)⟩

end Boot1

/-! # Lemmas about the disk driver -/

namespace Diskio

/-- Every status either makes the loop poll again, or reports an error, or offers data. -/
theorem status_cases (s : Nat) :
    polls_again s ∨
    (s % 256 &&& IDE_STATUS_BSY = 0 ∧ s % 256 &&& IDE_STATUS_ERR ≠ 0) ∨
    (s % 256 &&& IDE_STATUS_BSY = 0 ∧ s % 256 &&& IDE_STATUS_ERR = 0 ∧
      s % 256 &&& IDE_STATUS_DRQ ≠ 0) := by
  unfold polls_again
  by_cases h1 : s % 256 &&& IDE_STATUS_BSY = 0
  · by_cases h2 : s % 256 &&& IDE_STATUS_ERR = 0
    · by_cases h3 : s % 256 &&& IDE_STATUS_DRQ = 0
      · exact Or.inl (Or.inr ⟨h2, h3⟩)
      · exact Or.inr (Or.inr ⟨h1, h2, h3⟩)
    · exact Or.inr (Or.inl ⟨h1, h2⟩)
  · exact Or.inl (Or.inl h1)

theorem not_polls_again_of_err (s : Nat)
    (h : s % 256 &&& IDE_STATUS_BSY = 0 ∧ s % 256 &&& IDE_STATUS_ERR ≠ 0) :
    ¬ polls_again s := by
  unfold polls_again
  rintro (h1 | ⟨h2, _⟩)
  · exact h1 h.1
  · exact h.2 h2

theorem not_polls_again_of_ready (s : Nat)
    (h : s % 256 &&& IDE_STATUS_BSY = 0 ∧ s % 256 &&& IDE_STATUS_ERR = 0 ∧
      s % 256 &&& IDE_STATUS_DRQ ≠ 0) :
    ¬ polls_again s := by
  unfold polls_again
  rintro (h1 | ⟨_, h3⟩)
  · exact h1 h.1
  · exact h.2.2 h3

/-- One pass of the polling loop on a status that makes it poll again. -/
theorem poll_loop_again (d : Drive) (sw : Bool) (sector iobase t : Nat) (b : Bus)
    (h : polls_again (d.status b.nstatus)) :
    poll_loop d sw sector iobase (t + 1 + 1) b =
      poll_loop d sw sector iobase (t + 1) { b with nstatus := b.nstatus + 1 } := by
  rw [poll_loop]
  simp only [Nat.add_one_ne_zero, if_false]
  unfold polls_again at h
  rcases h with h | ⟨h2, h3⟩
  · rw [if_pos h]
  · by_cases h1 : d.status b.nstatus % 256 &&& IDE_STATUS_BSY ≠ 0
    · rw [if_pos h1]
    · rw [if_neg h1, if_neg (not_not.2 h2), if_neg (not_not.2 h3)]

theorem poll_loop_err (d : Drive) (sw : Bool) (sector iobase t : Nat) (b : Bus)
    (h : d.status b.nstatus % 256 &&& IDE_STATUS_BSY = 0 ∧
      d.status b.nstatus % 256 &&& IDE_STATUS_ERR ≠ 0) :
    poll_loop d sw sector iobase (t + 1 + 1) b =
      (.minus_one, [], { b with nstatus := b.nstatus + 1,
                                out := b.out ++ [(d.error % 256, sector)] }) := by
  rw [poll_loop]
  simp only [Nat.add_one_ne_zero, if_false]
  rw [if_neg (not_not.2 h.1), if_pos h.2]

theorem poll_loop_ready (d : Drive) (sw : Bool) (sector iobase t : Nat) (b : Bus)
    (h : d.status b.nstatus % 256 &&& IDE_STATUS_BSY = 0 ∧
      d.status b.nstatus % 256 &&& IDE_STATUS_ERR = 0 ∧
      d.status b.nstatus % 256 &&& IDE_STATUS_DRQ ≠ 0) :
    poll_loop d sw sector iobase (t + 1 + 1) b =
      (.RES_OK, (read_burst d sw b).1,
        { b with nstatus := b.nstatus + 1, ndata := b.ndata + DISK_BLOCK_SIZE / 2 }) := by
  rw [poll_loop]
  simp only [Nat.add_one_ne_zero, if_false]
  rw [if_neg (not_not.2 h.1), if_neg (not_not.2 h.2.1), if_pos h.2.2]
  rfl

/-- The three ways the polling loop ends, with the number of status reads it took. -/
theorem poll_loop_cases (d : Drive) (sw : Bool) (sector iobase : Nat) :
    ∀ (t : Nat) (b : Bus),
      (∃ n, n < t ∧ (∀ i, i < n → polls_again (d.status (b.nstatus + i))) ∧
        (d.status (b.nstatus + n) % 256 &&& IDE_STATUS_BSY = 0 ∧
          d.status (b.nstatus + n) % 256 &&& IDE_STATUS_ERR = 0 ∧
          d.status (b.nstatus + n) % 256 &&& IDE_STATUS_DRQ ≠ 0) ∧
        poll_loop d sw sector iobase (t + 1) b =
          (.RES_OK, (read_burst d sw b).1,
            { b with nstatus := b.nstatus + (n + 1),
                     ndata := b.ndata + DISK_BLOCK_SIZE / 2 })) ∨
      (∃ n, n < t ∧ (∀ i, i < n → polls_again (d.status (b.nstatus + i))) ∧
        (d.status (b.nstatus + n) % 256 &&& IDE_STATUS_BSY = 0 ∧
          d.status (b.nstatus + n) % 256 &&& IDE_STATUS_ERR ≠ 0) ∧
        poll_loop d sw sector iobase (t + 1) b =
          (.minus_one, [],
            { b with nstatus := b.nstatus + (n + 1),
                     out := b.out ++ [(d.error % 256, sector)] })) ∨
      ((∀ i, i < t → polls_again (d.status (b.nstatus + i))) ∧
        poll_loop d sw sector iobase (t + 1) b =
          (.RES_ERROR, [], { b with nstatus := b.nstatus + t })) := by
  intro t
  induction t with
  | zero =>
    intro b
    refine Or.inr (Or.inr ⟨fun i hi => absurd hi (Nat.not_lt_zero i), ?_⟩)
    simp [poll_loop]
  | succ t ih =>
    intro b
    rcases status_cases (d.status b.nstatus) with h | h | h
    · have e : ∀ i, b.nstatus + 1 + i = b.nstatus + (i + 1) := fun i => by omega
      have hpre : ∀ n, (∀ i, i < n → polls_again (d.status (b.nstatus + 1 + i))) →
          ∀ i, i < n + 1 → polls_again (d.status (b.nstatus + i)) := by
        intro n hn i hi
        cases i with
        | zero => exact h
        | succ j => rw [← e]; exact hn j (by omega)
      rw [poll_loop_again d sw sector iobase t b h]
      rcases ih { b with nstatus := b.nstatus + 1 } with
        ⟨n, hn, hp, hs, hr⟩ | ⟨n, hn, hp, hs, hr⟩ | ⟨hp, hr⟩
      · refine Or.inl ⟨n + 1, by omega, hpre n hp, ?_, ?_⟩
        · rw [← e]; exact hs
        · rw [hr]
          simp only [read_burst, Nat.add_assoc]
          simp only [Nat.add_comm 1]
      · refine Or.inr (Or.inl ⟨n + 1, by omega, hpre n hp, ?_, ?_⟩)
        · rw [← e]; exact hs
        · rw [hr]
          simp only [Nat.add_assoc]
          simp only [Nat.add_comm 1]
      · refine Or.inr (Or.inr ⟨hpre t hp, ?_⟩)
        rw [hr]
        simp only [Nat.add_assoc]
        simp only [Nat.add_comm 1]
    · refine Or.inr (Or.inl ⟨0, by omega, fun i hi => absurd hi (Nat.not_lt_zero i), h, ?_⟩)
      rw [poll_loop_err d sw sector iobase t b h]
    · refine Or.inl ⟨0, by omega, fun i hi => absurd hi (Nat.not_lt_zero i), h, ?_⟩
      rw [poll_loop_ready d sw sector iobase t b h]

/-- The six register stores that start a sector read. -/
theorem disk_read_sector_eq (d : Drive) (sw : Bool) (sector iobase ssel : Nat) (b : Bus) :
    disk_read_sector d sw sector iobase ssel b =
      poll_loop d sw sector iobase (0x1FFFFF + 1)
        { b with writes := b.writes ++
          [(IDE_LBA_3 iobase, (((sector >>> 24) &&& 0x3f) ||| IDE_LBA_3_LBA ||| ssel) % 256),
           (IDE_LBA_2 iobase, ((sector >>> 16) &&& 0xff) % 256),
           (IDE_LBA_1 iobase, ((sector >>> 8) &&& 0xff) % 256),
           (IDE_LBA_0 iobase, (sector &&& 0xff) % 256),
           (IDE_SECTOR_COUNT iobase, 1),
           (IDE_COMMAND iobase, IDE_CMD_READ_SECTORS)] } := by
  simp only [disk_read_sector, Bus.write8, List.append_assoc, List.singleton_append,
    List.cons_append, List.nil_append]
  rfl

theorem commands_task (iobase a b c e : Nat) (ws : List (Nat × Nat)) :
    commands iobase (ws ++
      [(IDE_LBA_3 iobase, a), (IDE_LBA_2 iobase, b), (IDE_LBA_1 iobase, c),
       (IDE_LBA_0 iobase, e), (IDE_SECTOR_COUNT iobase, 1),
       (IDE_COMMAND iobase, IDE_CMD_READ_SECTORS)]) = commands iobase ws + 1 := by
  simp [commands, List.count_append, List.count_cons, IDE_LBA_3, IDE_LBA_2, IDE_LBA_1,
    IDE_LBA_0, IDE_SECTOR_COUNT, IDE_COMMAND, IDE_CMD_READ_SECTORS]

/-- The register stores of a sector read, whatever its outcome. -/
theorem disk_read_sector_writes (d : Drive) (sw : Bool) (sector iobase ssel : Nat) (b : Bus) :
    (disk_read_sector d sw sector iobase ssel b).2.2.writes = b.writes ++
      [(IDE_LBA_3 iobase, (((sector >>> 24) &&& 0x3f) ||| IDE_LBA_3_LBA ||| ssel) % 256),
       (IDE_LBA_2 iobase, ((sector >>> 16) &&& 0xff) % 256),
       (IDE_LBA_1 iobase, ((sector >>> 8) &&& 0xff) % 256),
       (IDE_LBA_0 iobase, (sector &&& 0xff) % 256),
       (IDE_SECTOR_COUNT iobase, 1),
       (IDE_COMMAND iobase, IDE_CMD_READ_SECTORS)] := by
  rw [disk_read_sector_eq]
  rcases poll_loop_cases d sw sector iobase 0x1FFFFF
    { b with writes := b.writes ++
      [(IDE_LBA_3 iobase, (((sector >>> 24) &&& 0x3f) ||| IDE_LBA_3_LBA ||| ssel) % 256),
       (IDE_LBA_2 iobase, ((sector >>> 16) &&& 0xff) % 256),
       (IDE_LBA_1 iobase, ((sector >>> 8) &&& 0xff) % 256),
       (IDE_LBA_0 iobase, (sector &&& 0xff) % 256),
       (IDE_SECTOR_COUNT iobase, 1),
       (IDE_COMMAND iobase, IDE_CMD_READ_SECTORS)] } with
    ⟨n, _, _, _, hr⟩ | ⟨n, _, _, _, hr⟩ | ⟨_, hr⟩ <;> rw [hr]

/-- The three outcomes of a sector read, with the number of status reads it took. -/
theorem disk_read_sector_cases (d : Drive) (sw : Bool) (sector iobase ssel : Nat) (b : Bus) :
    (∃ n, n < 0x1FFFFF ∧ (∀ i, i < n → polls_again (d.status (b.nstatus + i))) ∧
      (d.status (b.nstatus + n) % 256 &&& IDE_STATUS_BSY = 0 ∧
        d.status (b.nstatus + n) % 256 &&& IDE_STATUS_ERR = 0 ∧
        d.status (b.nstatus + n) % 256 &&& IDE_STATUS_DRQ ≠ 0) ∧
      (disk_read_sector d sw sector iobase ssel b).1 = .RES_OK ∧
      (disk_read_sector d sw sector iobase ssel b).2.1 = (read_burst d sw b).1 ∧
      (disk_read_sector d sw sector iobase ssel b).2.2.nstatus = b.nstatus + (n + 1) ∧
      (disk_read_sector d sw sector iobase ssel b).2.2.ndata = b.ndata + 256) ∨
    (∃ n, n < 0x1FFFFF ∧ (∀ i, i < n → polls_again (d.status (b.nstatus + i))) ∧
      (d.status (b.nstatus + n) % 256 &&& IDE_STATUS_BSY = 0 ∧
        d.status (b.nstatus + n) % 256 &&& IDE_STATUS_ERR ≠ 0) ∧
      (disk_read_sector d sw sector iobase ssel b).1 = .minus_one ∧
      (disk_read_sector d sw sector iobase ssel b).2.1 = [] ∧
      (disk_read_sector d sw sector iobase ssel b).2.2.nstatus = b.nstatus + (n + 1) ∧
      (disk_read_sector d sw sector iobase ssel b).2.2.ndata = b.ndata) ∨
    ((∀ i, i < 0x1FFFFF → polls_again (d.status (b.nstatus + i))) ∧
      (disk_read_sector d sw sector iobase ssel b).1 = .RES_ERROR ∧
      (disk_read_sector d sw sector iobase ssel b).2.1 = [] ∧
      (disk_read_sector d sw sector iobase ssel b).2.2.nstatus = b.nstatus + 0x1FFFFF ∧
      (disk_read_sector d sw sector iobase ssel b).2.2.ndata = b.ndata) := by
  rw [disk_read_sector_eq]
  rcases poll_loop_cases d sw sector iobase 0x1FFFFF
    { b with writes := b.writes ++
      [(IDE_LBA_3 iobase, (((sector >>> 24) &&& 0x3f) ||| IDE_LBA_3_LBA ||| ssel) % 256),
       (IDE_LBA_2 iobase, ((sector >>> 16) &&& 0xff) % 256),
       (IDE_LBA_1 iobase, ((sector >>> 8) &&& 0xff) % 256),
       (IDE_LBA_0 iobase, (sector &&& 0xff) % 256),
       (IDE_SECTOR_COUNT iobase, 1),
       (IDE_COMMAND iobase, IDE_CMD_READ_SECTORS)] } with
    ⟨n, hn, hp, hs, hr⟩ | ⟨n, hn, hp, hs, hr⟩ | ⟨hp, hr⟩
  · exact Or.inl ⟨n, hn, hp, hs, by rw [hr], by rw [hr]; rfl, by rw [hr], by rw [hr]; rfl⟩
  · exact Or.inr (Or.inl ⟨n, hn, hp, hs, by rw [hr], by rw [hr], by rw [hr], by rw [hr]⟩)
  · exact Or.inr (Or.inr ⟨hp, by rw [hr], by rw [hr], by rw [hr], by rw [hr]⟩)

theorem read_burst_length (d : Drive) (sw : Bool) (b : Bus) :
    (read_burst d sw b).1.length = 256 := by
  simp [read_burst, DISK_BLOCK_SIZE]

/-- A sector read issues one READ SECTORS command. -/
theorem disk_read_sector_commands (d : Drive) (sw : Bool) (sector iobase ssel : Nat)
    (b : Bus) :
    commands iobase (disk_read_sector d sw sector iobase ssel b).2.2.writes =
      commands iobase b.writes + 1 := by
  rw [disk_read_sector_writes, commands_task]

/-- A sector read that is not `RES_OK` transfers no data word. -/
theorem disk_read_sector_failed (d : Drive) (sw : Bool) (sector iobase ssel : Nat) (b : Bus)
    (h : (disk_read_sector d sw sector iobase ssel b).1 ≠ .RES_OK) :
    (disk_read_sector d sw sector iobase ssel b).2.1 = [] ∧
    (disk_read_sector d sw sector iobase ssel b).2.2.ndata = b.ndata := by
  rcases disk_read_sector_cases d sw sector iobase ssel b with
    ⟨n, _, _, _, h1, _⟩ | ⟨n, _, _, _, _, h2, _, h4⟩ | ⟨_, _, h2, _, h4⟩
  · exact absurd h1 h
  · exact ⟨h2, h4⟩
  · exact ⟨h2, h4⟩

/-- A sector read that is `RES_OK` transfers 256 data words. -/
theorem disk_read_sector_ok (d : Drive) (sw : Bool) (sector iobase ssel : Nat) (b : Bus)
    (h : (disk_read_sector d sw sector iobase ssel b).1 = .RES_OK) :
    (disk_read_sector d sw sector iobase ssel b).2.1.length = 256 ∧
    (disk_read_sector d sw sector iobase ssel b).2.2.ndata = b.ndata + 256 := by
  rcases disk_read_sector_cases d sw sector iobase ssel b with
    ⟨n, _, _, _, _, h2, _, h4⟩ | ⟨n, _, _, _, h1, _⟩ | ⟨_, h1, _⟩
  · exact ⟨by rw [h2, read_burst_length], h4⟩
  · rw [h1] at h; cases h
  · rw [h1] at h; cases h

/-- The loop of `disk_read`: either every sector is read, or it ends with the first
sector read that is not `RES_OK`. -/
theorem disk_read_loop_cases (d : Drive) (sw : Bool) (iobase ssel : Nat) :
    ∀ (count sector : Nat) (buff : List Nat) (b : Bus), sector < 4294967296 →
      ((disk_read_loop d sw iobase ssel count sector buff b).1 = .RES_OK ∧
        (disk_read_loop d sw iobase ssel count sector buff b).2.1.length =
          buff.length + 256 * count ∧
        (disk_read_loop d sw iobase ssel count sector buff b).2.2.ndata =
          b.ndata + 256 * count ∧
        commands iobase (disk_read_loop d sw iobase ssel count sector buff b).2.2.writes =
          commands iobase b.writes + count) ∨
      (∃ k bk, k < count ∧ bk.ndata = b.ndata + 256 * k ∧
        commands iobase bk.writes = commands iobase b.writes + k ∧
        (disk_read_sector d sw ((sector + k) % 4294967296) iobase ssel bk).1 ≠ .RES_OK ∧
        (disk_read_loop d sw iobase ssel count sector buff b).1 =
          (disk_read_sector d sw ((sector + k) % 4294967296) iobase ssel bk).1 ∧
        (disk_read_loop d sw iobase ssel count sector buff b).2.2 =
          (disk_read_sector d sw ((sector + k) % 4294967296) iobase ssel bk).2.2 ∧
        (disk_read_loop d sw iobase ssel count sector buff b).2.1.length =
          buff.length + 256 * k) := by
  intro count
  induction count with
  | zero =>
    intro sector buff b _
    exact Or.inl ⟨rfl, rfl, rfl, rfl⟩
  | succ c ih =>
    intro sector buff b hs
    by_cases hres : (disk_read_sector d sw sector iobase ssel b).1 = .RES_OK
    · have hl : disk_read_loop d sw iobase ssel (c + 1) sector buff b =
          disk_read_loop d sw iobase ssel c ((sector + 1) % 4294967296)
            (buff ++ (disk_read_sector d sw sector iobase ssel b).2.1)
            (disk_read_sector d sw sector iobase ssel b).2.2 := by
        rw [disk_read_loop]
        simp only [hres, ne_eq, not_true_eq_false, if_false]
      obtain ⟨o1, o2⟩ := disk_read_sector_ok d sw sector iobase ssel b hres
      have oc := disk_read_sector_commands d sw sector iobase ssel b
      rw [hl]
      rcases ih ((sector + 1) % 4294967296)
          (buff ++ (disk_read_sector d sw sector iobase ssel b).2.1)
          (disk_read_sector d sw sector iobase ssel b).2.2 (Nat.mod_lt _ (by decide)) with
        ⟨h1, h2, h3, h4⟩ | ⟨k, bk, hk, g1, g2, g3, g4, g5, g6⟩
      · refine Or.inl ⟨h1, ?_, ?_, ?_⟩
        · rw [h2, List.length_append, o1]; omega
        · rw [h3, o2]; omega
        · rw [h4, oc]; omega
      · have e : ((sector + 1) % 4294967296 + k) % 4294967296 =
            (sector + (k + 1)) % 4294967296 := by omega
        rw [e] at g3 g4 g5
        refine Or.inr ⟨k + 1, bk, by omega, ?_, ?_, g3, g4, g5, ?_⟩
        · rw [g1, o2]; omega
        · rw [g2, oc]; omega
        · rw [g6, List.length_append, o1]; omega
    · have hl : disk_read_loop d sw iobase ssel (c + 1) sector buff b =
          ((disk_read_sector d sw sector iobase ssel b).1,
            buff ++ (disk_read_sector d sw sector iobase ssel b).2.1,
            (disk_read_sector d sw sector iobase ssel b).2.2) := by
        rw [disk_read_loop]
        simp only [ne_eq, hres, not_false_eq_true, if_true]
      have e : (sector + 0) % 4294967296 = sector := by
        rw [Nat.add_zero]; exact Nat.mod_eq_of_lt hs
      refine Or.inr ⟨0, b, by omega, by omega, by omega, ?_, ?_, ?_, ?_⟩
      · rw [e]; exact hres
      · rw [e, hl]
      · rw [e, hl]
      · rw [hl, (disk_read_sector_failed d sw sector iobase ssel b hres).1]
        simp

/-- Reading one sector through `disk_read`'s loop ends with the bus as the sector read
left it. -/
theorem disk_read_loop_one (d : Drive) (sw : Bool) (iobase ssel sector : Nat)
    (buff : List Nat) (b : Bus) :
    (disk_read_loop d sw iobase ssel 1 sector buff b).2.2 =
      (disk_read_sector d sw sector iobase ssel b).2.2 := by
  rw [disk_read_loop]
  split
  · rfl
  · rw [disk_read_loop]

end Diskio

/-! # The disk driver's claims -/

namespace Diskio

/-- C21: the device-select bit depends on the sector number.  For physical drive 0 (the
XTIDE master) and sector 0x10000000, `disk_read` stores 0xF0 to LBA_3, a value with the
device-select bit 0x10 set, because sector bit 28 passes the mask 0x3f; its six
register stores are those of a read of sector 0 on physical drive 1 (the slave). -/
theorem lba3_device_bit_follows_sector_bit_28 :
    (disk_read (sample_drive 0 0x08) false XTIDE_PRIMARY 0x10000000 1 Bus.init).2.2.writes =
      [(IDE_LBA_3 xtide_base, 0xf0), (IDE_LBA_2 xtide_base, 0), (IDE_LBA_1 xtide_base, 0),
       (IDE_LBA_0 xtide_base, 0), (IDE_SECTOR_COUNT xtide_base, 1),
       (IDE_COMMAND xtide_base, IDE_CMD_READ_SECTORS)] ∧
    0xf0 &&& IDE_LBA_3_DEV1 = IDE_LBA_3_DEV1 ∧
    (disk_read (sample_drive 0 0x08) false XTIDE_SECONDARY 0 1 Bus.init).2.2.writes =
      (disk_read (sample_drive 0 0x08) false XTIDE_PRIMARY 0x10000000 1 Bus.init).2.2.writes := by
  have h0 : (disk_read (sample_drive 0 0x08) false XTIDE_PRIMARY 0x10000000 1
      Bus.init).2.2.writes =
      [(IDE_LBA_3 xtide_base, 0xf0), (IDE_LBA_2 xtide_base, 0), (IDE_LBA_1 xtide_base, 0),
       (IDE_LBA_0 xtide_base, 0), (IDE_SECTOR_COUNT xtide_base, 1),
       (IDE_COMMAND xtide_base, IDE_CMD_READ_SECTORS)] := by
    simp only [disk_read, if_true, disk_read_loop_one, disk_read_sector_writes]
    decide
  have h1 : (disk_read (sample_drive 0 0x08) false XTIDE_SECONDARY 0 1
      Bus.init).2.2.writes =
      [(IDE_LBA_3 xtide_base, 0xf0), (IDE_LBA_2 xtide_base, 0), (IDE_LBA_1 xtide_base, 0),
       (IDE_LBA_0 xtide_base, 0), (IDE_SECTOR_COUNT xtide_base, 1),
       (IDE_COMMAND xtide_base, IDE_CMD_READ_SECTORS)] := by
    have e : ¬ XTIDE_SECONDARY = XTIDE_PRIMARY := by decide
    simp only [disk_read, e, if_false, if_true, disk_read_loop_one, disk_read_sector_writes]
    decide
  exact ⟨h0, by decide, h1.trans h0.symm⟩

/-- C22: for every sequence of status values, `disk_read_sector` ends after at most
0x1FFFFF reads of the status register; it returns `RES_OK` only after a status with BSY
clear, ERR clear and DRQ set, every earlier status having made it poll again, and then
256 data words are transferred; when the first status that does not make it poll again
has BSY clear and ERR set it returns at once with a result that is not `RES_OK` and
transfers nothing; when all 0x1FFFFF polls make it poll again it returns `RES_ERROR`;
and `disk_read`, on a valid drive, either reads every sector and returns `RES_OK`, or
ends with the first sector read that is not `RES_OK` (the sectors before it read in
full), returns that result and touches the bus no more. -/
theorem disk_read_sector_polling (d : Drive) (sw : Bool) (sector iobase ssel : Nat)
    (b : Bus) :
    (disk_read_sector d sw sector iobase ssel b).2.2.nstatus ≤ b.nstatus + 0x1FFFFF ∧
    ((disk_read_sector d sw sector iobase ssel b).1 = .RES_OK →
      ∃ n, n < 0x1FFFFF ∧ (∀ i, i < n → polls_again (d.status (b.nstatus + i))) ∧
        (d.status (b.nstatus + n) % 256 &&& IDE_STATUS_BSY = 0 ∧
          d.status (b.nstatus + n) % 256 &&& IDE_STATUS_ERR = 0 ∧
          d.status (b.nstatus + n) % 256 &&& IDE_STATUS_DRQ ≠ 0) ∧
        (disk_read_sector d sw sector iobase ssel b).2.2.nstatus = b.nstatus + (n + 1) ∧
        (disk_read_sector d sw sector iobase ssel b).2.1.length = 256 ∧
        (disk_read_sector d sw sector iobase ssel b).2.2.ndata = b.ndata + 256) ∧
    (∀ n, n < 0x1FFFFF → (∀ i, i < n → polls_again (d.status (b.nstatus + i))) →
      (d.status (b.nstatus + n) % 256 &&& IDE_STATUS_BSY = 0 ∧
        d.status (b.nstatus + n) % 256 &&& IDE_STATUS_ERR ≠ 0) →
      (disk_read_sector d sw sector iobase ssel b).1 = .minus_one ∧
      (disk_read_sector d sw sector iobase ssel b).1 ≠ .RES_OK ∧
      (disk_read_sector d sw sector iobase ssel b).2.2.nstatus = b.nstatus + (n + 1) ∧
      (disk_read_sector d sw sector iobase ssel b).2.2.ndata = b.ndata) ∧
    ((∀ i, i < 0x1FFFFF → polls_again (d.status (b.nstatus + i))) →
      (disk_read_sector d sw sector iobase ssel b).1 = .RES_ERROR ∧
      (disk_read_sector d sw sector iobase ssel b).2.2.nstatus = b.nstatus + 0x1FFFFF) ∧
    (∀ pdrv count, pdrv ≤ 3 → ∃ io sel,
      ((disk_read d sw pdrv (sector % 4294967296) count b).1 = .RES_OK ∧
        (disk_read d sw pdrv (sector % 4294967296) count b).2.2.ndata =
          b.ndata + 256 * count ∧
        commands io (disk_read d sw pdrv (sector % 4294967296) count b).2.2.writes =
          commands io b.writes + count) ∨
      (∃ k bk, k < count ∧ bk.ndata = b.ndata + 256 * k ∧
        commands io bk.writes = commands io b.writes + k ∧
        (disk_read_sector d sw ((sector % 4294967296 + k) % 4294967296) io sel bk).1 ≠
          .RES_OK ∧
        (disk_read d sw pdrv (sector % 4294967296) count b).1 =
          (disk_read_sector d sw ((sector % 4294967296 + k) % 4294967296) io sel bk).1 ∧
        (disk_read d sw pdrv (sector % 4294967296) count b).2.2 =
          (disk_read_sector d sw ((sector % 4294967296 + k) % 4294967296) io sel bk).2.2)) := by
  have hc := disk_read_sector_cases d sw sector iobase ssel b
  refine ⟨?_, ?_, ?_, ?_, ?_⟩
  · rcases hc with ⟨n, hn, _, _, _, _, h3, _⟩ | ⟨n, hn, _, _, _, _, h3, _⟩ | ⟨_, _, _, h3, _⟩ <;>
      rw [h3] <;> omega
  · intro hok
    rcases hc with ⟨n, hn, hp, hs, _, h2, h3, h4⟩ | ⟨n, _, _, _, h1, _⟩ | ⟨_, h1, _⟩
    · exact ⟨n, hn, hp, hs, h3, by rw [h2, read_burst_length], h4⟩
    · rw [h1] at hok; cases hok
    · rw [h1] at hok; cases hok
  · intro n hn hp hs
    have hnp := not_polls_again_of_err _ hs
    rcases hc with ⟨m, hm, hpm, hsm, _⟩ | ⟨m, hm, hpm, hsm, h1, _, h3, h4⟩ | ⟨hpm, _⟩
    · have hmp := not_polls_again_of_ready _ hsm
      have e : n = m := by
        rcases Nat.lt_trichotomy n m with h | h | h
        · exact absurd (hpm n h) hnp
        · exact h
        · exact absurd (hp m h) hmp
      subst e
      exact absurd hsm.2.1 hs.2
    · have hmp := not_polls_again_of_err _ hsm
      have e : n = m := by
        rcases Nat.lt_trichotomy n m with h | h | h
        · exact absurd (hpm n h) hnp
        · exact h
        · exact absurd (hp m h) hmp
      subst e
      exact ⟨h1, (by rw [h1]; decide), h3, h4⟩
    · exact absurd (hpm n hn) hnp
  · intro hall
    rcases hc with ⟨m, hm, _, hsm, _⟩ | ⟨m, hm, _, hsm, _⟩ | ⟨_, h1, _, h3, _⟩
    · exact absurd (hall m hm) (not_polls_again_of_ready _ hsm)
    · exact absurd (hall m hm) (not_polls_again_of_err _ hsm)
    · exact ⟨h1, h3⟩
  · intro pdrv count hp
    have hs : sector % 4294967296 < 4294967296 := Nat.mod_lt _ (by decide)
    have key : ∀ io sel,
        disk_read d sw pdrv (sector % 4294967296) count b =
          disk_read_loop d sw io sel count (sector % 4294967296) [] b →
        ((disk_read d sw pdrv (sector % 4294967296) count b).1 = .RES_OK ∧
          (disk_read d sw pdrv (sector % 4294967296) count b).2.2.ndata =
            b.ndata + 256 * count ∧
          commands io (disk_read d sw pdrv (sector % 4294967296) count b).2.2.writes =
            commands io b.writes + count) ∨
        (∃ k bk, k < count ∧ bk.ndata = b.ndata + 256 * k ∧
          commands io bk.writes = commands io b.writes + k ∧
          (disk_read_sector d sw ((sector % 4294967296 + k) % 4294967296) io sel bk).1 ≠
            .RES_OK ∧
          (disk_read d sw pdrv (sector % 4294967296) count b).1 =
            (disk_read_sector d sw ((sector % 4294967296 + k) % 4294967296) io sel bk).1 ∧
          (disk_read d sw pdrv (sector % 4294967296) count b).2.2 =
            (disk_read_sector d sw ((sector % 4294967296 + k) % 4294967296) io sel
              bk).2.2) := by
      intro io sel he
      rw [he]
      rcases disk_read_loop_cases d sw io sel count (sector % 4294967296) [] b hs with
        ⟨h1, _, h3, h4⟩ | ⟨k, bk, hk, g1, g2, g3, g4, g5, _⟩
      · exact Or.inl ⟨h1, h3, h4⟩
      · exact Or.inr ⟨k, bk, hk, g1, g2, g3, g4, g5⟩
    have h4 : pdrv = 0 ∨ pdrv = 1 ∨ pdrv = 2 ∨ pdrv = 3 := by omega
    rcases h4 with h | h | h | h
    · exact ⟨xtide_base, 0, key _ _ (by subst h; rfl)⟩
    · exact ⟨xtide_base, IDE_LBA_3_DEV1, key _ _ (by subst h; rfl)⟩
    · exact ⟨ide_base, 0, key _ _ (by subst h; rfl)⟩
    · exact ⟨ide_base, IDE_LBA_3_DEV1, key _ _ (by subst h; rfl)⟩

/-- C22, on a drive that is busy for one poll and then reports an error, and on one
that is busy for two polls and then offers data. -/
theorem disk_read_sector_polling_witness :
    (disk_read_sector (sample_drive 1 0x01) false 5 xtide_base 0 Bus.init).1 = .minus_one ∧
    (disk_read_sector (sample_drive 1 0x01) false 5 xtide_base 0 Bus.init).2.2.nstatus = 2 ∧
    ∃ n, n < 0x1FFFFF ∧
      (disk_read_sector (sample_drive 2 0x08) false 5 xtide_base 0 Bus.init).2.2.nstatus =
        Bus.init.nstatus + (n + 1) ∧
      (disk_read_sector (sample_drive 2 0x08) false 5 xtide_base 0 Bus.init).2.1.length = 256 := by
  have h := (disk_read_sector_polling (sample_drive 1 0x01) false 5 xtide_base 0
    Bus.init).2.2.1 1 (by decide)
    (fun i hi => by
      have : i = 0 := by omega
      subst this
      exact Or.inl (by decide))
    (by decide)
  have hok : (disk_read_sector (sample_drive 2 0x08) false 5 xtide_base 0 Bus.init).1 =
      .RES_OK := by
    rw [disk_read_sector_eq]
    simp only [Nat.reduceAdd]
    decide
  obtain ⟨n, hn, _, _, h3, h4, _⟩ := (disk_read_sector_polling (sample_drive 2 0x08) false 5
    xtide_base 0 Bus.init).2.1 hok
  exact ⟨h.1, h.2.2.1, n, hn, h3, h4⟩

end Diskio
